import Mathlib

/-!
# Verification of the docxfix generator and validator

A shallow embedding of the docxfix document generator
(src/docxfix/generator.py), its specification model (src/docxfix/spec.py)
and its structural validator (src/docxfix/validator.py), together with
proofs about the claims of the natural-language specification.

Modelling conventions, stated once here and referenced from the
definitions below:

* Python strings are Lean `String`s; indices and slices are character
  based (all texts involved are ASCII).
* `datetime` values are carried as their already-formatted
  `YYYY-MM-DDThh:mm:ssZ` strings: the generator only ever formats dates
  with a single fixed format, so a spec entity's timestamp is modelled
  as the string the generator would embed.
* The module-level state of Python's `random` module is abstracted as a
  `Nat`.  `random.seed(s)` sets the state to a function of `s`;
  each call of `random.choices` reads the state and advances it.  One
  draw of `_generate_hex_id(8)` is modelled as a deterministic
  function of the state that also advances the state; this reflects
  exactly the two facts the claims depend on: the stream is a
  deterministic function of the seeded state, and every draw perturbs
  the module-level state.
* lxml element trees are modelled by the inductive `XNode`; namespaces
  are carried as literal prefixes in tag and attribute names (the
  source uses a fixed prefix-to-URI table, so this renaming is
  injective).
* The zip container is modelled as the ordered list of written parts
  (name plus content).  Zip-level metadata (entry timestamps etc.) is
  outside the model; the claims below are about part contents.
-/

namespace Docxfix

/-! ## Models of Python built-ins -/

/-- One decimal digit as a character, `0 ↦ '0'`, ... -/
def digitChar (d : Nat) : Char := Char.ofNat (48 + d)

/-- Decimal digits of `n`, least significant first (empty for `0`). -/
def natDigitsRev (n : Nat) : List Nat :=
  if h : n = 0 then [] else (n % 10) :: natDigitsRev (n / 10)
decreasing_by exact Nat.div_lt_self (Nat.pos_of_ne_zero h) (by decide)

/-- Value of a least-significant-first digit list. -/
def decodeDigitsRev : List Nat → Nat
  | [] => 0
  | d :: ds => d + 10 * decodeDigitsRev ds

theorem decodeDigitsRev_natDigitsRev (n : Nat) :
    decodeDigitsRev (natDigitsRev n) = n := by
  induction n using Nat.strong_induction_on with
  | _ n ih =>
    unfold natDigitsRev
    by_cases h : n = 0
    · simp [h, decodeDigitsRev]
    · simp only [h, dite_false, decodeDigitsRev]
      rw [ih (n / 10) (Nat.div_lt_self (Nat.pos_of_ne_zero h) (by decide))]
      omega

theorem natDigitsRev_lt_ten (n : Nat) : ∀ d ∈ natDigitsRev n, d < 10 := by
  induction n using Nat.strong_induction_on with
  | _ n ih =>
    unfold natDigitsRev
    by_cases h : n = 0
    · simp [h]
    · simp only [h, dite_false, List.mem_cons]
      rintro d (rfl | hd)
      · exact Nat.mod_lt _ (by decide)
      · exact ih (n / 10) (Nat.div_lt_self (Nat.pos_of_ne_zero h) (by decide)) d hd

/-- Model of Python `str(n)` for a non-negative integer. -/
def natToStr (n : Nat) : String :=
  if n = 0 then "0" else String.mk (((natDigitsRev n).reverse).map digitChar)

theorem digitChar_inj {a b : Nat} (ha : a < 10) (hb : b < 10)
    (h : digitChar a = digitChar b) : a = b := by
  interval_cases a <;> interval_cases b <;> first | rfl | (exfalso; revert h; decide)

theorem map_digitChar_inj : ∀ {l₁ l₂ : List Nat},
    (∀ d ∈ l₁, d < 10) → (∀ d ∈ l₂, d < 10) →
    l₁.map digitChar = l₂.map digitChar → l₁ = l₂
  | [], [], _, _, _ => rfl
  | [], _ :: _, _, _, h => by simp at h
  | _ :: _, [], _, _, h => by simp at h
  | a :: l₁, b :: l₂, h₁, h₂, h => by
    simp only [List.map_cons, List.cons.injEq] at h
    have hab : a = b :=
      digitChar_inj (h₁ a (by simp)) (h₂ b (by simp)) h.1
    have : l₁ = l₂ :=
      map_digitChar_inj (fun d hd => h₁ d (by simp [hd]))
        (fun d hd => h₂ d (by simp [hd])) h.2
    rw [hab, this]

theorem natToStr_inj : Function.Injective natToStr := by
  intro m n h
  unfold natToStr at h
  by_cases hm : m = 0 <;> by_cases hn : n = 0
  · omega
  · exfalso
    simp only [hm, ite_true, hn, ite_false] at h
    have h0 : ("0" : String) = String.mk ['0'] := rfl
    rw [h0] at h
    have hl : ['0'] = ((natDigitsRev n).reverse).map digitChar := by
      have := congrArg String.data h; simpa using this
    have : [0] = (natDigitsRev n).reverse := by
      have : ([0] : List Nat).map digitChar = ((natDigitsRev n).reverse).map digitChar := by
        simpa [digitChar] using hl
      exact map_digitChar_inj (by simp)
        (fun d hd => natDigitsRev_lt_ten n d (List.mem_reverse.mp hd)) this
    have hdig : natDigitsRev n = [0] := by
      have h2 := congrArg List.reverse this.symm
      simpa using h2
    have := decodeDigitsRev_natDigitsRev n
    rw [hdig] at this
    simp [decodeDigitsRev] at this
    omega
  · exfalso
    simp only [hm, ite_false, hn, ite_true] at h
    have h0 : ("0" : String) = String.mk ['0'] := rfl
    rw [h0] at h
    have hl : ((natDigitsRev m).reverse).map digitChar = ['0'] := by
      have := congrArg String.data h; simpa using this
    have : (natDigitsRev m).reverse = [0] := by
      have : ((natDigitsRev m).reverse).map digitChar = ([0] : List Nat).map digitChar := by
        simpa [digitChar] using hl
      exact map_digitChar_inj
        (fun d hd => natDigitsRev_lt_ten m d (List.mem_reverse.mp hd)) (by simp) this
    have hdig : natDigitsRev m = [0] := by
      have := congrArg List.reverse this; simpa using this
    have := decodeDigitsRev_natDigitsRev m
    rw [hdig] at this
    simp [decodeDigitsRev] at this
    omega
  · simp only [hm, hn, ite_false] at h
    have hl : ((natDigitsRev m).reverse).map digitChar
        = ((natDigitsRev n).reverse).map digitChar := by
      have := congrArg String.data h; simpa using this
    have hrev : (natDigitsRev m).reverse = (natDigitsRev n).reverse :=
      map_digitChar_inj
        (fun d hd => natDigitsRev_lt_ten m d (List.mem_reverse.mp hd))
        (fun d hd => natDigitsRev_lt_ten n d (List.mem_reverse.mp hd)) hl
    have hdig : natDigitsRev m = natDigitsRev n := by
      have := congrArg List.reverse hrev; simpa using this
    have h1 := decodeDigitsRev_natDigitsRev m
    have h2 := decodeDigitsRev_natDigitsRev n
    rw [hdig] at h1
    omega

/-- One hexadecimal digit as an uppercase character. -/
def hexChar (d : Nat) : Char :=
  if d < 10 then Char.ofNat (48 + d) else Char.ofNat (55 + d)

/-- Eight uppercase hexadecimal characters encoding `n % 16 ^ 8`,
most significant first.  This is the value one call of
`random.choices("0123456789ABCDEF", k=8)` is modelled to return when
the module-level generator state is `n` (see the module docstring). -/
def toHex8 (n : Nat) : String :=
  String.mk (((List.range 8).reverse).map (fun i => hexChar (n / 16 ^ i % 16)))

/-- Model of `DocumentGenerator._generate_hex_id(8)`: one draw from the
module-level `random` generator.  Returns the drawn identifier and the
advanced module-level state. -/
def generateHexId (g : Nat) : String × Nat := (toHex8 g, g + 1)

/-- Model of Python `str.upper()`. -/
def pyUpper (s : String) : String := String.mk (s.data.map Char.toUpper)

/-- Auxiliary for `strFind`: first index at or after `i` where `needle`
occurs in `hay`. -/
def findSubAux (needle : List Char) : List Char → Nat → Option Nat
  | [], i => if needle.isPrefixOf ([] : List Char) then some i else none
  | c :: t, i =>
    if needle.isPrefixOf (c :: t) then some i else findSubAux needle t (i + 1)

/-- Model of Python `hay.find(needle)` (and of `hay.index(needle)` on the
found branch): index of the first occurrence, `none` when absent. -/
def strFind (hay needle : String) : Option Nat := findSubAux needle.data hay.data 0

/-- Model of Python `needle in hay` for strings. -/
def strContains (hay needle : String) : Bool := (strFind hay needle).isSome

/-- Model of the Python slice `s[a:b]` (non-negative bounds). -/
def strSlice (s : String) (a b : Nat) : String :=
  String.mk ((s.data.drop a).take (b - a))

/-- Model of the Python slice `s[a:]` (non-negative bound). -/
def strSliceFrom (s : String) (a : Nat) : String := String.mk (s.data.drop a)

/-- Model of Python `s.strip()`: drop leading and trailing whitespace. -/
def pyStrip (s : String) : String :=
  String.mk (((s.data.dropWhile Char.isWhitespace).reverse.dropWhile
    Char.isWhitespace).reverse)

/-- Model of Python truthiness of an `Optional[int]` (`None` and `0` are
falsy). -/
def pyTruthyOptNat : Option Nat → Bool
  | none => false
  | some n => decide (n ≠ 0)

/-! ### A stable sort-by-key, modelling Python `list.sort(key=...)` /
`sorted(key=...)`.

CPython's sort is stable, so its output on key type `Nat × Nat` equals
the output of any sort of the index-enumerated list under the strict
lexicographic order on `(key₁, key₂, original index)`. -/

/-- Pair every element with its position, starting at `i`. -/
def enumIdx : Nat → List α → List (Nat × α)
  | _, [] => []
  | i, a :: l => (i, a) :: enumIdx (i + 1) l

/-- Lexicographic comparison on triples of naturals. -/
def le3 (a b : Nat × Nat × Nat) : Bool :=
  if a.1 = b.1 then
    (if a.2.1 = b.2.1 then decide (a.2.2 ≤ b.2.2) else decide (a.2.1 < b.2.1))
  else decide (a.1 < b.1)

theorem le3_trans (a b c : Nat × Nat × Nat) :
    le3 a b = true → le3 b c = true → le3 a c = true := by
  unfold le3
  rcases a with ⟨a1, a2, a3⟩
  rcases b with ⟨b1, b2, b3⟩
  rcases c with ⟨c1, c2, c3⟩
  simp only
  split_ifs <;> simp only [decide_eq_true_eq] <;> omega

theorem le3_total (a b : Nat × Nat × Nat) : (le3 a b || le3 b a) = true := by
  unfold le3
  rcases a with ⟨a1, a2, a3⟩
  rcases b with ⟨b1, b2, b3⟩
  simp only
  split_ifs <;> simp only [decide_eq_true_eq, Bool.or_eq_true] <;> omega

/-- The sort key used by the stable-sort model: the Python key extended
with the original index. -/
def sortTriple (key : α → Nat × Nat) (p : Nat × α) : Nat × Nat × Nat :=
  ((key p.2).1, (key p.2).2, p.1)

/-- The order the stable-sort model sorts by: lexicographic on the
extended key.  On distinct enumeration indices this order is strict, so
its sorted permutation is unique, and it equals the output of CPython's
stable sort by `key`. -/
def pySortLe (key : α → Nat × Nat) (a b : Nat × α) : Prop :=
  le3 (sortTriple key a) (sortTriple key b) = true

instance (key : α → Nat × Nat) : DecidableRel (pySortLe key) := fun a b =>
  instDecidableEqBool (le3 (sortTriple key a) (sortTriple key b)) true

/-- Model of Python's stable `sorted(l, key=key)` for a key of type
`Nat × Nat`. -/
def pySortBy (key : α → Nat × Nat) (l : List α) : List α :=
  ((enumIdx 0 l).insertionSort (pySortLe key)).map Prod.snd

theorem enumIdx_map_snd (i : Nat) (l : List α) :
    (enumIdx i l).map Prod.snd = l := by
  induction l generalizing i with
  | nil => rfl
  | cons a l ih => simp [enumIdx, ih]

theorem pySortBy_perm (key : α → Nat × Nat) (l : List α) :
    (pySortBy key l).Perm l := by
  unfold pySortBy
  have h := List.perm_insertionSort (pySortLe key) (enumIdx 0 l)
  have := h.map Prod.snd
  rwa [enumIdx_map_snd] at this

/-- Non-strict lexicographic order on the Python keys. -/
def keyLe (a b : Nat × Nat) : Prop := a.1 < b.1 ∨ (a.1 = b.1 ∧ a.2 ≤ b.2)

theorem le3_keyLe {key : α → Nat × Nat} {a b : Nat × α}
    (h : le3 (sortTriple key a) (sortTriple key b) = true) :
    keyLe (key a.2) (key b.2) := by
  unfold le3 sortTriple at h
  unfold keyLe
  rcases hk : key a.2 with ⟨x1, x2⟩
  rcases hk2 : key b.2 with ⟨y1, y2⟩
  rw [hk, hk2] at h
  simp only at h
  split at h <;> [skip; (left; simpa using h)]
  split at h <;> simp_all <;> omega

theorem pySortBy_sorted (key : α → Nat × Nat) (l : List α) :
    ((enumIdx 0 l).insertionSort (pySortLe key)).Pairwise (pySortLe key) := by
  haveI : IsTotal (Nat × α) (pySortLe key) :=
    ⟨fun a b => by
      have := le3_total (sortTriple key a) (sortTriple key b)
      rcases Bool.or_eq_true_iff.mp this with h | h
      · exact Or.inl h
      · exact Or.inr h⟩
  haveI : IsTrans (Nat × α) (pySortLe key) :=
    ⟨fun a b c hab hbc => le3_trans _ _ _ hab hbc⟩
  exact List.sorted_insertionSort (pySortLe key) (enumIdx 0 l)

theorem pySortBy_pairwise (key : α → Nat × Nat) (l : List α) :
    (pySortBy key l).Pairwise (fun a b => keyLe (key a) (key b)) := by
  unfold pySortBy
  exact (List.pairwise_map).mpr ((pySortBy_sorted key l).imp (fun hab => le3_keyLe hab))

/-! ## The specification model (src/docxfix/spec.py)

Timestamps (`date` fields) are carried as their formatted
`strftime("%Y-%m-%dT%H:%M:%SZ")` strings and have no default: the
claims treated here concern specs whose entities carry explicit
timestamps (the source defaults a missing `date` to `datetime.now()`,
which is wall-clock input). -/

/-- Kind of a tracked change (`spec.ChangeType`). -/
inductive ChangeType where
  | insertion
  | deletion
deriving DecidableEq, Repr

/-- `spec.TrackedChange`.  `revision_id` is carried but never read by the
generator, as in the source. -/
structure TrackedChange where
  change_type : ChangeType
  text : String
  author : String := "Test User"
  date : String
  revision_id : Nat := 1
  insert_after : String := ""
deriving DecidableEq, Repr

/-- `spec.CommentReply`. -/
structure CommentReply where
  text : String
  author : String := "Test User"
  date : String
deriving DecidableEq, Repr

/-- `spec.Comment`. -/
structure Comment where
  text : String
  anchor_text : String
  author : String := "Test User"
  date : String
  replies : List CommentReply := []
  resolved : Bool := false
deriving DecidableEq, Repr

/-- `spec.NumberedParagraph`. -/
structure NumberedParagraph where
  level : Nat := 0
  numbering_id : Nat := 1
deriving DecidableEq, Repr

/-- `spec.PageOrientation`. -/
inductive PageOrientation where
  | portrait
  | landscape
deriving DecidableEq, Repr

/-- `spec.HeaderFooterSet`. -/
structure HeaderFooterSet where
  default : Option String := none
  first : Option String := none
  even : Option String := none
deriving DecidableEq, Repr

/-- `spec.SectionSpec`.  `start_paragraph` is a `Nat`; the source raises
`ValueError` for negative values in `__post_init__`, so non-negative
starts are an invariant of every constructed spec. -/
structure SectionSpec where
  start_paragraph : Nat
  break_type : String := "nextPage"
  orientation : PageOrientation := .portrait
  restart_page_numbering : Bool := false
  page_number_start : Option Nat := none
  headers : HeaderFooterSet := {}
  footers : HeaderFooterSet := {}
deriving DecidableEq, Repr

/-- `spec.Paragraph`. -/
structure Paragraph where
  text : String
  tracked_changes : List TrackedChange := []
  comments : List Comment := []
  numbering : Option NumberedParagraph := none
  heading_level : Option Nat := none
deriving DecidableEq, Repr

/-- `spec.DocumentSpec`. -/
structure DocumentSpec where
  paragraphs : List Paragraph := []
  title : String := "Test Document"
  author : String := "Test User"
  seed : Option Nat := none
  sections : List SectionSpec := []
deriving DecidableEq, Repr

/-! ## The XML tree model

lxml element trees are modelled by `XNode`; Clark-notation tags
(`{uri}local`) are rendered as fixed prefixed names (`w:p` etc.), which
is injective because the source draws all URIs from one fixed prefix
table. -/

/-- An XML element or text node. -/
inductive XNode where
  | elem (tag : String) (attrs : List (String × String)) (children : List XNode)
  | text (s : String)

mutual

/-- Decidable equality of nodes (written out because the nested
occurrence of `List XNode` defeats the deriving handler). -/
def XNode.decEq : (x y : XNode) → Decidable (x = y)
  | .elem t a c, .elem t' a' c' =>
    if h1 : t = t' then
      if h2 : a = a' then
        match XNode.decEqList c c' with
        | isTrue h3 => isTrue (by rw [h1, h2, h3])
        | isFalse h3 => isFalse (by intro h; cases h; exact h3 rfl)
      else isFalse (by intro h; cases h; exact h2 rfl)
    else isFalse (by intro h; cases h; exact h1 rfl)
  | .elem _ _ _, .text _ => isFalse (by intro h; cases h)
  | .text _, .elem _ _ _ => isFalse (by intro h; cases h)
  | .text s, .text s' =>
    if h : s = s' then isTrue (by rw [h])
    else isFalse (by intro hh; cases hh; exact h rfl)

/-- Decidable equality of node lists. -/
def XNode.decEqList : (xs ys : List XNode) → Decidable (xs = ys)
  | [], [] => isTrue rfl
  | x :: xs, y :: ys =>
    match XNode.decEq x y, XNode.decEqList xs ys with
    | isTrue h1, isTrue h2 => isTrue (by rw [h1, h2])
    | isFalse h1, _ => isFalse (by intro h; cases h; exact h1 rfl)
    | _, isFalse h2 => isFalse (by intro h; cases h; exact h2 rfl)
  | [], _ :: _ => isFalse (by intro h; cases h)
  | _ :: _, [] => isFalse (by intro h; cases h)

end

instance : DecidableEq XNode := XNode.decEq

/-- The tag of an element node (text nodes have no tag). -/
def XNode.tagOf : XNode → String
  | .elem t _ _ => t
  | .text _ => ""

/-- The attribute list of a node. -/
def XNode.attrsOf : XNode → List (String × String)
  | .elem _ a _ => a
  | .text _ => []

/-- The child list of a node. -/
def XNode.childrenOf : XNode → List XNode
  | .elem _ _ c => c
  | .text _ => []

/-- Model of lxml `node.get(key)`. -/
def XNode.attr? (n : XNode) (key : String) : Option String :=
  n.attrsOf.lookup key

/-- Model of lxml `node.find(tag)`: first direct child with the tag. -/
def XNode.findChild (n : XNode) (tag : String) : Option XNode :=
  n.childrenOf.find? (fun c => c.tagOf == tag)

/-- Model of lxml `node.findall(tag)`: direct children with the tag. -/
def XNode.findChildren (n : XNode) (tag : String) : List XNode :=
  n.childrenOf.filter (fun c => c.tagOf == tag)

mutual

/-- All descendants of a node in document order (model of the node set
lxml `findall(".//tag")` filters). -/
def XNode.descendants : XNode → List XNode
  | .text _ => []
  | .elem _ _ cs => descendantsList cs

/-- Descendants-with-selves of a node list, in document order. -/
def descendantsList : List XNode → List XNode
  | [] => []
  | c :: cs => c :: XNode.descendants c ++ descendantsList cs

end

/-! ## Generator state (src/docxfix/generator.py)

`DocumentGenerator` instance state that evolves during one generation:
the module-level random state (see the module docstring) plus the
revision and comment counters and the accumulated comment metadata. -/

/-- One entry of `DocumentGenerator._comment_metadata`. -/
structure CommentMetadata where
  id : String
  para_id : String
  durable_id : String
  author : String
  date : String
  text : String
  resolved : Bool
  parent_para_id : Option String
deriving DecidableEq, Repr

/-- The mutable generator state threaded through synthesis. -/
structure GenState where
  rng : Nat
  revision_counter : Nat := 0
  comment_counter : Nat := 0
  comment_metadata : List CommentMetadata := []
deriving DecidableEq, Repr

/-! ## Paragraph content synthesis -/

/-- The `xml:space="preserve"` attribute set exactly when the text
differs from its stripped form (`_add_text_run` and
`_emit_tracked_change`). -/
def spacePreserveAttrs (text : String) : List (String × String) :=
  if text ≠ pyStrip text then [("xml:space", "preserve")] else []

/-- `DocumentGenerator._add_text_run`. -/
def addTextRun (text : String) : XNode :=
  .elem "w:r" [] [.elem "w:t" (spacePreserveAttrs text) [.text text]]

/-- `DocumentGenerator._emit_tracked_change`: increments the revision
counter and produces one `w:ins` or `w:del` element. -/
def emitTrackedChange (change : TrackedChange) (st : GenState) : XNode × GenState :=
  let rc := st.revision_counter + 1
  let st' := { st with revision_counter := rc }
  match change.change_type with
  | .insertion =>
    (.elem "w:ins"
      [("w:id", natToStr rc), ("w:author", change.author), ("w:date", change.date)]
      [.elem "w:r" [] [.elem "w:t" (spacePreserveAttrs change.text) [.text change.text]]], st')
  | .deletion =>
    (.elem "w:del"
      [("w:id", natToStr rc), ("w:author", change.author), ("w:date", change.date)]
      [.elem "w:r" [] [.elem "w:delText" (spacePreserveAttrs change.text) [.text change.text]]], st')

/-- Kind tag of a tracked-change event in
`_add_paragraph_with_tracked_changes`. -/
inductive TcKind where
  | ins
  | del
deriving DecidableEq, Repr

/-- Position of a tracked-change event (`_add_paragraph_with_tracked_changes`,
event construction). -/
def tcEventFor (base_text : String) (change : TrackedChange) :
    Nat × TcKind × TrackedChange :=
  match change.change_type with
  | .deletion =>
    match strFind base_text change.text with
    | none => (base_text.length, .del, change)
    | some idx => (idx, .del, change)
  | .insertion =>
    if change.insert_after ≠ "" then
      match strFind base_text change.insert_after with
      | some idx => (idx + change.insert_after.length, .ins, change)
      | none => (base_text.length, .ins, change)
    else (base_text.length, .ins, change)

/-- Sort key of the tracked-changes-only path: position, insertions
before deletions at equal positions. -/
def tcSortKey (e : Nat × TcKind × TrackedChange) : Nat × Nat :=
  (e.1, match e.2.1 with | .ins => 0 | .del => 1)

/-- The cursor walk of `_add_paragraph_with_tracked_changes`. -/
def tcWalk (base_text : String) :
    List (Nat × TcKind × TrackedChange) → Nat → GenState →
    List XNode × Nat × GenState
  | [], cursor, st => ([], cursor, st)
  | (pos, kind, change) :: rest, cursor, st =>
    match kind with
    | .del =>
      let pre : List XNode :=
        if cursor < pos then [addTextRun (strSlice base_text cursor pos)] else []
      let node := (emitTrackedChange change st).fst
      let st1 := (emitTrackedChange change st).snd
      let rest' := tcWalk base_text rest (pos + change.text.length) st1
      (pre ++ node :: rest'.fst, rest'.snd.fst, rest'.snd.snd)
    | .ins =>
      let pre : List XNode :=
        if cursor < pos then [addTextRun (strSlice base_text cursor pos)] else []
      let cursor' := if cursor < pos then pos else cursor
      let node := (emitTrackedChange change st).fst
      let st1 := (emitTrackedChange change st).snd
      let rest' := tcWalk base_text rest cursor' st1
      (pre ++ node :: rest'.fst, rest'.snd.fst, rest'.snd.snd)

/-- The legacy empty-base-text path: emit changes in declaration order. -/
def emitChangesSeq : List TrackedChange → GenState → List XNode × GenState
  | [], st => ([], st)
  | c :: cs, st =>
    let n := (emitTrackedChange c st).fst
    let rest := emitChangesSeq cs (emitTrackedChange c st).snd
    (n :: rest.fst, rest.snd)

/-- `DocumentGenerator._add_paragraph_with_tracked_changes`: the list of
child nodes appended to the paragraph. -/
def addParagraphWithTrackedChanges (para_spec : Paragraph) (st : GenState) :
    List XNode × GenState :=
  if para_spec.text = "" then
    emitChangesSeq para_spec.tracked_changes st
  else
    let events := pySortBy tcSortKey (para_spec.tracked_changes.map (tcEventFor para_spec.text))
    let walk := tcWalk para_spec.text events 0 st
    let tailRun : List XNode :=
      if walk.snd.fst < para_spec.text.length
      then [addTextRun (strSliceFrom para_spec.text walk.snd.fst)] else []
    (walk.fst ++ tailRun, walk.snd.snd)

/-- `DocumentGenerator._add_comment_reference_run` together with the
`w:r` element it populates. -/
def commentReferenceRun (comment_id : String) : XNode :=
  .elem "w:r" []
    [.elem "w:rPr" []
      [.elem "w:rStyle" [("w:val", "CommentReference")] [],
       .elem "w:sz" [("w:val", "24")] [],
       .elem "w:szCs" [("w:val", "24")] []],
     .elem "w:commentReference" [("w:id", comment_id)] []]

/-- Registration of the replies of one comment: allocates ids and
paragraph/durable identifiers and records the parent link (the reply
loop shared verbatim by `_add_paragraph_with_comments` and
`_add_paragraph_with_comments_and_tracked_changes`).  Arguments after
the reply list: the comment counter and the module random state.
Returns the metadata entries, the reply id list, and the advanced
counter and random state. -/
def registerReplies (parent_para_id : String) (resolved : Bool) :
    List CommentReply → Nat → Nat →
    List CommentMetadata × List String × Nat × Nat
  | [], cc, g => ([], [], cc, g)
  | r :: rs, cc, g =>
    let reply_id := natToStr cc
    let reply_para_id := pyUpper (generateHexId g).fst
    let g1 := (generateHexId g).snd
    let reply_durable_id := pyUpper (generateHexId g1).fst
    let g2 := (generateHexId g1).snd
    let md : CommentMetadata :=
      { id := reply_id, para_id := reply_para_id, durable_id := reply_durable_id,
        author := r.author, date := r.date, text := r.text, resolved := resolved,
        parent_para_id := some parent_para_id }
    let rest := registerReplies parent_para_id resolved rs (cc + 1) g2
    (md :: rest.1, reply_id :: rest.2.1, rest.2.2.1, rest.2.2.2)

/-- Registration of one comment and its replies: the metadata block
shared verbatim by both comment-bearing paragraph paths.  For the
top-level comment the durable identifier is set equal to its paragraph
identifier.  Returns the comment id, the reply ids, the parent
paragraph identifier and the updated state. -/
def registerComment (comment : Comment) (st : GenState) :
    String × List String × String × GenState :=
  let comment_id := natToStr st.comment_counter
  let parent_para_id := pyUpper (generateHexId st.rng).fst
  let g := (generateHexId st.rng).snd
  let durable_id := parent_para_id
  let md : CommentMetadata :=
    { id := comment_id, para_id := parent_para_id, durable_id := durable_id,
      author := comment.author, date := comment.date, text := comment.text,
      resolved := comment.resolved, parent_para_id := none }
  let rr :=
    registerReplies parent_para_id comment.resolved comment.replies
      (st.comment_counter + 1) g
  (comment_id, rr.2.1, parent_para_id,
   { rng := rr.2.2.2, revision_counter := st.revision_counter, comment_counter := rr.2.2.1,
     comment_metadata := st.comment_metadata ++ md :: rr.1 })

/-- The before/after split of `_add_paragraph_with_comments`: slices
around the first occurrence of the anchor, or empty slices when the
anchor is absent (whole-paragraph fallback). -/
def commentSpan (full_text anchor_text : String) : String × String :=
  if strContains full_text anchor_text then
    match strFind full_text anchor_text with
    | some i => (strSlice full_text 0 i, strSliceFrom full_text (i + anchor_text.length))
    | none => ("", "")
  else ("", "")

/-- One iteration of the comment loop of
`_add_paragraph_with_comments`: the nodes emitted for one comment.
When the anchor is not found the whole-paragraph fallback applies
(empty before/after, the emitted run carrying the anchor text). -/
def commentSegment (full_text : String) (comment : Comment) (st : GenState) :
    List XNode × GenState :=
  let anchor_text := comment.anchor_text
  let span := commentSpan full_text anchor_text
  let before_text := span.fst
  let after_text := span.snd
  let comment_id := (registerComment comment st).1
  let reply_ids := (registerComment comment st).2.1
  let st1 := (registerComment comment st).2.2.2
  let beforeRun : List XNode :=
    if before_text ≠ "" then
      [.elem "w:r" [] [.elem "w:t" [("xml:space", "preserve")] [.text before_text]]]
    else []
  let starts := XNode.elem "w:commentRangeStart" [("w:id", comment_id)] [] ::
    reply_ids.map (fun rid => XNode.elem "w:commentRangeStart" [("w:id", rid)] [])
  let anchorRun := XNode.elem "w:r" [] [.elem "w:t" [] [.text anchor_text]]
  let ends := XNode.elem "w:commentRangeEnd" [("w:id", comment_id)] [] ::
    reply_ids.map (fun rid => XNode.elem "w:commentRangeEnd" [("w:id", rid)] [])
  let refs := commentReferenceRun comment_id :: reply_ids.map commentReferenceRun
  let afterRun : List XNode :=
    if after_text ≠ "" then
      [.elem "w:r" [] [.elem "w:t" [] [.text after_text]]]
    else []
  (beforeRun ++ starts ++ [anchorRun] ++ ends ++ refs ++ afterRun, st1)

/-- The comment loop of `_add_paragraph_with_comments`. -/
def commentSegments (full_text : String) :
    List Comment → GenState → List XNode × GenState
  | [], st => ([], st)
  | c :: cs, st =>
    let seg := commentSegment full_text c st
    let rest := commentSegments full_text cs seg.snd
    (seg.fst ++ rest.fst, rest.snd)

/-- `DocumentGenerator._add_paragraph_with_comments`. -/
def addParagraphWithComments (para_spec : Paragraph) (st : GenState) :
    List XNode × GenState :=
  commentSegments para_spec.text para_spec.comments st

/-- The id payload a comment contributes to its range events in the
combined path. -/
structure CommentInfo where
  comment_id : String
  reply_ids : List String
deriving DecidableEq, Repr

/-- One event of the merged walk of
`_add_paragraph_with_comments_and_tracked_changes`. -/
inductive MixedEvent where
  | ins (pos : Nat) (change : TrackedChange)
  | del (pos : Nat) (change : TrackedChange)
  | commentStart (pos : Nat) (info : CommentInfo)
  | commentEnd (pos : Nat) (info : CommentInfo)
deriving DecidableEq, Repr

/-- Text offset of an event. -/
def MixedEvent.pos : MixedEvent → Nat
  | .ins p _ => p
  | .del p _ => p
  | .commentStart p _ => p
  | .commentEnd p _ => p

/-- The ORDER table of the combined path: comment-range-start 0,
insertion 1, deletion 2, comment-range-end 3. -/
def MixedEvent.orderRank : MixedEvent → Nat
  | .commentStart _ _ => 0
  | .ins _ _ => 1
  | .del _ _ => 2
  | .commentEnd _ _ => 3

/-- Sort key of the combined path: `(position, ORDER)`. -/
def mixedSortKey (e : MixedEvent) : Nat × Nat := (e.pos, e.orderRank)

/-- Tracked-change event construction in the combined path (the same
positioning block as `tcEventFor`, duplicated as in the source). -/
def mixedTcEvent (base_text : String) (change : TrackedChange) : MixedEvent :=
  match change.change_type with
  | .deletion =>
    match strFind base_text change.text with
    | none => .del base_text.length change
    | some idx => .del idx change
  | .insertion =>
    if change.insert_after ≠ "" then
      match strFind base_text change.insert_after with
      | some idx => .ins (idx + change.insert_after.length) change
      | none => .ins base_text.length change
    else .ins base_text.length change

/-- Comment event construction of the combined path: per comment, a
range-start and a range-end event carrying the comment id and the reply
ids, with metadata registered on the way. -/
def buildCommentEvents (base_text : String) :
    List Comment → GenState → List MixedEvent × GenState
  | [], st => ([], st)
  | comment :: cs, st =>
    let span :=
      if strContains base_text comment.anchor_text then
        match strFind base_text comment.anchor_text with
        | some i => (i, i + comment.anchor_text.length)
        | none => (0, base_text.length)
      else (0, base_text.length)
    let info : CommentInfo :=
      { comment_id := (registerComment comment st).1,
        reply_ids := (registerComment comment st).2.1 }
    let rest := buildCommentEvents base_text cs (registerComment comment st).2.2.2
    (MixedEvent.commentStart span.fst info :: MixedEvent.commentEnd span.snd info :: rest.fst,
     rest.snd)

/-- The cursor walk of
`_add_paragraph_with_comments_and_tracked_changes`. -/
def mixedWalk (base_text : String) :
    List MixedEvent → Nat → GenState → List XNode × Nat × GenState
  | [], cursor, st => ([], cursor, st)
  | e :: rest, cursor, st =>
    match e with
    | .commentStart pos info =>
      let pre : List XNode :=
        if cursor < pos then [addTextRun (strSlice base_text cursor pos)] else []
      let cursor' := if cursor < pos then pos else cursor
      let nodes := XNode.elem "w:commentRangeStart" [("w:id", info.comment_id)] [] ::
        info.reply_ids.map (fun rid => XNode.elem "w:commentRangeStart" [("w:id", rid)] [])
      let rest' := mixedWalk base_text rest cursor' st
      (pre ++ nodes ++ rest'.fst, rest'.snd.fst, rest'.snd.snd)
    | .commentEnd pos info =>
      let pre : List XNode :=
        if cursor < pos then [addTextRun (strSlice base_text cursor pos)] else []
      let cursor' := if cursor < pos then pos else cursor
      let ends := XNode.elem "w:commentRangeEnd" [("w:id", info.comment_id)] [] ::
        info.reply_ids.map (fun rid => XNode.elem "w:commentRangeEnd" [("w:id", rid)] [])
      let refs := commentReferenceRun info.comment_id ::
        info.reply_ids.map commentReferenceRun
      let rest' := mixedWalk base_text rest cursor' st
      (pre ++ ends ++ refs ++ rest'.fst, rest'.snd.fst, rest'.snd.snd)
    | .del pos change =>
      let pre : List XNode :=
        if cursor < pos then [addTextRun (strSlice base_text cursor pos)] else []
      let node := (emitTrackedChange change st).fst
      let st1 := (emitTrackedChange change st).snd
      let rest' := mixedWalk base_text rest (pos + change.text.length) st1
      (pre ++ node :: rest'.fst, rest'.snd.fst, rest'.snd.snd)
    | .ins pos change =>
      let pre : List XNode :=
        if cursor < pos then [addTextRun (strSlice base_text cursor pos)] else []
      let cursor' := if cursor < pos then pos else cursor
      let node := (emitTrackedChange change st).fst
      let st1 := (emitTrackedChange change st).snd
      let rest' := mixedWalk base_text rest cursor' st1
      (pre ++ node :: rest'.fst, rest'.snd.fst, rest'.snd.snd)

/-- The merged, sorted event sequence of
`_add_paragraph_with_comments_and_tracked_changes` (steps 1-3), with
the state after comment registration. -/
def mixedAllEvents (para_spec : Paragraph) (st : GenState) :
    List MixedEvent × GenState :=
  (pySortBy mixedSortKey
    (para_spec.tracked_changes.map (mixedTcEvent para_spec.text) ++
     (buildCommentEvents para_spec.text para_spec.comments st).fst),
   (buildCommentEvents para_spec.text para_spec.comments st).snd)

/-- `DocumentGenerator._add_paragraph_with_comments_and_tracked_changes`. -/
def addParagraphWithCommentsAndTrackedChanges (para_spec : Paragraph)
    (st : GenState) : List XNode × GenState :=
  let base_text := para_spec.text
  let walk := mixedWalk base_text (mixedAllEvents para_spec st).fst 0
    (mixedAllEvents para_spec st).snd
  let tailRun : List XNode :=
    if walk.snd.fst < base_text.length
    then [addTextRun (strSliceFrom base_text walk.snd.fst)] else []
  (walk.fst ++ tailRun, walk.snd.snd)

/-- The paragraph-properties element `_add_paragraph` creates for
numbered or heading paragraphs (empty list otherwise). -/
def paragraphPPr (para_spec : Paragraph) : List XNode :=
  match para_spec.numbering with
  | some num =>
    [XNode.elem "w:pPr" []
      [.elem "w:pStyle" [("w:val", "ListParagraph")] [],
       .elem "w:numPr" []
        [.elem "w:ilvl" [("w:val", natToStr num.level)] [],
         .elem "w:numId" [("w:val", natToStr num.numbering_id)] []]]]
  | none =>
    if pyTruthyOptNat para_spec.heading_level then
      match para_spec.heading_level with
      | some h => [XNode.elem "w:pPr" []
          [.elem "w:pStyle" [("w:val", "Heading" ++ natToStr h)] []]]
      | none => []
    else []

/-- The content dispatch of `_add_paragraph` (the four content paths,
selected by Python truthiness of the lists). -/
def paragraphContent (para_spec : Paragraph) (st : GenState) :
    List XNode × GenState :=
  if para_spec.comments ≠ [] ∧ para_spec.tracked_changes ≠ [] then
    addParagraphWithCommentsAndTrackedChanges para_spec st
  else if para_spec.comments ≠ [] then
    addParagraphWithComments para_spec st
  else if para_spec.tracked_changes ≠ [] then
    addParagraphWithTrackedChanges para_spec st
  else
    ([XNode.elem "w:r" [] [.elem "w:t" [] [.text para_spec.text]]], st)

/-- `DocumentGenerator._add_paragraph`: allocates the paragraph id from
the module random state, then builds the paragraph element. -/
def addParagraph (para_spec : Paragraph) (st : GenState) : XNode × GenState :=
  let pid := (generateHexId st.rng).fst
  let st1 := { st with rng := (generateHexId st.rng).snd }
  (XNode.elem "w:p" [("w14:paraId", pid), ("w14:textId", "77777777")]
    (paragraphPPr para_spec ++ (paragraphContent para_spec st1).fst),
   (paragraphContent para_spec st1).snd)

/-! ## Section normalization (`DocumentGenerator._normalize_sections`) -/

/-- Python `sorted(sections, key=lambda s: s.start_paragraph)`. -/
def sortSections (sections : List SectionSpec) : List SectionSpec :=
  pySortBy (fun s => (s.start_paragraph, 0)) sections

/-- The filtering loop of `_normalize_sections`: drop entries past the
paragraph count (when paragraphs exist) and duplicate start indices
(keeping the first), tracking seen starts. -/
def normLoop (paragraph_count : Nat) :
    List SectionSpec → List Nat → List SectionSpec
  | [], _ => []
  | s :: rest, seen =>
    if s.start_paragraph ≥ paragraph_count ∧ paragraph_count > 0 then
      normLoop paragraph_count rest seen
    else if s.start_paragraph ∈ seen then
      normLoop paragraph_count rest seen
    else
      s :: normLoop paragraph_count rest (s.start_paragraph :: seen)

/-- `DocumentGenerator._normalize_sections`. -/
def normalizeSections (sections : List SectionSpec) (paragraph_count : Nat) :
    List SectionSpec :=
  let normalized := normLoop paragraph_count (sortSections sections) []
  match normalized with
  | [] => [{ start_paragraph := 0 }]
  | s :: _ =>
    if s.start_paragraph ≠ 0 then { start_paragraph := 0 } :: normalized
    else normalized

/-! ## Section and header/footer wiring -/

/-- One entry of the part manifest built by
`_build_section_part_manifest`. -/
structure ManifestEntry where
  section_index : Nat
  kind : String
  variant : String
  path : String
  target : String
  text : String
  relationship_type : String
  content_type : String
deriving DecidableEq, Repr

/-- The relationship-type table of `_build_section_part_manifest`. -/
def relationshipTypeFor (kind : String) : String :=
  if kind = "header" then
    "http://schemas.openxmlformats.org/officeDocument/2006/relationships/header"
  else
    "http://schemas.openxmlformats.org/officeDocument/2006/relationships/footer"

/-- The content-type table of `_build_section_part_manifest`. -/
def contentTypeFor (kind : String) : String :=
  if kind = "header" then
    "application/vnd.openxmlformats-officedocument.wordprocessingml.header+xml"
  else
    "application/vnd.openxmlformats-officedocument.wordprocessingml.footer+xml"

/-- The variant scan order of `_build_section_part_manifest`. -/
def hfVariants (hf : HeaderFooterSet) : List (String × Option String) :=
  [("default", hf.default), ("first", hf.first), ("even", hf.even)]

/-- All `(section index, kind, variant, text)` quadruples with non-`None`
text, in the iteration order of `_build_section_part_manifest`. -/
def sectionQuads (layout : List SectionSpec) :
    List (Nat × String × String × String) :=
  (enumIdx 0 layout).flatMap (fun p =>
    ([("header", p.2.headers), ("footer", p.2.footers)]).flatMap (fun kv =>
      (hfVariants kv.2).filterMap (fun vt =>
        match vt.2 with
        | some t => some (p.1, kv.1, vt.1, t)
        | none => none)))

/-- One manifest entry; `part_num` is `len(manifest) + 1` at append time. -/
def mkManifestEntry (section_index : Nat) (kind variant text : String)
    (part_num : Nat) : ManifestEntry :=
  let part_name := kind ++ natToStr part_num ++ ".xml"
  { section_index := section_index, kind := kind, variant := variant,
    path := "word/" ++ part_name, target := part_name, text := text,
    relationship_type := relationshipTypeFor kind,
    content_type := contentTypeFor kind }

/-- The manifest accumulation loop; the second argument is the current
manifest length. -/
def buildManifest : List (Nat × String × String × String) → Nat → List ManifestEntry
  | [], _ => []
  | (si, k, v, t) :: rest, n =>
    mkManifestEntry si k v t (n + 1) :: buildManifest rest (n + 1)

/-- `DocumentGenerator._build_section_part_manifest`. -/
def buildSectionPartManifest (layout : List SectionSpec) : List ManifestEntry :=
  buildManifest (sectionQuads layout) 0

/-! ## Relationship emission -/

/-- One filled entry of `_section_header_footer_refs`:
`refs[section_index][kind][variant] = rid`, recorded while
`_create_document_rels` walks the manifest. -/
structure HFRef where
  section_index : Nat
  kind : String
  variant : String
  rid : String
deriving DecidableEq, Repr

/-- A `Relationship` element. -/
def relNode (rid type_str target : String) : XNode :=
  .elem "Relationship" [("Id", rid), ("Type", type_str), ("Target", target)] []

/-- The manifest walk of `_create_document_rels`: one relationship per
manifest entry, recording the assigned id. -/
def manifestRels : List ManifestEntry → Nat → List XNode × List HFRef × Nat
  | [], n => ([], [], n)
  | e :: rest, n =>
    let rid := "rId" ++ natToStr n
    let rest' := manifestRels rest (n + 1)
    (relNode rid e.relationship_type e.target :: rest'.1,
     { section_index := e.section_index, kind := e.kind, variant := e.variant,
       rid := rid } :: rest'.2.1, rest'.2.2)

/-- `DocumentGenerator._create_document_rels`: the relationships part
and the filled header/footer reference map. -/
def createDocumentRels (has_comments has_numbering : Bool)
    (section_parts : List ManifestEntry) : XNode × List HFRef :=
  let n1 := 1
  let commentNodes : List XNode :=
    if has_comments then
      [relNode ("rId" ++ natToStr n1)
        "http://schemas.openxmlformats.org/officeDocument/2006/relationships/comments"
        "comments.xml",
       relNode ("rId" ++ natToStr (n1 + 1))
        "http://schemas.microsoft.com/office/2011/relationships/commentsExtended"
        "commentsExtended.xml",
       relNode ("rId" ++ natToStr (n1 + 2))
        "http://schemas.microsoft.com/office/2016/09/relationships/commentsIds"
        "commentsIds.xml"]
    else []
  let n2 := if has_comments then n1 + 3 else n1
  let numberingNodes : List XNode :=
    if has_numbering then
      [relNode ("rId" ++ natToStr n2)
        "http://schemas.openxmlformats.org/officeDocument/2006/relationships/numbering"
        "numbering.xml",
       relNode ("rId" ++ natToStr (n2 + 1))
        "http://schemas.openxmlformats.org/officeDocument/2006/relationships/styles"
        "styles.xml"]
    else []
  let n3 := if has_numbering then n2 + 2 else n2
  let partNodes := (manifestRels section_parts n3).1
  let refs := (manifestRels section_parts n3).2.1
  let n4 := (manifestRels section_parts n3).2.2
  let infra : List XNode :=
    [relNode ("rId" ++ natToStr n4)
      "http://schemas.openxmlformats.org/officeDocument/2006/relationships/settings"
      "settings.xml",
     relNode ("rId" ++ natToStr (n4 + 1))
      "http://schemas.openxmlformats.org/officeDocument/2006/relationships/webSettings"
      "webSettings.xml",
     relNode ("rId" ++ natToStr (n4 + 2))
      "http://schemas.openxmlformats.org/officeDocument/2006/relationships/footnotes"
      "footnotes.xml",
     relNode ("rId" ++ natToStr (n4 + 3))
      "http://schemas.openxmlformats.org/officeDocument/2006/relationships/endnotes"
      "endnotes.xml",
     relNode ("rId" ++ natToStr (n4 + 4))
      "http://schemas.openxmlformats.org/officeDocument/2006/relationships/fontTable"
      "fontTable.xml",
     relNode ("rId" ++ natToStr (n4 + 5))
      "http://schemas.openxmlformats.org/officeDocument/2006/relationships/theme"
      "theme/theme1.xml"]
  (.elem "Relationships"
    [("xmlns", "http://schemas.openxmlformats.org/package/2006/relationships")]
    (commentNodes ++ numberingNodes ++ partNodes ++ infra), refs)

/-- `DocumentGenerator._create_rels` (package-level relationships). -/
def createRels : XNode :=
  .elem "Relationships"
    [("xmlns", "http://schemas.openxmlformats.org/package/2006/relationships")]
    [relNode "rId1"
      "http://schemas.openxmlformats.org/officeDocument/2006/relationships/officeDocument"
      "word/document.xml",
     relNode "rId2"
      "http://schemas.openxmlformats.org/package/2006/relationships/metadata/core-properties"
      "docProps/core.xml",
     relNode "rId3"
      "http://schemas.openxmlformats.org/officeDocument/2006/relationships/extended-properties"
      "docProps/app.xml"]

/-! ## Content types -/

/-- An `Override` entry. -/
def overrideNode (part content : String) : XNode :=
  .elem "Override" [("PartName", part), ("ContentType", content)] []

/-- A `Default` entry. -/
def defaultNode (ext content : String) : XNode :=
  .elem "Default" [("Extension", ext), ("ContentType", content)] []

/-- Model of `s.split("/", 1)[1]` for a string containing a slash. -/
def afterFirstSlash (s : String) : String :=
  String.mk ((s.data.dropWhile (fun c => c ≠ '/')).drop 1)

/-- `DocumentGenerator._create_content_types`. -/
def createContentTypes (has_comments has_numbering : Bool)
    (section_parts : List ManifestEntry) : XNode :=
  .elem "Types"
    [("xmlns", "http://schemas.openxmlformats.org/package/2006/content-types")]
    ([defaultNode "rels" "application/vnd.openxmlformats-package.relationships+xml",
      defaultNode "xml" "application/xml",
      overrideNode "/word/document.xml"
        "application/vnd.openxmlformats-officedocument.wordprocessingml.document.main+xml"] ++
     (if has_comments then
       [overrideNode "/word/comments.xml"
         "application/vnd.openxmlformats-officedocument.wordprocessingml.comments+xml",
        overrideNode "/word/commentsExtended.xml"
         "application/vnd.openxmlformats-officedocument.wordprocessingml.commentsExtended+xml",
        overrideNode "/word/commentsIds.xml"
         "application/vnd.openxmlformats-officedocument.wordprocessingml.commentsIds+xml"]
      else []) ++
     (if has_numbering then
       [overrideNode "/word/numbering.xml"
         "application/vnd.openxmlformats-officedocument.wordprocessingml.numbering+xml",
        overrideNode "/word/styles.xml"
         "application/vnd.openxmlformats-officedocument.wordprocessingml.styles+xml"]
      else []) ++
     section_parts.map (fun p =>
       overrideNode ("/word/" ++ afterFirstSlash p.path) p.content_type) ++
     [overrideNode "/word/settings.xml"
       "application/vnd.openxmlformats-officedocument.wordprocessingml.settings+xml",
      overrideNode "/word/webSettings.xml"
       "application/vnd.openxmlformats-officedocument.wordprocessingml.webSettings+xml",
      overrideNode "/word/footnotes.xml"
       "application/vnd.openxmlformats-officedocument.wordprocessingml.footnotes+xml",
      overrideNode "/word/endnotes.xml"
       "application/vnd.openxmlformats-officedocument.wordprocessingml.endnotes+xml",
      overrideNode "/word/fontTable.xml"
       "application/vnd.openxmlformats-officedocument.wordprocessingml.fontTable+xml",
      overrideNode "/word/theme/theme1.xml"
       "application/vnd.openxmlformats-officedocument.theme+xml",
      overrideNode "/docProps/core.xml"
       "application/vnd.openxmlformats-package.core-properties+xml",
      overrideNode "/docProps/app.xml"
       "application/vnd.openxmlformats-officedocument.extended-properties+xml"])

/-! ## Section properties emission -/

/-- Model of `self._section_header_footer_refs[si][kind].get(variant)`
after relationship emission. -/
def refLookup (refs : List HFRef) (section_index : Nat) (kind variant : String) :
    Option String :=
  (refs.find? (fun r =>
    r.section_index == section_index && r.kind == kind && r.variant == variant)).map
    (fun r => r.rid)

/-- The header/footer reference elements of one section-properties
block, in the kind-then-variant scan order of
`_add_section_properties`. -/
def sectPrRefNodes (refs : List HFRef) (section_index : Nat) : List XNode :=
  ([("header", "headerReference"), ("footer", "footerReference")]).flatMap (fun kr =>
    ([("default", "default"), ("first", "first"), ("even", "even")]).filterMap (fun vv =>
      match refLookup refs section_index kr.1 vv.1 with
      | some rid =>
        if rid ≠ "" then
          some (XNode.elem ("w:" ++ kr.2) [("w:type", vv.2), ("r:id", rid)] [])
        else none
      | none => none))

/-- Python truthiness of the first-page references driving `w:titlePg`. -/
def hasFirstRef (refs : List HFRef) (section_index : Nat) : Bool :=
  (match refLookup refs section_index "header" "first" with
   | some r => decide (r ≠ "")
   | none => false) ||
  (match refLookup refs section_index "footer" "first" with
   | some r => decide (r ≠ "")
   | none => false)

/-- The `w:pgNumType` element (when restart or an explicit start is
requested). -/
def pgNumTypeNodes (sect : SectionSpec) : List XNode :=
  if sect.restart_page_numbering || sect.page_number_start.isSome then
    [XNode.elem "w:pgNumType"
      (match sect.page_number_start with
       | some v => [("w:start", natToStr v)]
       | none =>
         if sect.restart_page_numbering then [("w:start", "1")] else []) []]
  else []

/-- The `w:pgSz` element for the section's orientation. -/
def pgSzNode (sect : SectionSpec) : XNode :=
  match sect.orientation with
  | .landscape =>
    .elem "w:pgSz" [("w:w", "16838"), ("w:h", "11906"), ("w:orient", "landscape")] []
  | .portrait => .elem "w:pgSz" [("w:w", "11906"), ("w:h", "16838")] []

/-- The fixed `w:pgMar` element. -/
def pgMarNode : XNode :=
  .elem "w:pgMar"
    [("w:top", "1440"), ("w:right", "1440"), ("w:bottom", "1440"),
     ("w:left", "1440"), ("w:header", "708"), ("w:footer", "708"),
     ("w:gutter", "0")] []

/-- The fixed `w:cols` element. -/
def colsNode : XNode := .elem "w:cols" [("w:space", "708")] []

/-- The fixed `w:docGrid` element. -/
def docGridNode : XNode := .elem "w:docGrid" [("w:linePitch", "360")] []

/-- The `w:sectPr` element built by `_add_section_properties`: a break
type first (paragraph level only), then header/footer references,
`w:titlePg`, `w:pgNumType`, and the fixed page geometry.  The section
index is recovered with `self._section_layout.index(section)` (first
equal element). -/
def sectPrNode (layout : List SectionSpec) (refs : List HFRef)
    (sect : SectionSpec) (is_body_level : Bool) : XNode :=
  let section_index := layout.findIdx (fun s => s == sect)
  let typeNodes : List XNode :=
    if is_body_level then []
    else [.elem "w:type" [("w:val", sect.break_type)] []]
  let titleNodes : List XNode :=
    if hasFirstRef refs section_index then [.elem "w:titlePg" [] []] else []
  .elem "w:sectPr" []
    (typeNodes ++ sectPrRefNodes refs section_index ++ titleNodes ++
     pgNumTypeNodes sect ++ [pgSzNode sect, pgMarNode, colsNode, docGridNode])

/-- Attachment of a paragraph-level section-properties block: the block
is appended into the paragraph's first `w:pPr` child when one exists,
otherwise a fresh `w:pPr` holding only the block is appended to the
paragraph. -/
def attachIntoFirstPPr : List XNode → XNode → List XNode
  | [], _ => []
  | c :: cs, sp =>
    if c.tagOf == "w:pPr" then
      XNode.elem c.tagOf c.attrsOf (c.childrenOf ++ [sp]) :: cs
    else c :: attachIntoFirstPPr cs sp

/-- The paragraph-level branch of `_add_section_properties` applied to a
built paragraph element. -/
def attachSectPrToPara (para : XNode) (sp : XNode) : XNode :=
  match para with
  | .elem t a cs =>
    if (cs.find? (fun c => c.tagOf == "w:pPr")).isSome then
      .elem t a (attachIntoFirstPPr cs sp)
    else
      .elem t a (cs ++ [.elem "w:pPr" [] [sp]])
  | n => n

/-! ## Document assembly -/

/-- `section_starts` of `_create_document`: all section start indices
followed by the paragraph count. -/
def sectionStarts (sections : List SectionSpec) (paragraph_count : Nat) : List Nat :=
  sections.map (fun s => s.start_paragraph) ++ [paragraph_count]

/-- `boundary_to_section` of `_create_document`: paragraph index
immediately preceding each non-initial section start, mapped to the
section that ends there. -/
def boundaryMap (sections : List SectionSpec) (paragraph_count : Nat) :
    List (Nat × SectionSpec) :=
  (List.range (sections.length - 1)).map (fun idx =>
    ((sectionStarts sections paragraph_count).getD (idx + 1) 0 - 1,
     sections.getD idx { start_paragraph := 0 }))

/-- The paragraph loop of `_create_document`: build each paragraph and
attach a paragraph-level section-properties block at each boundary. -/
def buildBodyParas (boundary : List (Nat × SectionSpec))
    (layout : List SectionSpec) (refs : List HFRef) :
    Nat → List Paragraph → GenState → List XNode × GenState
  | _, [], st => ([], st)
  | i, p :: ps, st =>
    let para' :=
      match boundary.lookup i with
      | some sect => attachSectPrToPara (addParagraph p st).fst
          (sectPrNode layout refs sect false)
      | none => (addParagraph p st).fst
    let rest := buildBodyParas boundary layout refs (i + 1) ps (addParagraph p st).snd
    (para' :: rest.fst, rest.snd)

/-- `DocumentGenerator._create_document`. -/
def createDocument (spec : DocumentSpec) (layout : List SectionSpec)
    (refs : List HFRef) (st : GenState) : XNode × GenState :=
  let paragraph_count := spec.paragraphs.length
  let boundary := boundaryMap layout paragraph_count
  let walk := buildBodyParas boundary layout refs 0 spec.paragraphs st
  let lastSection := layout.getD (layout.length - 1) { start_paragraph := 0 }
  let body := XNode.elem "w:body" []
    (walk.fst ++ [sectPrNode layout refs lastSection true])
  (XNode.elem "w:document"
    [("mc:Ignorable", "w14 w15 w16se w16cid w16 w16cex w16sdtdh w16sdtfl w16du wp14")]
    [body], walk.snd)

/-! ## Remaining part builders -/

/-- `DocumentGenerator._create_header_footer_part`. -/
def createHeaderFooterPart (kind text : String) : XNode :=
  let tag := if kind = "header" then "w:hdr" else "w:ftr"
  .elem tag [] [.elem "w:p" [] [.elem "w:r" [] [.elem "w:t" [] [.text text]]]]

/-- `metadata["author"][0] if metadata["author"] else "A"`. -/
def initialsOf (author : String) : String :=
  match author.data with
  | [] => "A"
  | c :: _ => String.mk [c]

/-- `DocumentGenerator._create_comments`. -/
def createComments (metadata : List CommentMetadata) : XNode :=
  .elem "w:comments"
    [("mc:Ignorable", "w14 w15 w16se w16cid w16 w16cex w16sdtdh w16sdtfl w16du wp14")]
    (metadata.map (fun m =>
      .elem "w:comment"
        [("w:id", m.id), ("w:author", m.author), ("w:initials", initialsOf m.author)]
        [.elem "w:p" [("w14:paraId", m.para_id), ("w14:textId", "77777777")]
          [.elem "w:pPr" [] [.elem "w:pStyle" [("w:val", "CommentText")] []],
           .elem "w:r" []
             [.elem "w:rPr" [] [.elem "w:rStyle" [("w:val", "CommentReference")] []],
              .elem "w:annotationRef" [] []],
           .elem "w:r" [] [.elem "w:t" [] [.text m.text]]]]))

/-- `DocumentGenerator._create_comments_extended`.  The parent
attribute is set only under Python truthiness of the stored parent id. -/
def createCommentsExtended (metadata : List CommentMetadata) : XNode :=
  .elem "w15:commentsEx"
    [("mc:Ignorable", "w14 w15 w16se w16cid w16 w16cex w16sdtdh w16sdtfl w16du wp14")]
    (metadata.map (fun m =>
      .elem "w15:commentEx"
        ([("w15:paraId", m.para_id), ("w15:done", if m.resolved then "1" else "0")] ++
         (match m.parent_para_id with
          | some p => if p ≠ "" then [("w15:paraIdParent", p)] else []
          | none => [])) []))

/-- `DocumentGenerator._create_comments_ids`. -/
def createCommentsIds (metadata : List CommentMetadata) : XNode :=
  .elem "w16cid:commentsIds"
    [("mc:Ignorable", "w14 w15 w16se w16cid w16 w16cex w16sdtdh w16sdtfl w16du wp14")]
    (metadata.map (fun m =>
      .elem "w16cid:commentId"
        [("w16cid:paraId", m.para_id), ("w16cid:durableId", m.durable_id)] []))

/-- `DocumentGenerator._add_note_separator` (draws one paragraph id
from the module random state). -/
def noteSeparator (tag sep_tag note_id : String) (g : Nat) : XNode × Nat :=
  let pid := (generateHexId g).fst
  let g' := (generateHexId g).snd
  (.elem ("w:" ++ tag) [("w:type", sep_tag), ("w:id", note_id)]
    [.elem "w:p" [("w14:paraId", pid), ("w14:textId", "77777777")]
      [.elem "w:pPr" []
        [.elem "w:spacing"
          [("w:after", "0"), ("w:line", "240"), ("w:lineRule", "auto")] []],
       .elem "w:r" [] [.elem ("w:" ++ sep_tag) [] []]]], g')

/-- `DocumentGenerator._create_footnotes`. -/
def createFootnotes (g : Nat) : XNode × Nat :=
  let s1 := noteSeparator "footnote" "separator" "-1" g
  let s2 := noteSeparator "footnote" "continuationSeparator" "0" s1.snd
  (.elem "w:footnotes" [] [s1.fst, s2.fst], s2.snd)

/-- `DocumentGenerator._create_endnotes`. -/
def createEndnotes (g : Nat) : XNode × Nat :=
  let s1 := noteSeparator "endnote" "separator" "-1" g
  let s2 := noteSeparator "endnote" "continuationSeparator" "0" s1.snd
  (.elem "w:endnotes" [] [s1.fst, s2.fst], s2.snd)

/-- `DocumentGenerator._create_core_properties`: an f-string that
interpolates the spec title and author and the wall-clock timestamp
RAW (without XML escaping) into the markup.  `now` is the formatted
`datetime.now(timezone.utc)` value, an input of the run. -/
def createCoreProperties (title author now : String) : String :=
  "<?xml version=\"1.0\" encoding=\"UTF-8\" standalone=\"yes\"?>" ++
  "<cp:coreProperties xmlns:cp=\"http://schemas.openxmlformats.org/package/2006/metadata/core-properties\" " ++
  "xmlns:dc=\"http://purl.org/dc/elements/1.1/\" " ++
  "xmlns:dcterms=\"http://purl.org/dc/terms/\" " ++
  "xmlns:dcmitype=\"http://purl.org/dc/dcmitype/\" " ++
  "xmlns:xsi=\"http://www.w3.org/2001/XMLSchema-instance\">" ++
  "<dc:title>" ++ title ++ "</dc:title>" ++
  "<dc:subject></dc:subject>" ++
  "<dc:creator>" ++ author ++ "</dc:creator>" ++
  "<cp:keywords></cp:keywords>" ++
  "<dc:description></dc:description>" ++
  "<cp:lastModifiedBy></cp:lastModifiedBy>" ++
  "<cp:revision>1</cp:revision>" ++
  "<dcterms:created xsi:type=\"dcterms:W3CDTF\">" ++ now ++ "</dcterms:created>" ++
  "<dcterms:modified xsi:type=\"dcterms:W3CDTF\">" ++ now ++ "</dcterms:modified>" ++
  "</cp:coreProperties>"

/-! ## The container -/

/-- Content of one written part.

* `tree`: a part serialized from an lxml element tree
  (`etree.tostring`), which escapes text and attribute content, so the
  serialized bytes always re-parse;
* `opaqueXml`: a part whose bytes come from one of the fixed well-formed
  XML constants of the module (settings, webSettings, fontTable, theme,
  app) or from an etree-built tree whose internals none of the
  validator's checks inspect (numbering, styles) — only its
  well-formedness matters here;
* `rawCore`: docProps/core.xml, built by `_create_core_properties` with
  raw interpolation. -/
inductive PartContent where
  | tree (root : XNode)
  | opaqueXml (desc : String)
  | rawCore (title author now : String)
deriving DecidableEq

/-- One zip entry: name and content. -/
structure GeneratedPart where
  name : String
  content : PartContent
deriving DecidableEq

/-- `random.seed(spec.seed)` in `DocumentGenerator.__init__`: when a
seed is present the module-level state is reset to a function of the
seed (modelled as the seed value itself); otherwise the module state is
left as it was. -/
def initGeneratorRandomState (spec : DocumentSpec) (g : Nat) : Nat :=
  match spec.seed with
  | some s => s
  | none => g

/-- `DocumentGenerator(spec).generate(path)`: the parts written to the
container, in write order, together with the final generator state
(whose `rng` component is the module-level random state after the
call).  `now` is the wall-clock timestamp read inside
`_create_core_properties`; `g0` is the module-level random state before
the call. -/
def generate (spec : DocumentSpec) (now : String) (g0 : Nat) :
    List GeneratedPart × GenState :=
  let layout := normalizeSections spec.sections spec.paragraphs.length
  let g := initGeneratorRandomState spec g0
  let has_comments := spec.paragraphs.any (fun p => !p.comments.isEmpty)
  let has_numbering := spec.paragraphs.any (fun p => p.numbering.isSome)
  let has_heading_numbering := spec.paragraphs.any (fun p => pyTruthyOptNat p.heading_level)
  let needs_numbering := has_numbering || has_heading_numbering
  let section_parts := buildSectionPartManifest layout
  let documentRels := (createDocumentRels has_comments needs_numbering section_parts).fst
  let refs := (createDocumentRels has_comments needs_numbering section_parts).snd
  let st1 := (createDocument spec layout refs { rng := g }).snd
  let document := (createDocument spec layout refs { rng := g }).fst
  let footnotes := (createFootnotes st1.rng).fst
  let endnotes := (createEndnotes (createFootnotes st1.rng).snd).fst
  let g3 := (createEndnotes (createFootnotes st1.rng).snd).snd
  let parts : List GeneratedPart :=
    [⟨"[Content_Types].xml", .tree (createContentTypes has_comments needs_numbering section_parts)⟩,
     ⟨"_rels/.rels", .tree createRels⟩,
     ⟨"word/_rels/document.xml.rels", .tree documentRels⟩,
     ⟨"word/document.xml", .tree document⟩,
     ⟨"word/settings.xml", .opaqueXml "settings"⟩,
     ⟨"word/webSettings.xml", .opaqueXml "webSettings"⟩,
     ⟨"word/footnotes.xml", .tree footnotes⟩,
     ⟨"word/endnotes.xml", .tree endnotes⟩,
     ⟨"word/fontTable.xml", .opaqueXml "fontTable"⟩,
     ⟨"word/theme/theme1.xml", .opaqueXml "theme"⟩,
     ⟨"docProps/core.xml", .rawCore spec.title spec.author now⟩,
     ⟨"docProps/app.xml", .opaqueXml "app"⟩] ++
    section_parts.map (fun p => ⟨p.path, .tree (createHeaderFooterPart p.kind p.text)⟩) ++
    (if has_comments then
      [⟨"word/comments.xml", .tree (createComments st1.comment_metadata)⟩,
       ⟨"word/commentsExtended.xml", .tree (createCommentsExtended st1.comment_metadata)⟩,
       ⟨"word/commentsIds.xml", .tree (createCommentsIds st1.comment_metadata)⟩]
     else []) ++
    (if needs_numbering then
      [⟨"word/numbering.xml", .opaqueXml "numbering"⟩,
       ⟨"word/styles.xml", .opaqueXml "styles"⟩]
     else [])
  (parts, { st1 with rng := g3 })

/-! ## The structural validator (src/docxfix/validator.py)

`DocumentValidator.validate` over the part-list container model.  Each
check returns `none` for success or `some reason` for the
`ValidationError` it raises; `validate` runs them in sequence and
returns the first failure.  Reading a part that is missing or not
tree-shaped where the source would crash (KeyError) is modelled as a
failure as well; containers produced by `generate` always carry the
parts the checks read. -/

/-- Model of Python `s.endswith(suffix)`. -/
def strEndsWith (s suffix : String) : Bool := suffix.data.isSuffixOf s.data

/-- Model of `s.lstrip("./")`: strip leading dots and slashes. -/
def lstripDotSlash (s : String) : String :=
  String.mk (s.data.dropWhile (fun c => c = '.' || c = '/'))

/-- Model of `s.lstrip("/")`. -/
def lstripSlash (s : String) : String :=
  String.mk (s.data.dropWhile (fun c => c = '/'))

/-- Model of `name.rsplit(".", 1)[-1]`: the text after the last dot, or
the whole string when it has no dot. -/
def extOf (name : String) : String :=
  String.mk ((name.data.reverse.takeWhile (fun c => c ≠ '.')).reverse)

/-- Find a part by name (model of `docx_zip.read`). -/
def partsByName (parts : List GeneratedPart) (name : String) : Option PartContent :=
  (parts.find? (fun p => p.name == name)).map (fun p => p.content)

/-- The name list of the container (model of `docx_zip.namelist()`). -/
def partNames (parts : List GeneratedPart) : List String :=
  parts.map (fun p => p.name)

/-- The element tree of a tree-shaped part. -/
def treeOf : PartContent → Option XNode
  | .tree t => some t
  | _ => none

/-- A character acceptable to libxml2 inside raw-interpolated character
data: a valid XML `Char` (tab, LF, CR, or a non-control scalar value up
to `#xD7FF`, `#xE000`-`#xFFFD`, or astral) that is not one of the raw
markup-significant characters `&` and `<`. -/
def xmlCharOk (c : Char) : Bool :=
  (c.toNat = 9 || c.toNat = 10 || c.toNat = 13 ||
   (32 ≤ c.toNat && c.toNat ≤ 0xD7FF) ||
   (0xE000 ≤ c.toNat && c.toNat ≤ 0xFFFD) ||
   (0x10000 ≤ c.toNat && c.toNat ≤ 0x10FFFF)) &&
  c ≠ '&' && c ≠ '<'

/-- Whether the pattern occurs at the head of the list. -/
def startsWithSeq : List Char → List Char → Bool
  | [], _ => true
  | _ :: _, [] => false
  | p :: ps, c :: cs => p == c && startsWithSeq ps cs

/-- Whether the pattern occurs anywhere in the list. -/
def containsSeq (pat : List Char) : List Char → Bool
  | [] => startsWithSeq pat []
  | c :: cs => startsWithSeq pat (c :: cs) || containsSeq pat cs

/-- Whether a raw-interpolated field survives the libxml2 parse of the
core part: every character is an acceptable data character and the
CDATA-section-end sequence `]]>`, which the XML grammar forbids in
character data, does not occur.  A field failing this — a bare `&` or
`<`, a `]]>`, or an invalid control character — makes
`etree.fromstring` raise an XML syntax error. -/
def xmlCleanStr (s : String) : Bool :=
  s.data.all xmlCharOk && !(containsSeq ("]]>" : String).data s.data)

/-- Whether a part's bytes parse as XML.  Tree-serialized and constant
parts always re-parse; the raw core part parses when every interpolated
field is `xmlCleanStr`-clean and fails otherwise (the exhibited failing
input carries a bare `&`, which libxml2 rejects). -/
def partParses : PartContent → Bool
  | .tree _ => true
  | .opaqueXml _ => true
  | .rawCore title author now => xmlCleanStr title && xmlCleanStr author && xmlCleanStr now

/-- First failure over a list, or `none` (the fail-fast loop shape of
the validator). -/
def firstSomeP (f : α → Option String) : List α → Option String
  | [] => none
  | a :: l =>
    match f a with
    | some e => some e
    | none => firstSomeP f l

/-- `DocumentValidator.REQUIRED_FILES`. -/
def requiredFiles : List String :=
  ["[Content_Types].xml", "_rels/.rels", "word/document.xml"]

/-- `_validate_zip_structure` (the part-presence portion; file existence
and zip readability are outside the container model). -/
def validateZipStructure (parts : List GeneratedPart) : Option String :=
  ((requiredFiles.find? (fun req => !(partNames parts).contains req)).map
    (fun req => "Missing required file: " ++ req))

/-- `_validate_xml_wellformedness`. -/
def validateXmlWellformedness (parts : List GeneratedPart) : Option String :=
  (((parts.filter (fun p => strEndsWith p.name ".xml" || strEndsWith p.name ".rels")).find?
    (fun p => !partParses p.content)).map
    (fun p => "XML syntax error in " ++ p.name))

/-- `rel_by_id` as a last-wins dictionary over the Relationship
children. -/
def relById (rels : XNode) (rid : String) : Option XNode :=
  ((rels.findChildren "Relationship").reverse).find?
    (fun r => r.attr? "Id" == some rid)

/-- All `w:sectPr` descendants of the document root. -/
def sectPrsOf (doc : XNode) : List XNode :=
  doc.descendants.filter (fun n => n.tagOf == "w:sectPr")

/-- One header/footer reference check of
`_validate_section_header_footer_integrity`. -/
def checkHFRef (rels : XNode) (names : List String) (tag expected : String)
    (ref : XNode) : Option String :=
  match ref.attr? "r:id" with
  | none => some ("Section " ++ tag ++ " is missing r:id")
  | some rid =>
    if rid = "" then some ("Section " ++ tag ++ " is missing r:id")
    else
      match relById rels rid with
      | none => some ("Section " ++ tag ++ " references missing relationship: " ++ rid)
      | some rel =>
        let rel_type := (rel.attr? "Type").getD ""
        if !strEndsWith rel_type ("/" ++ expected) then
          some ("Relationship " ++ rid ++ " type mismatch for " ++ tag ++ ": " ++ rel_type)
        else
          match rel.attr? "Target" with
          | none => some ("Relationship " ++ rid ++ " has no target")
          | some target =>
            if target = "" then some ("Relationship " ++ rid ++ " has no target")
            else
              let target_path := "word/" ++ lstripDotSlash target
              if (names.contains target_path) then none
              else some ("Missing section part for " ++ rid ++ ": " ++ target_path)

/-- `_validate_section_header_footer_integrity`. -/
def validateSectionHeaderFooterIntegrity (parts : List GeneratedPart) : Option String :=
  match (partsByName parts "word/document.xml").bind treeOf,
        (partsByName parts "word/_rels/document.xml.rels").bind treeOf with
  | some doc, some rels =>
    firstSomeP (fun sp =>
      firstSomeP (fun te =>
        firstSomeP (checkHFRef rels (partNames parts) te.1 te.2)
          (sp.findChildren ("w:" ++ te.1)))
        [("headerReference", "header"), ("footerReference", "footer")])
      (sectPrsOf doc)
  | _, _ => some "unreadable document or relationships part"

/-- `_validate_comment_id_uniqueness`. -/
def validateCommentIdUniqueness (parts : List GeneratedPart) : Option String :=
  match partsByName parts "word/comments.xml" with
  | none => none
  | some content =>
    match treeOf content with
    | none => some "unreadable comments part"
    | some root =>
      let ids := (root.findChildren "w:comment").filterMap (fun c => c.attr? "w:id")
      if (ids.filter (fun x => ids.count x > 1)) ≠ [] then
        some "Duplicate comment IDs"
      else none

/-- `_validate_tracked_change_id_uniqueness`. -/
def validateTrackedChangeIdUniqueness (parts : List GeneratedPart) : Option String :=
  match (partsByName parts "word/document.xml").bind treeOf with
  | none => some "unreadable document part"
  | some root =>
    let ids := (["ins", "del"]).flatMap (fun tag =>
      (root.descendants.filter (fun n => n.tagOf == "w:" ++ tag)).filterMap
        (fun e => e.attr? "w:id"))
    if (ids.filter (fun x => ids.count x > 1)) ≠ [] then
      some "Duplicate tracked change IDs"
    else none

/-- The comment-range-start ids of the document part (the set
comprehension of `_validate_comment_anchor_integrity`, as the list the
set is built from). -/
def startRangeIds (root : XNode) : List String :=
  (root.descendants.filter (fun n => n.tagOf == "w:commentRangeStart")).filterMap
    (fun e => e.attr? "w:id")

/-- The comment-range-end ids of the document part. -/
def endRangeIds (root : XNode) : List String :=
  (root.descendants.filter (fun n => n.tagOf == "w:commentRangeEnd")).filterMap
    (fun e => e.attr? "w:id")

/-- Equality of the sets carried by two id lists. -/
def setEqv (a b : List String) : Bool :=
  a.all (fun x => b.contains x) && b.all (fun x => a.contains x)

/-- `_validate_comment_anchor_integrity`: raises exactly when the start
set is truthy (non-empty) and differs from the end set. -/
def validateCommentAnchorIntegrity (parts : List GeneratedPart) : Option String :=
  match (partsByName parts "word/document.xml").bind treeOf with
  | none => some "unreadable document part"
  | some root =>
    let starts := startRangeIds root
    let ends := endRangeIds root
    if starts ≠ [] ∧ ¬ setEqv starts ends then some "Comment anchor mismatch"
    else none

/-- `_validate_relationship_completeness`. -/
def validateRelationshipCompleteness (parts : List GeneratedPart) : Option String :=
  match partsByName parts "word/_rels/document.xml.rels" with
  | none => none
  | some rc =>
    match (partsByName parts "word/document.xml").bind treeOf, treeOf rc with
    | some doc, some rels =>
      let defined := (rels.findChildren "Relationship").filterMap (fun r => r.attr? "Id")
      let referenced := (doc :: doc.descendants).filterMap (fun e => e.attr? "r:id")
      if referenced.all (fun r => defined.contains r) then none
      else some "document.xml references undefined relationships"
    | _, _ => some "unreadable document or relationships part"

/-- `_validate_content_type_coverage`. -/
def validateContentTypeCoverage (parts : List GeneratedPart) : Option String :=
  match (partsByName parts "[Content_Types].xml").bind treeOf with
  | none => some "unreadable content types part"
  | some ct =>
    let default_exts := (ct.findChildren "Default").filterMap (fun d => d.attr? "Extension")
    let override_parts := (ct.findChildren "Override").map
      (fun o => lstripSlash ((o.attr? "PartName").getD ""))
    firstSomeP (fun name =>
      if default_exts.contains (extOf name) then none
      else if override_parts.contains name then none
      else some ("Part " ++ name ++ " has no matching content type"))
      (partNames parts)

/-- `DocumentValidator.validate`: the eight checks in order, first
failure wins. -/
def validate (parts : List GeneratedPart) : Option String :=
  match validateZipStructure parts with
  | some e => some e
  | none =>
  match validateXmlWellformedness parts with
  | some e => some e
  | none =>
  match validateSectionHeaderFooterIntegrity parts with
  | some e => some e
  | none =>
  match validateCommentIdUniqueness parts with
  | some e => some e
  | none =>
  match validateTrackedChangeIdUniqueness parts with
  | some e => some e
  | none =>
  match validateCommentAnchorIntegrity parts with
  | some e => some e
  | none =>
  match validateRelationshipCompleteness parts with
  | some e => some e
  | none => validateContentTypeCoverage parts

/-! ## Shared example inputs and observation helpers -/

/-- The spec text's anchor round-trip paragraph: base text
`"Lorem ipsum dolor sit amet"` with one comment anchored on `"dolor"`
and no tracked changes. -/
def loremPara : Paragraph :=
  { text := "Lorem ipsum dolor sit amet",
    comments := [{ text := "note", anchor_text := "dolor", date := "2024-01-01T00:00:00Z" }] }

/-- Text carried by a `w:t` node. -/
def tTextOf : XNode → String
  | .elem "w:t" _ [.text s] => s
  | _ => ""

/-- Visible text of one node: the concatenated `w:t` contents of a run
(markers contribute nothing; reference runs carry no `w:t`). -/
def runText : XNode → String
  | .elem "w:r" _ cs => (cs.map tTextOf).foldl (fun a b => a ++ b) ""
  | _ => ""

/-- Visible text of a child list: concatenation over runs, ignoring
marker and reference elements. -/
def visibleText (ns : List XNode) : String :=
  (ns.map runText).foldl (fun a b => a ++ b) ""

/-- Whether a run carries the space-preservation flag on its text
element (`w:t` or `w:delText`). -/
def runPreserveFlag (n : XNode) : Bool :=
  n.childrenOf.any (fun c =>
    (c.tagOf == "w:t" || c.tagOf == "w:delText") &&
    c.attr? "xml:space" == some "preserve")

/-! ## C1 — determinism of the emitted parts

The spec claims byte-identical parts for a fixed seed and explicit
entity timestamps.  `_create_core_properties` formats
`datetime.now(timezone.utc)` into docProps/core.xml on every call, so
two runs whose wall-clock reads differ in the rendered second emit
different core parts even though seed and spec (with explicit
timestamps everywhere) are identical.  The repository's own
`test_seeded_generation_is_byte_identical` requires byte-identical
output, so the claim reflects the intent and the wall-clock read is the
slip: a code bug. -/

/-- A fixed-seed spec whose only entity (one plain paragraph) carries no
timestamps to default; the tracked-change/comment lists are empty, so
every timestamp in the spec is explicit (vacuously). -/
def c1spec : DocumentSpec :=
  { paragraphs := [{ text := "Hello" }], seed := some 42 }

/-- C1: with the seed fixed and the spec's entity timestamps explicit,
two `generate()` runs whose wall-clock reads differ produce different
bytes for the docProps/core.xml part — the emitted parts are not
byte-identical, because `_create_core_properties` embeds
`datetime.now(timezone.utc)` at run time. -/
theorem C1_core_part_embeds_wall_clock :
    partsByName (generate c1spec "2026-01-01T00:00:00Z" 0).fst "docProps/core.xml"
      = some (.rawCore "Test Document" "Test User" "2026-01-01T00:00:00Z") ∧
    partsByName (generate c1spec "2026-01-01T00:00:01Z" 0).fst "docProps/core.xml"
      = some (.rawCore "Test Document" "Test User" "2026-01-01T00:00:01Z") ∧
    partsByName (generate c1spec "2026-01-01T00:00:00Z" 0).fst "docProps/core.xml"
      ≠ partsByName (generate c1spec "2026-01-01T00:00:01Z" 0).fst "docProps/core.xml" := by
  refine ⟨by decide, by decide, by decide⟩

/-! ## C2 — isolation of the random generator

The spec (and the repository's own
`test_unseeded_does_not_pollute_global_random`) require the
identifier-allocating operations to own an isolated generator instance
and leave the module-level random state unchanged.  The source instead
calls `random.seed(spec.seed)` in `__init__` and draws every
identifier with module-level `random.choices` in `_generate_hex_id`,
so generation advances the process-wide state: a code bug. -/

/-- The failing input of the repository's own isolation test: an
unseeded spec with a single plain paragraph. -/
def c2spec : DocumentSpec := { paragraphs := [{ text := "Test" }] }

/-- C2: constructing the generator and running `generate()` on the
unseeded one-paragraph spec advances the module-level random state
(one paragraph-id draw plus the four footnote/endnote separator draws),
so the global state after the call differs from the state before; and a
seeded construction overwrites the module-level state with the seed.
Identifiers are drawn from the module-level generator, not from an
instance-owned one. -/
theorem C2_module_random_state_perturbed :
    (generate c2spec "2026-01-01T00:00:00Z" 0).snd.rng = 5 ∧
    (generate c2spec "2026-01-01T00:00:00Z" 0).snd.rng ≠ 0 ∧
    initGeneratorRandomState c1spec 7 = 42 ∧ (42 : Nat) ≠ 7 := by
  refine ⟨by decide, by decide, by decide, by decide⟩

/-! ## C4 — anchor round-trip (comments-only path) -/

/-- The comments-only path output on the Lorem paragraph, for any
module random state (the drawn identifiers go to metadata only). -/
theorem addParagraphWithComments_lorem (g : Nat) :
    (addParagraphWithComments loremPara { rng := g }).fst =
    [.elem "w:r" [] [.elem "w:t" [("xml:space", "preserve")] [.text "Lorem ipsum "]],
     .elem "w:commentRangeStart" [("w:id", "0")] [],
     .elem "w:r" [] [.elem "w:t" [] [.text "dolor"]],
     .elem "w:commentRangeEnd" [("w:id", "0")] [],
     commentReferenceRun "0",
     .elem "w:r" [] [.elem "w:t" [] [.text " sit amet"]]] := rfl

/-- C4: for the paragraph `"Lorem ipsum dolor sit amet"` with one
comment anchored on `"dolor"` and no tracked changes, the synthesized
run sequence concatenates (ignoring markers and reference runs) to
exactly the original text, and exactly one comment-range-start /
comment-range-end pair bearing the comment's id surrounds the run
containing `"dolor"`. -/
theorem C4_anchor_round_trip (g : Nat) :
    visibleText (addParagraphWithComments loremPara { rng := g }).fst
      = "Lorem ipsum dolor sit amet" ∧
    ((addParagraphWithComments loremPara { rng := g }).fst.filter
      (fun n => n.tagOf == "w:commentRangeStart"))
      = [.elem "w:commentRangeStart" [("w:id", "0")] []] ∧
    ((addParagraphWithComments loremPara { rng := g }).fst.filter
      (fun n => n.tagOf == "w:commentRangeEnd"))
      = [.elem "w:commentRangeEnd" [("w:id", "0")] []] ∧
    (addParagraphWithComments loremPara { rng := g }).fst.get? 1
      = some (.elem "w:commentRangeStart" [("w:id", "0")] []) ∧
    runText ((addParagraphWithComments loremPara { rng := g }).fst.getD 2 (.text ""))
      = "dolor" ∧
    (addParagraphWithComments loremPara { rng := g }).fst.get? 3
      = some (.elem "w:commentRangeEnd" [("w:id", "0")] []) := by
  rw [addParagraphWithComments_lorem]
  exact ⟨by decide, by decide, by decide, by decide, by decide, by decide⟩

/-! ## C8 — space preservation

The rule holds for every run emitted through `_add_text_run` (the
plain-text runs of both cursor walks) and for insertion/deletion runs,
but the comments-only path writes its anchor and after-anchor runs
without ever setting the flag (and its before-anchor run with the flag
unconditionally), so a whitespace-bearing after-anchor run violates the
claim. -/

/-- C8 counterexample: in the comments-only output for the Lorem
paragraph, the final run carries text `" sit amet"`, which differs from
its trimmed form, yet has no space-preservation flag. -/
theorem C8_counterexample :
    ((addParagraphWithComments loremPara { rng := 0 }).fst.getD 5 (.text ""))
      = .elem "w:r" [] [.elem "w:t" [] [.text " sit amet"]] ∧
    " sit amet" ≠ pyStrip " sit amet" ∧
    runPreserveFlag ((addParagraphWithComments loremPara { rng := 0 }).fst.getD 5 (.text ""))
      = false := by
  exact ⟨by decide, by decide, by decide⟩

/-- The space-preservation flag of an `_add_text_run` run, as a function of its text. -/
theorem runPreserveFlag_addTextRun (text : String) :
    runPreserveFlag (addTextRun text) = decide (text ≠ pyStrip text) := by
  by_cases h : text = pyStrip text
  · have h1 : spacePreserveAttrs text = [] := by
      rw [spacePreserveAttrs, if_neg]; simpa using h
    have h2 : decide (text ≠ pyStrip text) = false := decide_eq_false (by simpa using h)
    rw [addTextRun, h1, h2]; rfl
  · have h1 : spacePreserveAttrs text = [("xml:space", "preserve")] := by
      rw [spacePreserveAttrs, if_pos]; simpa using h
    have h2 : decide (text ≠ pyStrip text) = true := decide_eq_true h
    rw [addTextRun, h1, h2]; rfl

/-- The space-preservation flag of the run inside an insertion or deletion element. -/
theorem runPreserveFlag_emitTrackedChange(change : TrackedChange) (st : GenState) :
    runPreserveFlag ((emitTrackedChange change st).fst.childrenOf.headD (.text ""))
      = decide (change.text ≠ pyStrip change.text) := by
  cases hc : change.change_type <;>
    by_cases h : change.text = pyStrip change.text
  · have h1 : spacePreserveAttrs change.text = [] := by
      rw [spacePreserveAttrs, if_neg]; simpa using h
    have h2 : decide (change.text ≠ pyStrip change.text) = false :=
      decide_eq_false (by simpa using h)
    simp only [emitTrackedChange, hc, h1, h2]; rfl
  · have h1 : spacePreserveAttrs change.text = [("xml:space", "preserve")] := by
      rw [spacePreserveAttrs, if_pos]; simpa using h
    have h2 : decide (change.text ≠ pyStrip change.text) = true := decide_eq_true h
    simp only [emitTrackedChange, hc, h1, h2]; rfl
  · have h1 : spacePreserveAttrs change.text = [] := by
      rw [spacePreserveAttrs, if_neg]; simpa using h
    have h2 : decide (change.text ≠ pyStrip change.text) = false :=
      decide_eq_false (by simpa using h)
    simp only [emitTrackedChange, hc, h1, h2]; rfl
  · have h1 : spacePreserveAttrs change.text = [("xml:space", "preserve")] := by
      rw [spacePreserveAttrs, if_pos]; simpa using h
    have h2 : decide (change.text ≠ pyStrip change.text) = true := decide_eq_true h
    simp only [emitTrackedChange, hc, h1, h2]; rfl

/-- C8 amended: runs emitted by `_add_text_run` and
insertion/deletion runs carry the space-preservation flag exactly when
their text differs from its trimmed form; the comments-only path flags
its before-anchor run unconditionally and never flags its anchor or
after-anchor runs (exhibited on the Lorem paragraph, whose flagged
before run and unflagged whitespace-bearing after run appear at
positions 0 and 5). -/
theorem C8_space_preservation_amended :
    (∀ text : String, runPreserveFlag (addTextRun text) = decide (text ≠ pyStrip text)) ∧
    (∀ (change : TrackedChange) (st : GenState),
      runPreserveFlag ((emitTrackedChange change st).fst.childrenOf.headD (.text ""))
        = decide (change.text ≠ pyStrip change.text)) ∧
    runPreserveFlag ((addParagraphWithComments loremPara { rng := 0 }).fst.getD 0 (.text ""))
      = true ∧
    " sit amet" ≠ pyStrip " sit amet" ∧
    runPreserveFlag ((addParagraphWithComments loremPara { rng := 0 }).fst.getD 5 (.text ""))
      = false := by
  exact ⟨runPreserveFlag_addTextRun, runPreserveFlag_emitTrackedChange,
    by decide, by decide, by decide⟩

/-! ## C3 — event merging and tie-break order (combined path) -/

/-- The spec text's overlap-ordering paragraph: base text
`"Hello world"`, an insertion of `"new "` anchored after `"Hello "`,
and a comment anchored on `"world"`. -/
def helloPara : Paragraph :=
  { text := "Hello world",
    tracked_changes := [
      { change_type := .insertion,
        text := "new ",
        date := "2024-01-01T00:00:00Z",
        insert_after := "Hello " }],
    comments := [
      { text := "note",
        anchor_text := "world",
        date := "2024-01-01T00:00:00Z" }] }

/-- The insertion event payload of `helloPara`. -/
def helloChange : TrackedChange :=
  { change_type := .insertion,
    text := "new ",
    date := "2024-01-01T00:00:00Z",
    insert_after := "Hello " }

/-- C3: the combined path merges its tracked-change and comment events
into one sequence ascending by text offset with the tie-break order
comment-range-start < insertion < deletion < comment-range-end (first
two conjuncts: the merged sequence is a permutation of all constructed
events and is pairwise ordered by that key); in particular, for
`"Hello world"` with an insertion after `"Hello "` and a comment on
`"world"`, the merged sequence is comment-range-start at 6, insertion
at 6, comment-range-end at 11, so the comment-range-start event
precedes the insertion event. -/
theorem C3_merge_ordering :
    (∀ (para_spec : Paragraph) (st : GenState),
      (mixedAllEvents para_spec st).fst.Pairwise (fun a b =>
        a.pos < b.pos ∨ (a.pos = b.pos ∧ a.orderRank ≤ b.orderRank))) ∧
    (∀ (para_spec : Paragraph) (st : GenState),
      (mixedAllEvents para_spec st).fst.Perm
        (para_spec.tracked_changes.map (mixedTcEvent para_spec.text) ++
         (buildCommentEvents para_spec.text para_spec.comments st).fst)) ∧
    (mixedAllEvents helloPara { rng := 0 }).fst =
      [.commentStart 6 { comment_id := "0", reply_ids := [] },
       .ins 6 helloChange,
       .commentEnd 11 { comment_id := "0", reply_ids := [] }] ∧
    (mixedAllEvents helloPara { rng := 0 }).fst.findIdx (fun e => e.orderRank == 0) <
      (mixedAllEvents helloPara { rng := 0 }).fst.findIdx (fun e => e.orderRank == 1) := by
  refine ⟨?_, ?_, by decide, by decide⟩
  · intro para_spec st
    have h := pySortBy_pairwise mixedSortKey
      (para_spec.tracked_changes.map (mixedTcEvent para_spec.text) ++
       (buildCommentEvents para_spec.text para_spec.comments st).fst)
    exact h.imp (fun hab => hab)
  · intro para_spec st
    exact pySortBy_perm mixedSortKey _

/-! ## C5 — comment threading invariants

`registerComment` (the metadata block shared by both comment paths)
produces, per comment with N replies, exactly N+1 records in
allocation order.  The parent's durable identifier is the same draw as
its paragraph identifier; each reply's two identifiers are independent
draws, so "exactly one record has durable = para" holds whenever the
run's 2N+1 identifier draws are pairwise distinct — the hypothesis of
the theorem below, discharged at a concrete input by the witness (in
the real generator the draws are 8-character random strings, so a
collision, while possible, has probability 16^-8 per pair). -/

/-- Characterization of the reply-registration loop: lengths, counter
and random-state advancement, allocated ids, parent links, and the
draw indices of the identifiers. -/
theorem registerReplies_spec (ppid : String) (res : Bool) :
    ∀ (replies : List CommentReply) (cc g : Nat),
      (registerReplies ppid res replies cc g).1.length = replies.length ∧
      (registerReplies ppid res replies cc g).2.2.1 = cc + replies.length ∧
      (registerReplies ppid res replies cc g).2.2.2 = g + 2 * replies.length ∧
      (registerReplies ppid res replies cc g).1.map (fun m => m.id)
        = (List.range' cc replies.length).map natToStr ∧
      (∀ m ∈ (registerReplies ppid res replies cc g).1, m.parent_para_id = some ppid) ∧
      (∀ m ∈ (registerReplies ppid res replies cc g).1,
        ∃ j, j < replies.length ∧ m.para_id = pyUpper (toHex8 (g + 2 * j)) ∧
          m.durable_id = pyUpper (toHex8 (g + 2 * j + 1))) ∧
      (registerReplies ppid res replies cc g).1.map (fun m => (m.author, m.text, m.date))
        = replies.map (fun r => (r.author, r.text, r.date)) := by
  intro replies
  induction replies with
  | nil => intro cc g; simp [registerReplies]
  | cons r rs ih =>
    intro cc g
    obtain ⟨h1, h2, h3, h4, h5, h6, h7⟩ := ih (cc + 1) (g + 1 + 1)
    simp only [registerReplies, generateHexId]
    refine ⟨by simpa using h1, by rw [h2]; simp; omega, by rw [h3]; simp; ring, ?_, ?_, ?_, ?_⟩
    · simp only [List.map_cons, h4, List.length_cons, List.range'_succ]
    · intro m hm
      rcases List.mem_cons.mp hm with rfl | hm
      · rfl
      · exact h5 m hm
    · intro m hm
      rcases List.mem_cons.mp hm with rfl | hm
      · exact ⟨0, by simp, by simp, by simp⟩
      · obtain ⟨j, hj, hp, hd⟩ := h6 m hm
        refine ⟨j + 1, by simpa using Nat.succ_lt_succ hj, ?_, ?_⟩
        · rw [hp]; congr 2; omega
        · rw [hd]; congr 2; omega
    · simp only [List.map_cons, h7]

/-- Distinct positions of a duplicate-free mapped range carry distinct
values. -/
theorem nodup_map_range_ne {α} {f : Nat → α} {n : Nat}
    (h : ((List.range n).map f).Nodup) {i j : Nat}
    (hi : i < n) (hj : j < n) (hij : i ≠ j) : f i ≠ f j := by
  intro he
  have hinj := List.nodup_iff_injective_getElem.mp h
  have h2 := @hinj ⟨i, by simpa using hi⟩ ⟨j, by simpa using hj⟩ (by simp [he])
  exact hij (by simpa using congrArg Fin.val h2)

/-- C5: for every comment with N replies and every generator state
whose next 2N+1 identifier draws are pairwise distinct, comment-record
resolution appends exactly N+1 records in allocation order (the
comment, then its replies, with consecutive ids); exactly one record —
the parent — has its durable identifier equal to its paragraph
identifier; and exactly N records carry a non-null parent link, each
equal to the parent's paragraph identifier. -/
theorem C5_threading (c : Comment) (st : GenState)
    (h : ((List.range (2 * c.replies.length + 1)).map
      (fun i => pyUpper (toHex8 (st.rng + i)))).Nodup) :
    ∃ (parent : CommentMetadata) (rmds : List CommentMetadata),
      (registerComment c st).2.2.2.comment_metadata
        = st.comment_metadata ++ parent :: rmds ∧
      rmds.length = c.replies.length ∧
      (parent :: rmds).map (fun m => m.id)
        = (List.range' st.comment_counter (c.replies.length + 1)).map natToStr ∧
      parent.durable_id = parent.para_id ∧
      parent.parent_para_id = none ∧
      (∀ m ∈ rmds, m.parent_para_id = some parent.para_id) ∧
      ((parent :: rmds).filter (fun m => m.parent_para_id.isSome)).length
        = c.replies.length ∧
      ((parent :: rmds).filter (fun m => m.durable_id == m.para_id)).length = 1 ∧
      rmds.map (fun m => (m.author, m.text, m.date))
        = c.replies.map (fun r => (r.author, r.text, r.date)) := by
  obtain ⟨h1, h2, h3, h4, h5, h6, h7⟩ :=
    registerReplies_spec (pyUpper (toHex8 st.rng)) c.resolved c.replies
      (st.comment_counter + 1) (st.rng + 1)
  rcases hE : registerReplies (pyUpper (toHex8 st.rng)) c.resolved c.replies
      (st.comment_counter + 1) (st.rng + 1) with ⟨rmds, ids, cc', g'⟩
  rw [hE] at h1 h2 h3 h4 h5 h6 h7
  simp only at h1 h2 h3 h4 h5 h6 h7
  have htail : ∀ m ∈ rmds, (m.durable_id == m.para_id) = false := by
    intro m hm
    obtain ⟨j, hj, hp, hd⟩ := h6 m hm
    apply beq_eq_false_iff_ne.mpr
    rw [hp, hd]
    have e1 : st.rng + 1 + 2 * j + 1 = st.rng + (2 * j + 2) := by omega
    have e2 : st.rng + 1 + 2 * j = st.rng + (2 * j + 1) := by omega
    rw [e1, e2]
    exact nodup_map_range_ne h (by omega) (by omega) (by omega)
  refine ⟨{ id := natToStr st.comment_counter, para_id := pyUpper (toHex8 st.rng),
            durable_id := pyUpper (toHex8 st.rng), author := c.author, date := c.date,
            text := c.text, resolved := c.resolved, parent_para_id := none }, rmds,
          ?_, h1, ?_, rfl, rfl, h5, ?_, ?_, h7⟩
  · simp only [registerComment, generateHexId, hE]
  · simp only [List.map_cons, h4, List.range'_succ]
  · simp only [List.filter_cons, Option.isSome_none, Bool.false_eq_true, if_false,
      reduceIte, List.length_cons]
    rw [List.filter_eq_self.mpr]
    · exact h1
    · intro m hm
      rw [h5 m hm]
      simp
  · simp only [List.filter_cons]
    have hh : ((pyUpper (toHex8 st.rng) == pyUpper (toHex8 st.rng)) = true) := beq_self_eq_true (pyUpper (toHex8 st.rng))
    simp only [hh, if_true]
    rw [List.filter_eq_nil_iff.mpr]
    · rfl
    · intro m hm
      simp [htail m hm]

/-- A comment with two replies, for the witness. -/
def c5comment : Comment :=
  { text := "c",
    anchor_text := "b",
    date := "2024-01-01T00:00:00Z",
    replies := [
      { text := "r1", date := "2024-01-01T00:00:00Z" },
      { text := "r2", date := "2024-01-01T00:00:00Z" }] }

/-- C5 witness: the threading invariants instantiated at a concrete
comment with two replies and the fresh generator state. -/
theorem C5_threading_witness :
    ∃ (parent : CommentMetadata) (rmds : List CommentMetadata),
      (registerComment c5comment { rng := 0 }).2.2.2.comment_metadata
        = GenState.comment_metadata { rng := 0 } ++ parent :: rmds ∧
      rmds.length = c5comment.replies.length ∧
      (parent :: rmds).map (fun m => m.id)
        = (List.range' (GenState.comment_counter { rng := 0 })
            (c5comment.replies.length + 1)).map natToStr ∧
      parent.durable_id = parent.para_id ∧
      parent.parent_para_id = none ∧
      (∀ m ∈ rmds, m.parent_para_id = some parent.para_id) ∧
      ((parent :: rmds).filter (fun m => m.parent_para_id.isSome)).length
        = c5comment.replies.length ∧
      ((parent :: rmds).filter (fun m => m.durable_id == m.para_id)).length = 1 ∧
      rmds.map (fun m => (m.author, m.text, m.date))
        = c5comment.replies.map (fun r => (r.author, r.text, r.date)) :=
  C5_threading c5comment { rng := 0 } (by decide)

/-! ## C7 — comment-range id-set matching check

`_validate_comment_anchor_integrity` raises only when the start id set
is truthy (non-empty) AND differs from the end id set: a document part
whose start set is empty passes regardless of its end markers, so the
claim's "every closed range was opened" direction fails.  The
counterexample is a container carrying a lone comment-range-end marker
that passes `validate()` end to end. -/

/-- Boolean set equality of id lists expresses mutual membership. -/
theorem setEqv_iff (a b : List String) :
    setEqv a b = true ↔ (∀ x, x ∈ a ↔ x ∈ b) := by
  unfold setEqv
  rw [Bool.and_eq_true, List.all_eq_true, List.all_eq_true]
  constructor
  · rintro ⟨h1, h2⟩ x
    exact ⟨fun hx => by simpa using h1 x hx, fun hx => by simpa using h2 x hx⟩
  · intro hiff
    exact ⟨fun x hx => by simpa using (hiff x).mp hx,
           fun x hx => by simpa using (hiff x).mpr hx⟩

/-- C7 amended: the validator signals a comment-range mismatch exactly
when the start id set is non-empty and differs (as a set) from the end
id set; equivalently the check passes iff the start set is empty or the
two sets are equal.  (The claim's stated behaviour for an empty start
set with non-empty end set does not hold.) -/
theorem C7_anchor_check_amended (parts : List GeneratedPart) (root : XNode)
    (hdoc : (partsByName parts "word/document.xml").bind treeOf = some root) :
    validateCommentAnchorIntegrity parts = none ↔
      (startRangeIds root = [] ∨
       (∀ i, i ∈ startRangeIds root ↔ i ∈ endRangeIds root)) := by
  unfold validateCommentAnchorIntegrity
  rw [hdoc]
  by_cases h1 : startRangeIds root = []
  · simp [h1]
  · by_cases h2 : setEqv (startRangeIds root) (endRangeIds root) = true
    · simp [h1, h2, (setEqv_iff _ _).mp h2]
    · have : ¬ (∀ i, i ∈ startRangeIds root ↔ i ∈ endRangeIds root) := by
        intro hc; exact h2 ((setEqv_iff _ _).mpr hc)
      simp [h1, h2, this]

/-- A document part with one comment-range-end marker and no start
marker. -/
def c7doc : XNode :=
  .elem "w:document" []
    [.elem "w:body" [] [.elem "w:p" [] [.elem "w:commentRangeEnd" [("w:id", "0")] []]]]

/-- A minimal container around `c7doc` that satisfies every other
check. -/
def c7parts : List GeneratedPart :=
  [⟨"[Content_Types].xml", .tree (.elem "Types"
      [("xmlns", "http://schemas.openxmlformats.org/package/2006/content-types")]
      [defaultNode "rels" "application/vnd.openxmlformats-package.relationships+xml",
       defaultNode "xml" "application/xml"])⟩,
   ⟨"_rels/.rels", .tree (.elem "Relationships"
      [("xmlns", "http://schemas.openxmlformats.org/package/2006/relationships")] [])⟩,
   ⟨"word/document.xml", .tree c7doc⟩,
   ⟨"word/_rels/document.xml.rels", .tree (.elem "Relationships"
      [("xmlns", "http://schemas.openxmlformats.org/package/2006/relationships")] [])⟩]

/-- C7 counterexample: a container whose document part has
comment-range-end id set containing 0 and empty comment-range-start set
passes `validate()` without a violation, though the claim requires the
check to signal whenever the two sets differ, including when only one
is empty. -/
theorem C7_counterexample :
    startRangeIds c7doc = [] ∧
    endRangeIds c7doc = ["0"] ∧
    validate c7parts = none := by
  exact ⟨by decide, by decide, by decide⟩

/-- C7 witness: the amended characterization applied to the concrete
container. -/
theorem C7_amended_witness :
    validateCommentAnchorIntegrity c7parts = none ↔
      (startRangeIds c7doc = [] ∨
       (∀ i, i ∈ startRangeIds c7doc ↔ i ∈ endRangeIds c7doc)) :=
  C7_anchor_check_amended c7parts c7doc (by decide)


/-! ## C9 — section normalization -/

/-- Elements of the filtering loop output come from the input, carry an unseen start index, and respect the paragraph-count bound. -/
theorem normLoop_mem (count : Nat) : ∀ (l : List SectionSpec) (seen : List Nat),
    ∀ s ∈ normLoop count l seen,
      s ∈ l ∧ s.start_paragraph ∉ seen ∧ (count > 0 → s.start_paragraph < count)
  | [], seen => by simp [normLoop]
  | a :: rest, seen => by
    intro s hs
    rw [normLoop] at hs
    split at hs
    · obtain ⟨h1, h2, h3⟩ := normLoop_mem count rest seen s hs
      exact ⟨List.mem_cons_of_mem _ h1, h2, h3⟩
    · split at hs
      · obtain ⟨h1, h2, h3⟩ := normLoop_mem count rest seen s hs
        exact ⟨List.mem_cons_of_mem _ h1, h2, h3⟩
      · rcases List.mem_cons.mp hs with rfl | hs'
        · refine ⟨List.mem_cons_self _ _, by assumption, ?_⟩
          intro hc
          omega
        · obtain ⟨h1, h2, h3⟩ := normLoop_mem count rest (a.start_paragraph :: seen) s hs'
          exact ⟨List.mem_cons_of_mem _ h1, fun hc => h2 (List.mem_cons_of_mem _ hc), h3⟩

-- L2: strict sortedness of the loop output on a weakly sorted input

/-- On a weakly sorted input the filtering loop output is strictly increasing by start index. -/
theorem normLoop_pairwise (count : Nat) : ∀ (l : List SectionSpec) (seen : List Nat),
    l.Pairwise (fun a b => a.start_paragraph ≤ b.start_paragraph) →
    (normLoop count l seen).Pairwise (fun a b => a.start_paragraph < b.start_paragraph)
  | [], seen, _ => by simp [normLoop]
  | a :: rest, seen, hp => by
    rw [normLoop]
    obtain ⟨hhead, htail⟩ := List.pairwise_cons.mp hp
    split
    · exact normLoop_pairwise count rest seen htail
    · split
      · exact normLoop_pairwise count rest seen htail
      · refine List.pairwise_cons.mpr ⟨?_, normLoop_pairwise count rest _ htail⟩
        intro y hy
        obtain ⟨h1, h2, _⟩ := normLoop_mem count rest (a.start_paragraph :: seen) y hy
        have hle := hhead y h1
        have hne : y.start_paragraph ≠ a.start_paragraph := by
          intro he; exact h2 (by rw [he]; exact List.mem_cons_self _ _)
        omega

/-- The normalization loop lifted to index-carrying entries (for reasoning about which duplicate survives). -/
def normLoopE (paragraph_count : Nat) :
    List (Nat × SectionSpec) → List Nat → List (Nat × SectionSpec)
  | [], _ => []
  | p :: rest, seen =>
    if p.2.start_paragraph ≥ paragraph_count ∧ paragraph_count > 0 then
      normLoopE paragraph_count rest seen
    else if p.2.start_paragraph ∈ seen then normLoopE paragraph_count rest seen
    else p :: normLoopE paragraph_count rest (p.2.start_paragraph :: seen)

/-- The loop commutes with dropping the carried indices. -/
theorem normLoop_eq_map_snd (count : Nat) :
    ∀ (l : List (Nat × SectionSpec)) (seen : List Nat),
      normLoop count (l.map Prod.snd) seen = (normLoopE count l seen).map Prod.snd
  | [], seen => by simp [normLoop, normLoopE]
  | p :: rest, seen => by
    rw [List.map_cons, normLoop, normLoopE]
    by_cases h1 : p.2.start_paragraph ≥ count ∧ count > 0
    · rw [if_pos h1, if_pos h1]
      exact normLoop_eq_map_snd count rest seen
    · rw [if_neg h1, if_neg h1]
      by_cases h2 : p.2.start_paragraph ∈ seen
      · rw [if_pos h2, if_pos h2]
        exact normLoop_eq_map_snd count rest seen
      · rw [if_neg h2, if_neg h2, List.map_cons,
          normLoop_eq_map_snd count rest _]

/-- The order insertion-sorting the enumerated sections guarantees: ascending start index, and ascending original position on equal starts (the stable-sort invariant). -/
def relE (a b : Nat × SectionSpec) : Prop :=
  a.2.start_paragraph < b.2.start_paragraph ∨
  (a.2.start_paragraph = b.2.start_paragraph ∧ a.1 ≤ b.1)

/-- The sort order of the enumerated sections implies relE. -/
theorem pySortLe_relE {a b : Nat × SectionSpec}
    (h : pySortLe (fun s => (s.start_paragraph, 0)) a b) : relE a b := by
  unfold pySortLe le3 sortTriple at h
  simp only at h
  unfold relE
  split_ifs at h with h1
  · right; exact ⟨h1, by simpa using h⟩
  · left; simpa using h

/-- Members of an enumeration are the indexed elements of the underlying list. -/
theorem mem_enumIdx_get : ∀ (l : List α) (k : Nat) (p : Nat × α),
    p ∈ enumIdx k l → k ≤ p.1 ∧ l.get? (p.1 - k) = some p.2
  | [], k, p => by simp [enumIdx]
  | a :: rest, k, p => by
    intro hp
    rcases List.mem_cons.mp hp with rfl | hp'
    · simp
    · obtain ⟨h1, h2⟩ := mem_enumIdx_get rest (k + 1) p hp'
      refine ⟨by omega, ?_⟩
      have e : p.1 - k = (p.1 - (k + 1)) + 1 := by omega
      rw [e]
      simpa using h2

/-- Every indexed element of a list appears in its enumeration. -/
theorem get_mem_enumIdx : ∀ (l : List α) (k m : Nat) (a : α),
    l.get? m = some a → (k + m, a) ∈ enumIdx k l
  | [], _, m, a => by simp
  | b :: rest, k, 0, a => by
    intro h
    simp at h
    subst h
    exact List.mem_cons_self _ _
  | b :: rest, k, m + 1, a => by
    intro h
    simp only [List.get?_cons_succ] at h
    have hmem := get_mem_enumIdx rest (k + 1) m a h
    have e : k + (m + 1) = (k + 1) + m := by omega
    rw [e]
    exact List.mem_cons_of_mem _ hmem

/-- Membership facts for the lifted loop. -/
theorem normLoopE_mem (count : Nat) :
    ∀ (l : List (Nat × SectionSpec)) (seen : List Nat),
      ∀ p ∈ normLoopE count l seen,
        p ∈ l ∧ p.2.start_paragraph ∉ seen ∧
          (count > 0 → p.2.start_paragraph < count)
  | [], seen => by simp [normLoopE]
  | a :: rest, seen => by
    intro p hp
    rw [normLoopE] at hp
    split at hp
    · obtain ⟨h1, h2, h3⟩ := normLoopE_mem count rest seen p hp
      exact ⟨List.mem_cons_of_mem _ h1, h2, h3⟩
    · split at hp
      · obtain ⟨h1, h2, h3⟩ := normLoopE_mem count rest seen p hp
        exact ⟨List.mem_cons_of_mem _ h1, h2, h3⟩
      · rcases List.mem_cons.mp hp with rfl | hp'
        · refine ⟨List.mem_cons_self _ _, by assumption, ?_⟩
          intro hc
          omega
        · obtain ⟨h1, h2, h3⟩ := normLoopE_mem count rest (a.2.start_paragraph :: seen) p hp'
          exact ⟨List.mem_cons_of_mem _ h1, fun hc => h2 (List.mem_cons_of_mem _ hc), h3⟩

/-- In the lifted loop output over a relE-sorted list, each kept entry has the minimal original index among entries with its start index: the loop keeps the first occurrence. -/
theorem normLoopE_min_idx (count : Nat) :
    ∀ (l : List (Nat × SectionSpec)) (seen : List Nat),
      l.Pairwise relE →
      ∀ p ∈ normLoopE count l seen, ∀ q ∈ l,
        q.2.start_paragraph = p.2.start_paragraph → p.1 ≤ q.1
  | [], seen, _ => by simp [normLoopE]
  | a :: rest, seen, hp => by
    obtain ⟨hhead, htail⟩ := List.pairwise_cons.mp hp
    intro p hpmem q hq hstart
    rw [normLoopE] at hpmem
    split at hpmem
    · obtain ⟨h1, h2, h3⟩ := normLoopE_mem count rest seen p hpmem
      rcases List.mem_cons.mp hq with rfl | hq'
      · exfalso
        have := h3 (by omega)
        omega
      · exact normLoopE_min_idx count rest seen htail p hpmem q hq' hstart
    · split at hpmem
      · obtain ⟨h1, h2, h3⟩ := normLoopE_mem count rest seen p hpmem
        rcases List.mem_cons.mp hq with rfl | hq'
        · exact absurd (hstart ▸ (by assumption : q.2.start_paragraph ∈ seen)) h2
        · exact normLoopE_min_idx count rest seen htail p hpmem q hq' hstart
      · rcases List.mem_cons.mp hpmem with rfl | hp'
        · rcases List.mem_cons.mp hq with rfl | hq'
          · exact Nat.le_refl _
          · rcases hhead q hq' with hlt | ⟨heq, hle⟩
            · omega
            · exact hle
        · obtain ⟨h1, h2, h3⟩ := normLoopE_mem count rest (a.2.start_paragraph :: seen) p hp'
          rcases List.mem_cons.mp hq with rfl | hq'
          · exact absurd (hstart ▸ List.mem_cons_self _ _) (fun hc => h2 hc)
          · exact normLoopE_min_idx count rest (a.2.start_paragraph :: seen) htail p hp' q hq' hstart

/-- The sorted section list is weakly increasing by start index. -/
theorem sortSections_pairwise (sections : List SectionSpec) :
    (sortSections sections).Pairwise
      (fun a b => a.start_paragraph ≤ b.start_paragraph) := by
  have h := pySortBy_pairwise (fun s => (s.start_paragraph, 0)) sections
  exact h.imp (fun hk => by rcases hk with h | ⟨h, _⟩ <;> omega)

/-- Every survivor of the filtering loop is the first entry of the original list with its start index. -/
theorem normalized_keep_first (sections : List SectionSpec) (count : Nat) :
    ∀ s ∈ normLoop count (sortSections sections) [],
      ∃ i, sections.get? i = some s ∧
        ∀ j t, j < i → sections.get? j = some t →
          t.start_paragraph ≠ s.start_paragraph := by
  intro s hs
  have hE : sortSections sections
      = ((enumIdx 0 sections).insertionSort
          (pySortLe (fun s => (s.start_paragraph, 0)))).map Prod.snd := rfl
  rw [hE, normLoop_eq_map_snd] at hs
  obtain ⟨p, hpmem, hps⟩ := List.mem_map.mp hs
  have hpair : ((enumIdx 0 sections).insertionSort
      (pySortLe (fun s => (s.start_paragraph, 0)))).Pairwise relE :=
    (pySortBy_sorted (fun s => (s.start_paragraph, 0)) sections).imp
      (fun h => pySortLe_relE h)
  have hperm := List.perm_insertionSort
    (pySortLe (fun s => (s.start_paragraph, 0))) (enumIdx 0 sections)
  obtain ⟨hpE, -, -⟩ := normLoopE_mem count _ [] p hpmem
  have hpEnum : p ∈ enumIdx 0 sections := hperm.mem_iff.mp hpE
  obtain ⟨-, hget⟩ := mem_enumIdx_get sections 0 p hpEnum
  refine ⟨p.1, by rw [hps] at hget; simpa using hget, ?_⟩
  intro j t hj hgt hts
  have hqE : (0 + j, t) ∈ (enumIdx 0 sections).insertionSort
      (pySortLe (fun s => (s.start_paragraph, 0))) :=
    hperm.mem_iff.mpr (get_mem_enumIdx sections 0 j t hgt)
  have hle := normLoopE_min_idx count _ [] hpair p hpmem (0 + j, t) hqE
    (by simpa [hps] using hts)
  omega

/-- C9: section normalization always returns a non-empty list, strictly increasing by start paragraph index, whose first element starts at 0, containing no entry with start at or past the paragraph count when paragraphs exist, and keeping only the first entry of the input among duplicates of the same start index (every non-synthetic survivor is the first occurrence of its start index in the input order). -/
theorem C9_normalize_sections (sections : List SectionSpec) (paragraph_count : Nat) :
    normalizeSections sections paragraph_count ≠ [] ∧
    (normalizeSections sections paragraph_count).Pairwise
      (fun a b => a.start_paragraph < b.start_paragraph) ∧
    ((normalizeSections sections paragraph_count).headD
        { start_paragraph := 0 }).start_paragraph = 0 ∧
    (paragraph_count > 0 → ∀ s ∈ normalizeSections sections paragraph_count,
      s.start_paragraph < paragraph_count) ∧
    (∀ s ∈ normalizeSections sections paragraph_count,
      s = { start_paragraph := 0 } ∨
      ∃ i, sections.get? i = some s ∧
        ∀ j t, j < i → sections.get? j = some t →
          t.start_paragraph ≠ s.start_paragraph) := by
  have hsorted := sortSections_pairwise sections
  have hpw := normLoop_pairwise paragraph_count (sortSections sections) [] hsorted
  have hmem := normLoop_mem paragraph_count (sortSections sections) []
  have hkf := normalized_keep_first sections paragraph_count
  rcases hN : normLoop paragraph_count (sortSections sections) [] with - | ⟨s0, rest⟩
  · have hred : normalizeSections sections paragraph_count
        = [{ start_paragraph := 0 }] := by
      unfold normalizeSections
      rw [hN]
    rw [hred]
    refine ⟨by simp, by simp, by simp, ?_, ?_⟩
    · intro hc s hs
      rcases List.mem_singleton.mp hs
      simpa using hc
    · intro s hs
      rcases List.mem_singleton.mp hs
      exact Or.inl rfl
  · rw [hN] at hpw hkf hmem
    by_cases h0 : s0.start_paragraph ≠ 0
    · have hred : normalizeSections sections paragraph_count
          = { start_paragraph := 0 } :: (s0 :: rest) := by
        unfold normalizeSections
        rw [hN]
        exact if_pos h0
      rw [hred]
      obtain ⟨hhead, -⟩ := List.pairwise_cons.mp hpw
      refine ⟨by simp, ?_, by simp, ?_, ?_⟩
      · refine List.pairwise_cons.mpr ⟨?_, hpw⟩
        intro y hy
        rcases List.mem_cons.mp hy with rfl | hy'
        · show 0 < y.start_paragraph
          omega
        · show 0 < y.start_paragraph
          have := hhead y hy'
          omega
      · intro hc s hs
        rcases List.mem_cons.mp hs with rfl | hs'
        · simpa using hc
        · exact (hmem s hs').2.2 hc
      · intro s hs
        rcases List.mem_cons.mp hs with rfl | hs'
        · exact Or.inl rfl
        · exact Or.inr (hkf s hs')
    · have hred : normalizeSections sections paragraph_count = s0 :: rest := by
        unfold normalizeSections
        rw [hN]
        exact if_neg h0
      rw [hred]
      push_neg at h0
      refine ⟨by simp, hpw, by simpa using h0, ?_, ?_⟩
      · intro hc s hs
        exact (hmem s hs).2.2 hc
      · intro s hs
        exact Or.inr (hkf s hs)

/-- Sections exercising sorting, duplicate collapse, out-of-range
filtering and initial-section synthesis, for the witness. -/
def c9sections : List SectionSpec :=
  [{ start_paragraph := 3 },
   { start_paragraph := 1, break_type := "evenPage" },
   { start_paragraph := 1, break_type := "oddPage" },
   { start_paragraph := 9 }]

/-- C9 witness: the normalization guarantees at a concrete section list
and paragraph count. -/
theorem C9_normalize_sections_witness :
    normalizeSections c9sections 4 ≠ [] ∧
    (normalizeSections c9sections 4).Pairwise
      (fun a b => a.start_paragraph < b.start_paragraph) ∧
    ((normalizeSections c9sections 4).headD
        { start_paragraph := 0 }).start_paragraph = 0 ∧
    (4 > 0 → ∀ s ∈ normalizeSections c9sections 4, s.start_paragraph < 4) ∧
    (∀ s ∈ normalizeSections c9sections 4,
      s = { start_paragraph := 0 } ∨
      ∃ i, c9sections.get? i = some s ∧
        ∀ j t, j < i → c9sections.get? j = some t →
          t.start_paragraph ≠ s.start_paragraph) :=
  C9_normalize_sections c9sections 4

/-! ## C6: section properties placement -/

/-- `attachIntoFirstPPr` appends the block into the first `w:pPr` child:
whenever the child list has a `w:pPr`, the result contains a `w:pPr`
element whose LAST child is the attached block. -/
theorem attachIntoFirstPPr_last (sp : XNode) :
    ∀ cs : List XNode, (cs.find? (fun c => c.tagOf == "w:pPr")).isSome →
      ∃ pPr ∈ attachIntoFirstPPr cs sp,
        pPr.tagOf = "w:pPr" ∧ pPr.childrenOf.getLast? = some sp
  | [], h => by simp at h
  | c :: rest, h => by
    simp only [attachIntoFirstPPr]
    by_cases hc : (c.tagOf == "w:pPr") = true
    · rw [if_pos hc]
      refine ⟨XNode.elem c.tagOf c.attrsOf (c.childrenOf ++ [sp]),
        List.mem_cons_self _ _, ?_, ?_⟩
      · exact eq_of_beq hc
      · exact List.getLast?_concat _
    · rw [if_neg hc]
      have hcf : (c.tagOf == "w:pPr") = false := by
        cases hcv : (c.tagOf == "w:pPr")
        · rfl
        · exact absurd hcv hc
      have h' : (rest.find? (fun c => c.tagOf == "w:pPr")).isSome := by
        simp only [List.find?_cons, hcf] at h
        exact h
      obtain ⟨pPr, hmem, h1, h2⟩ := attachIntoFirstPPr_last sp rest h'
      exact ⟨pPr, List.mem_cons_of_mem _ hmem, h1, h2⟩

/-- `attachSectPrToPara` on an element paragraph always yields a
`w:pPr` child whose last child is the attached block (appending into
the existing `w:pPr`, or creating a fresh one). -/
theorem attachSectPrToPara_last (t : String) (a : List (String × String))
    (cs : List XNode) (sp : XNode) :
    ∃ pPr ∈ (attachSectPrToPara (XNode.elem t a cs) sp).childrenOf,
      pPr.tagOf = "w:pPr" ∧ pPr.childrenOf.getLast? = some sp := by
  simp only [attachSectPrToPara]
  by_cases h : (cs.find? (fun c => c.tagOf == "w:pPr")).isSome = true
  · rw [if_pos h]
    obtain ⟨pPr, hmem, h1, h2⟩ := attachIntoFirstPPr_last sp cs h
    exact ⟨pPr, hmem, h1, h2⟩
  · rw [if_neg h]
    exact ⟨XNode.elem "w:pPr" [] [sp],
      List.mem_append_right _ (List.mem_singleton.mpr rfl), rfl, rfl⟩

/-- Specialization to a built paragraph. -/
theorem attachSectPrToPara_addParagraph_last (p : Paragraph) (st : GenState)
    (sp : XNode) :
    ∃ pPr ∈ (attachSectPrToPara (addParagraph p st).fst sp).childrenOf,
      pPr.tagOf = "w:pPr" ∧ pPr.childrenOf.getLast? = some sp :=
  attachSectPrToPara_last "w:p" _ _ sp

/-- The paragraph loop emits one node per paragraph. -/
theorem buildBodyParas_length (boundary : List (Nat × SectionSpec))
    (layout : List SectionSpec) (refs : List HFRef) :
    ∀ (ps : List Paragraph) (i : Nat) (st : GenState),
      (buildBodyParas boundary layout refs i ps st).fst.length = ps.length
  | [], _, _ => rfl
  | p :: ps, i, st => by
    simp only [buildBodyParas, List.length_cons]
    rw [buildBodyParas_length boundary layout refs ps (i + 1) _]

/-- At a boundary index, the emitted paragraph node is the built
paragraph with the paragraph-level section-properties block attached. -/
theorem buildBodyParas_boundary (boundary : List (Nat × SectionSpec))
    (layout : List SectionSpec) (refs : List HFRef) :
    ∀ (ps : List Paragraph) (i k : Nat) (st : GenState) (sect : SectionSpec),
      boundary.lookup (i + k) = some sect → k < ps.length →
      ∃ (st' : GenState) (p : Paragraph), ps.get? k = some p ∧
        (buildBodyParas boundary layout refs i ps st).fst.get? k =
          some (attachSectPrToPara (addParagraph p st').fst
            (sectPrNode layout refs sect false))
  | [], _, k, _, _, _, hk => absurd hk (by simp)
  | p :: ps, i, 0, st, sect, hl, _ => by
    refine ⟨st, p, rfl, ?_⟩
    rw [Nat.add_zero] at hl
    simp only [buildBodyParas]
    rw [hl]
    rfl
  | p :: ps, i, k + 1, st, sect, hl, hk => by
    have hl' : boundary.lookup ((i + 1) + k) = some sect := by
      rw [show (i + 1) + k = i + (k + 1) by omega]; exact hl
    obtain ⟨st', q, h1, h2⟩ := buildBodyParas_boundary boundary layout refs ps
      (i + 1) k ((addParagraph p st).snd) sect hl'
      (Nat.lt_of_succ_lt_succ hk)
    refine ⟨st', q, h1, ?_⟩
    simp only [buildBodyParas]
    rw [List.get?_cons_succ]
    exact h2

/-- The break-type element is the FIRST child of a paragraph-level
section-properties block. -/
theorem sectPrNode_para_break_first (layout : List SectionSpec)
    (refs : List HFRef) (sect : SectionSpec) :
    (sectPrNode layout refs sect false).childrenOf.head? =
      some (XNode.elem "w:type" [("w:val", sect.break_type)] []) := rfl

/-- Every header/footer reference node carries one of the two
reference tags. -/
theorem sectPrRefNodes_tags (refs : List HFRef) (si : Nat) :
    ∀ n ∈ sectPrRefNodes refs si,
      n.tagOf = "w:headerReference" ∨ n.tagOf = "w:footerReference" := by
  intro n hn
  simp only [sectPrRefNodes, List.mem_flatMap] at hn
  obtain ⟨kr, hkr, hn⟩ := hn
  obtain ⟨vv, hvv, hf⟩ := List.mem_filterMap.mp hn
  rcases hlook : refLookup refs si kr.1 vv.1 with _ | rid
  · rw [hlook] at hf; exact absurd hf (by simp)
  · rw [hlook] at hf
    have hf' : (if rid ≠ "" then
        some (XNode.elem ("w:" ++ kr.2) [("w:type", vv.2), ("r:id", rid)] [])
      else none) = some n := hf
    by_cases hrid : rid ≠ ""
    · rw [if_pos hrid] at hf'
      have hne : n = XNode.elem ("w:" ++ kr.2) [("w:type", vv.2), ("r:id", rid)] [] :=
        (Option.some.inj hf').symm
      rcases List.mem_cons.mp hkr with h | h
      · left; rw [hne, h]; rfl
      · rcases List.mem_cons.mp h with h2 | h2
        · right; rw [hne, h2]; rfl
        · exact absurd h2 (by simp)
    · rw [if_neg hrid] at hf'; exact absurd hf' (by simp)

/-- The page-size element's tag, for either orientation. -/
theorem pgSzNode_tag (sect : SectionSpec) : (pgSzNode sect).tagOf = "w:pgSz" := by
  unfold pgSzNode
  cases h : sect.orientation <;> rfl

/-- The page-numbering element's tag. -/
theorem pgNumTypeNodes_tags (sect : SectionSpec) :
    ∀ c ∈ pgNumTypeNodes sect, c.tagOf = "w:pgNumType" := by
  intro c hc
  unfold pgNumTypeNodes at hc
  split at hc
  · rw [List.mem_singleton.mp hc]
    rfl
  · exact absurd hc (by simp)

/-- A body-level section-properties block carries no break-type
element among its children. -/
theorem sectPrNode_body_no_type (layout : List SectionSpec) (refs : List HFRef)
    (sect : SectionSpec) :
    ∀ c ∈ (sectPrNode layout refs sect true).childrenOf, c.tagOf ≠ "w:type" := by
  intro c hc
  have hc' : c ∈ sectPrRefNodes refs (layout.findIdx (fun s => s == sect)) ++
      (if hasFirstRef refs (layout.findIdx (fun s => s == sect)) then
        [XNode.elem "w:titlePg" [] []] else []) ++
      pgNumTypeNodes sect ++
      [pgSzNode sect, pgMarNode, colsNode, docGridNode] := hc
  rcases List.mem_append.mp hc' with h3 | h4
  · rcases List.mem_append.mp h3 with h5 | h6
    · rcases List.mem_append.mp h5 with h7 | h8
      · rcases sectPrRefNodes_tags refs _ c h7 with h | h <;> rw [h] <;> decide
      · by_cases hb : hasFirstRef refs (layout.findIdx (fun s => s == sect)) = true
        · rw [if_pos hb] at h8
          rw [List.mem_singleton.mp h8]; decide
        · rw [if_neg hb] at h8
          exact absurd h8 (by simp)
    · rw [pgNumTypeNodes_tags sect c h6]; decide
  · have h4' : c = pgSzNode sect ∨ c = pgMarNode ∨ c = colsNode ∨ c = docGridNode := by
      simpa using h4
    rcases h4' with h | h | h | h
    · rw [h, pgSzNode_tag]; decide
    · rw [h]; decide
    · rw [h]; decide
    · rw [h]; decide

/-- The `word/document.xml` part of a generated container is the tree
built by `_create_document` over the normalized layout. -/
theorem generate_document_part (spec : DocumentSpec) (now : String) (g : Nat) :
    (partsByName (generate spec now g).fst "word/document.xml").bind treeOf =
      some (createDocument spec (normalizeSections spec.sections spec.paragraphs.length)
        (createDocumentRels (spec.paragraphs.any (fun p => !p.comments.isEmpty))
          (spec.paragraphs.any (fun p => p.numbering.isSome) ||
           spec.paragraphs.any (fun p => pyTruthyOptNat p.heading_level))
          (buildSectionPartManifest
            (normalizeSections spec.sections spec.paragraphs.length))).snd
        { rng := initGeneratorRandomState spec g }).fst := rfl

/-- `_create_document` wraps the paragraph walk and the body-level
section-properties block in `w:body` inside `w:document`. -/
theorem createDocument_fst (spec : DocumentSpec) (layout : List SectionSpec)
    (refs : List HFRef) (st : GenState) :
    (createDocument spec layout refs st).fst =
      XNode.elem "w:document"
        [("mc:Ignorable", "w14 w15 w16se w16cid w16 w16cex w16sdtdh w16sdtfl w16du wp14")]
        [XNode.elem "w:body" []
          ((buildBodyParas (boundaryMap layout spec.paragraphs.length) layout refs 0
              spec.paragraphs st).fst ++
           [sectPrNode layout refs
             (layout.getD (layout.length - 1) { start_paragraph := 0 }) true])] := rfl

/-- C6 (amended): for every spec, the generated document body carries the
last section's properties block, without a break type, as its final
child; and at every boundary index of the normalized layout, the built
paragraph gains a properties element whose LAST child is a
paragraph-level section-properties block whose FIRST child is the
break-type element. -/
theorem C6_section_properties_amended (spec : DocumentSpec) (now : String) (g : Nat)
    (k : Nat) (sect : SectionSpec)
    (hb : (boundaryMap (normalizeSections spec.sections spec.paragraphs.length)
            spec.paragraphs.length).lookup k = some sect)
    (hk : k < spec.paragraphs.length) :
    ∃ doc body,
      (partsByName (generate spec now g).fst "word/document.xml").bind treeOf =
        some doc ∧
      doc.childrenOf = [body] ∧
      body.tagOf = "w:body" ∧
      body.childrenOf.length = spec.paragraphs.length + 1 ∧
      (∃ bs, body.childrenOf.getLast? = some bs ∧ bs.tagOf = "w:sectPr" ∧
        ∀ c ∈ bs.childrenOf, c.tagOf ≠ "w:type") ∧
      (∃ para pPr sp, body.childrenOf.get? k = some para ∧
        pPr ∈ para.childrenOf ∧ pPr.tagOf = "w:pPr" ∧
        pPr.childrenOf.getLast? = some sp ∧ sp.tagOf = "w:sectPr" ∧
        sp.childrenOf.head? =
          some (XNode.elem "w:type" [("w:val", sect.break_type)] [])) := by
  refine ⟨(createDocument spec
      (normalizeSections spec.sections spec.paragraphs.length)
      (createDocumentRels (spec.paragraphs.any (fun p => !p.comments.isEmpty))
        (spec.paragraphs.any (fun p => p.numbering.isSome) ||
         spec.paragraphs.any (fun p => pyTruthyOptNat p.heading_level))
        (buildSectionPartManifest
          (normalizeSections spec.sections spec.paragraphs.length))).snd
      { rng := initGeneratorRandomState spec g }).fst,
    XNode.elem "w:body" []
      ((buildBodyParas
          (boundaryMap (normalizeSections spec.sections spec.paragraphs.length)
            spec.paragraphs.length)
          (normalizeSections spec.sections spec.paragraphs.length)
          (createDocumentRels (spec.paragraphs.any (fun p => !p.comments.isEmpty))
            (spec.paragraphs.any (fun p => p.numbering.isSome) ||
             spec.paragraphs.any (fun p => pyTruthyOptNat p.heading_level))
            (buildSectionPartManifest
              (normalizeSections spec.sections spec.paragraphs.length))).snd
          0 spec.paragraphs { rng := initGeneratorRandomState spec g }).fst ++
       [sectPrNode (normalizeSections spec.sections spec.paragraphs.length)
          (createDocumentRels (spec.paragraphs.any (fun p => !p.comments.isEmpty))
            (spec.paragraphs.any (fun p => p.numbering.isSome) ||
             spec.paragraphs.any (fun p => pyTruthyOptNat p.heading_level))
            (buildSectionPartManifest
              (normalizeSections spec.sections spec.paragraphs.length))).snd
          ((normalizeSections spec.sections spec.paragraphs.length).getD
            ((normalizeSections spec.sections spec.paragraphs.length).length - 1)
            { start_paragraph := 0 }) true]),
    generate_document_part spec now g, rfl, rfl, ?_, ?_, ?_⟩
  · show ((buildBodyParas _ _ _ 0 spec.paragraphs _).fst ++ [_]).length =
      spec.paragraphs.length + 1
    rw [List.length_append, buildBodyParas_length, List.length_singleton]
  · refine ⟨_, List.getLast?_concat _, rfl, sectPrNode_body_no_type _ _ _⟩
  · obtain ⟨st', p, hp, hget⟩ := buildBodyParas_boundary
      (boundaryMap (normalizeSections spec.sections spec.paragraphs.length)
        spec.paragraphs.length)
      (normalizeSections spec.sections spec.paragraphs.length)
      (createDocumentRels (spec.paragraphs.any (fun p => !p.comments.isEmpty))
        (spec.paragraphs.any (fun p => p.numbering.isSome) ||
         spec.paragraphs.any (fun p => pyTruthyOptNat p.heading_level))
        (buildSectionPartManifest
          (normalizeSections spec.sections spec.paragraphs.length))).snd
      spec.paragraphs 0 k { rng := initGeneratorRandomState spec g } sect
      (by rw [Nat.zero_add]; exact hb) hk
    obtain ⟨pPr, hmem, htag, hlast⟩ := attachSectPrToPara_addParagraph_last p st'
      (sectPrNode (normalizeSections spec.sections spec.paragraphs.length)
        (createDocumentRels (spec.paragraphs.any (fun p => !p.comments.isEmpty))
          (spec.paragraphs.any (fun p => p.numbering.isSome) ||
           spec.paragraphs.any (fun p => pyTruthyOptNat p.heading_level))
          (buildSectionPartManifest
            (normalizeSections spec.sections spec.paragraphs.length))).snd
        sect false)
    refine ⟨_, pPr, _, ?_, hmem, htag, hlast, rfl, sectPrNode_para_break_first _ _ sect⟩
    have hklen : k < (buildBodyParas
        (boundaryMap (normalizeSections spec.sections spec.paragraphs.length)
          spec.paragraphs.length)
        (normalizeSections spec.sections spec.paragraphs.length)
        (createDocumentRels (spec.paragraphs.any (fun p => !p.comments.isEmpty))
          (spec.paragraphs.any (fun p => p.numbering.isSome) ||
           spec.paragraphs.any (fun p => pyTruthyOptNat p.heading_level))
          (buildSectionPartManifest
            (normalizeSections spec.sections spec.paragraphs.length))).snd
        0 spec.paragraphs { rng := initGeneratorRandomState spec g }).fst.length := by
      rw [buildBodyParas_length]; exact hk
    show ((buildBodyParas _ _ _ 0 spec.paragraphs _).fst ++ [_]).get? k = _
    rw [List.get?_append hklen]
    exact hget


/-- Heading at the boundary: the boundary paragraph already has a
properties element (holding the heading style), so the attached
section-properties block lands AFTER the style element. -/
def c6heading : DocumentSpec :=
  { paragraphs := [{ text := "One", heading_level := some 1 }, { text := "Two" }],
    sections := [{ start_paragraph := 0 },
                 { start_paragraph := 1, orientation := .landscape }] }

/-- C6: counterexample.  For a 2-paragraph spec whose first paragraph is
a heading and whose second section starts at index 1, the boundary
paragraph's properties element lists the heading style FIRST and the
section-properties block LAST — the block is not inserted as the first
child of the properties element as the claim states. -/
theorem C6_counterexample :
    ((partsByName (generate c6heading "T" 0).fst "word/document.xml").bind treeOf).map
      (fun doc => doc.childrenOf.map (fun body => body.childrenOf.map (fun p =>
        (p.findChild "w:pPr").map (fun q => q.childrenOf.map XNode.tagOf))))
    = some [[some ["w:pStyle", "w:sectPr"], none, none]] := by decide

/-- The claim's own concrete example: two plain paragraphs, second
section landscape at index 1. -/
def c6plain : DocumentSpec :=
  { paragraphs := [{ text := "One" }, { text := "Two" }],
    sections := [{ start_paragraph := 0 },
                 { start_paragraph := 1, orientation := .landscape }] }

/-- The initial section of `c6plain` (the one whose properties end at
the boundary paragraph). -/
def c6firstSection : SectionSpec := { start_paragraph := 0 }

/-- C6 witness. -/
theorem C6_amended_witness :
    (boundaryMap (normalizeSections c6plain.sections c6plain.paragraphs.length)
        c6plain.paragraphs.length).lookup 0 = some c6firstSection ∧
    0 < c6plain.paragraphs.length ∧
    (∃ doc body,
      (partsByName (generate c6plain "T" 0).fst "word/document.xml").bind treeOf =
        some doc ∧
      doc.childrenOf = [body] ∧
      body.tagOf = "w:body" ∧
      body.childrenOf.length = c6plain.paragraphs.length + 1 ∧
      (∃ bs, body.childrenOf.getLast? = some bs ∧ bs.tagOf = "w:sectPr" ∧
        ∀ c ∈ bs.childrenOf, c.tagOf ≠ "w:type") ∧
      (∃ para pPr sp, body.childrenOf.get? 0 = some para ∧
        pPr ∈ para.childrenOf ∧ pPr.tagOf = "w:pPr" ∧
        pPr.childrenOf.getLast? = some sp ∧ sp.tagOf = "w:sectPr" ∧
        sp.childrenOf.head? =
          some (XNode.elem "w:type" [("w:val", c6firstSection.break_type)] []))) :=
  ⟨by decide, by decide,
   C6_section_properties_amended c6plain "T" 0 0 c6firstSection (by decide) (by decide)⟩

/-! ## C10 groundwork -/

/-! ## Observation machinery over element trees -/

mutual

/-- All nodes of a subtree (the node itself included) bearing a given
tag, in document order. -/
def subTagged (tag : String) : XNode → List XNode
  | .text _ => []
  | .elem t a cs =>
    (if (t == tag) = true then [XNode.elem t a cs] else []) ++ subTaggedList tag cs

/-- `subTagged` over a node list. -/
def subTaggedList (tag : String) : List XNode → List XNode
  | [] => []
  | c :: cs => subTagged tag c ++ subTaggedList tag cs

end

/-- The `w:id` attributes of the tagged nodes of a node list's
subtrees. -/
def subIdsList (tag : String) (ns : List XNode) : List String :=
  (subTaggedList tag ns).filterMap (fun e => e.attr? "w:id")

mutual

/-- The `r:id` attributes found anywhere in a subtree. -/
def subRids : XNode → List String
  | .text _ => []
  | .elem _ a cs => (a.lookup "r:id").toList ++ subRidsList cs

/-- `subRids` over a node list. -/
def subRidsList : List XNode → List String
  | [] => []
  | c :: cs => subRids c ++ subRidsList cs

end

mutual

/-- No node of the subtree bears a tag from the given list. -/
def tagsAvoid (ts : List String) : XNode → Bool
  | .text _ => true
  | .elem t _ cs => (!(ts.contains t)) && tagsAvoidList ts cs

/-- `tagsAvoid` over a node list. -/
def tagsAvoidList (ts : List String) : List XNode → Bool
  | [] => true
  | c :: cs => tagsAvoid ts c && tagsAvoidList ts cs

end

mutual

/-- No node of the subtree carries an `r:id` attribute. -/
def ridFree : XNode → Bool
  | .text _ => true
  | .elem _ a cs => (a.lookup "r:id" == none) && ridFreeList cs

/-- `ridFree` over a node list. -/
def ridFreeList : List XNode → Bool
  | [] => true
  | c :: cs => ridFree c && ridFreeList cs

end

mutual

/-- The self-and-descendants tag filter of the validator computes
`subTagged` (for a non-empty tag). -/
theorem subTagged_eq_filter (tag : String) (htag : tag ≠ "") : ∀ (n : XNode),
    (n :: n.descendants).filter (fun m => m.tagOf == tag) = subTagged tag n
  | .text s => by
    simp [XNode.descendants, subTagged, XNode.tagOf,
      beq_eq_false_iff_ne.mpr (Ne.symm htag)]
  | .elem t a cs => by
    have h2 := subTaggedList_eq_filter tag htag cs
    show ((XNode.elem t a cs) :: descendantsList cs).filter (fun m => m.tagOf == tag)
      = subTagged tag (.elem t a cs)
    rw [List.filter_cons, h2]
    by_cases hp : ((XNode.elem t a cs).tagOf == tag) = true
    · simp only [hp, if_true, subTagged]
      rw [show (XNode.tagOf (.elem t a cs) == tag) = (t == tag) from rfl] at hp
      simp [hp]
    · simp only [hp, if_false, subTagged]
      rw [show (XNode.tagOf (.elem t a cs) == tag) = (t == tag) from rfl] at hp
      simp [hp]

/-- List version of `subTagged_eq_filter`. -/
theorem subTaggedList_eq_filter (tag : String) (htag : tag ≠ "") : ∀ (ns : List XNode),
    (descendantsList ns).filter (fun m => m.tagOf == tag) = subTaggedList tag ns
  | [] => rfl
  | c :: cs => by
    have h1 := subTagged_eq_filter tag htag c
    have h2 := subTaggedList_eq_filter tag htag cs
    show (c :: (XNode.descendants c ++ descendantsList cs)).filter (fun m => m.tagOf == tag)
      = subTagged tag c ++ subTaggedList tag cs
    rw [← h1, ← h2]
    by_cases hp : (c.tagOf == tag) = true <;>
      simp [List.filter_cons, List.filter_append, hp]

end

mutual

/-- The self-and-descendants `r:id` collection of the validator
computes `subRids`. -/
theorem subRids_eq_filterMap : ∀ (n : XNode),
    (n :: n.descendants).filterMap (fun e => e.attr? "r:id") = subRids n
  | .text s => rfl
  | .elem t a cs => by
    have h2 := subRidsList_eq_filterMap cs
    show ((XNode.elem t a cs) :: descendantsList cs).filterMap (fun e => e.attr? "r:id")
      = subRids (.elem t a cs)
    rw [List.filterMap_cons, h2]
    simp only [subRids]
    split <;> rename_i heq <;>
      rw [show a.lookup "r:id" = (XNode.elem t a cs).attr? "r:id" from rfl, heq] <;>
      rfl

/-- List version of `subRids_eq_filterMap`. -/
theorem subRidsList_eq_filterMap : ∀ (ns : List XNode),
    (descendantsList ns).filterMap (fun e => e.attr? "r:id") = subRidsList ns
  | [] => rfl
  | c :: cs => by
    have h1 := subRids_eq_filterMap c
    have h2 := subRidsList_eq_filterMap cs
    show (c :: (XNode.descendants c ++ descendantsList cs)).filterMap
        (fun e => e.attr? "r:id") = subRids c ++ subRidsList cs
    rw [← h1, ← h2]
    rcases h : c.attr? "r:id" with _ | v <;>
      simp [List.filterMap_cons, List.filterMap_append, h]

end

mutual

/-- A subtree avoiding a tag list has no tagged nodes for any member
tag. -/
theorem subTagged_eq_nil_of_avoid (ts : List String) (tag : String) (hmem : tag ∈ ts) :
    ∀ (n : XNode), tagsAvoid ts n = true → subTagged tag n = []
  | .text _, _ => rfl
  | .elem t a cs, h => by
    simp only [tagsAvoid, Bool.and_eq_true] at h
    simp only [subTagged]
    rw [subTaggedList_eq_nil_of_avoid ts tag hmem cs h.2]
    have ht : (t == tag) = false := by
      apply beq_eq_false_iff_ne.mpr
      intro he
      subst he
      have hcon : ts.contains t = true := List.elem_iff.mpr hmem
      rw [hcon] at h
      simp at h
    simp [ht]

/-- List version of `subTagged_eq_nil_of_avoid`. -/
theorem subTaggedList_eq_nil_of_avoid (ts : List String) (tag : String) (hmem : tag ∈ ts) :
    ∀ (ns : List XNode), tagsAvoidList ts ns = true → subTaggedList tag ns = []
  | [], _ => rfl
  | c :: cs, h => by
    simp only [tagsAvoidList, Bool.and_eq_true] at h
    simp only [subTaggedList]
    rw [subTagged_eq_nil_of_avoid ts tag hmem c h.1,
        subTaggedList_eq_nil_of_avoid ts tag hmem cs h.2]
    rfl

end

mutual

/-- An `r:id`-free subtree contributes no referenced relationship
ids. -/
theorem subRids_eq_nil_of_ridFree :
    ∀ (n : XNode), ridFree n = true → subRids n = []
  | .text _, _ => rfl
  | .elem t a cs, h => by
    simp only [ridFree, Bool.and_eq_true] at h
    simp only [subRids]
    rw [subRidsList_eq_nil_of_ridFree cs h.2]
    have ha : a.lookup "r:id" = none := by
      have := h.1
      cases hl : a.lookup "r:id"
      · rfl
      · rw [hl] at this; simp at this
    rw [ha]
    rfl

/-- List version of `subRids_eq_nil_of_ridFree`. -/
theorem subRidsList_eq_nil_of_ridFree :
    ∀ (ns : List XNode), ridFreeList ns = true → subRidsList ns = []
  | [], _ => rfl
  | c :: cs, h => by
    simp only [ridFreeList, Bool.and_eq_true] at h
    simp only [subRidsList]
    rw [subRids_eq_nil_of_ridFree c h.1, subRidsList_eq_nil_of_ridFree cs h.2]
    rfl

end

/-- `subTaggedList` distributes over append. -/
theorem subTaggedList_append (tag : String) :
    ∀ (l₁ l₂ : List XNode),
      subTaggedList tag (l₁ ++ l₂) = subTaggedList tag l₁ ++ subTaggedList tag l₂
  | [], _ => rfl
  | c :: cs, l₂ => by
    simp only [List.cons_append, subTaggedList, List.append_eq,
      subTaggedList_append tag cs l₂, List.append_assoc]

/-- `subIdsList` distributes over append. -/
theorem subIdsList_append (tag : String) (l₁ l₂ : List XNode) :
    subIdsList tag (l₁ ++ l₂) = subIdsList tag l₁ ++ subIdsList tag l₂ := by
  simp [subIdsList, subTaggedList_append, List.filterMap_append]

/-- `subIdsList` on a cons. -/
theorem subIdsList_cons (tag : String) (c : XNode) (cs : List XNode) :
    subIdsList tag (c :: cs) = subIdsList tag [c] ++ subIdsList tag cs := by
  simp [subIdsList, subTaggedList, List.filterMap_append]

/-- `subRidsList` distributes over append. -/
theorem subRidsList_append :
    ∀ (l₁ l₂ : List XNode), subRidsList (l₁ ++ l₂) = subRidsList l₁ ++ subRidsList l₂
  | [], _ => rfl
  | c :: cs, l₂ => by
    simp only [List.cons_append, subRidsList, List.append_eq,
      subRidsList_append cs l₂, List.append_assoc]

/-- `tagsAvoidList` over append. -/
theorem tagsAvoidList_append (ts : List String) :
    ∀ (l₁ l₂ : List XNode),
      tagsAvoidList ts (l₁ ++ l₂) = (tagsAvoidList ts l₁ && tagsAvoidList ts l₂)
  | [], _ => by simp [tagsAvoidList]
  | c :: cs, l₂ => by
    simp only [List.cons_append, tagsAvoidList, List.append_eq,
      tagsAvoidList_append ts cs l₂, Bool.and_assoc]

/-- `ridFreeList` over append. -/
theorem ridFreeList_append :
    ∀ (l₁ l₂ : List XNode),
      ridFreeList (l₁ ++ l₂) = (ridFreeList l₁ && ridFreeList l₂)
  | [], _ => by simp [ridFreeList]
  | c :: cs, l₂ => by
    simp only [List.cons_append, ridFreeList, List.append_eq,
      ridFreeList_append cs l₂, Bool.and_assoc]

mutual

/-- Avoidance is antitone in the tag list. -/
theorem tagsAvoid_sub (ts ts' : List String) (hsub : ∀ t ∈ ts', t ∈ ts) :
    ∀ (n : XNode), tagsAvoid ts n = true → tagsAvoid ts' n = true
  | .text _, _ => rfl
  | .elem t a cs, h => by
    simp only [tagsAvoid, Bool.and_eq_true] at h ⊢
    refine ⟨?_, tagsAvoidList_sub ts ts' hsub cs h.2⟩
    have h1 := h.1
    by_cases hc : ts'.contains t = true
    · have : t ∈ ts := hsub t (List.elem_iff.mp hc)
      have : ts.contains t = true := List.elem_iff.mpr this
      rw [this] at h1
      simp at h1
    · simp only [Bool.not_eq_true] at hc
      rw [hc]
      rfl

/-- List version of `tagsAvoid_sub`. -/
theorem tagsAvoidList_sub (ts ts' : List String) (hsub : ∀ t ∈ ts', t ∈ ts) :
    ∀ (ns : List XNode), tagsAvoidList ts ns = true → tagsAvoidList ts' ns = true
  | [], _ => rfl
  | c :: cs, h => by
    simp only [tagsAvoidList, Bool.and_eq_true] at h ⊢
    exact ⟨tagsAvoid_sub ts ts' hsub c h.1, tagsAvoidList_sub ts ts' hsub cs h.2⟩

end

/-! ## Revision-id and comment-metadata bookkeeping -/

/-- The tracked-change ids (`w:ins` then `w:del`) of a node list are
fresh: images of duplicate-free naturals drawn strictly between the
entry and exit revision counters. -/
def RevIds (lo hi : Nat) (ns : List XNode) : Prop :=
  ∃ a b : List Nat,
    subIdsList "w:ins" ns = a.map natToStr ∧
    subIdsList "w:del" ns = b.map natToStr ∧
    (a ++ b).Nodup ∧ ∀ n ∈ a ++ b, lo < n ∧ n ≤ hi

/-- Trivial revision bookkeeping for id-free node lists. -/
theorem revIds_of_nil {ns : List XNode} (lo : Nat)
    (hi : subIdsList "w:ins" ns = []) (hd : subIdsList "w:del" ns = []) :
    RevIds lo lo ns :=
  ⟨[], [], hi, hd, List.nodup_nil, by intro n hn; simp at hn⟩

/-- Trivial revision bookkeeping from tag avoidance. -/
theorem revIds_of_avoid {ts : List String} {ns : List XNode}
    (hins : "w:ins" ∈ ts) (hdel : "w:del" ∈ ts)
    (h : tagsAvoidList ts ns = true) (lo : Nat) : RevIds lo lo ns :=
  revIds_of_nil lo
    (by simp [subIdsList, subTaggedList_eq_nil_of_avoid ts _ hins ns h])
    (by simp [subIdsList, subTaggedList_eq_nil_of_avoid ts _ hdel ns h])

/-- Concatenation of revision bookkeeping over increasing counters. -/
theorem RevIds.append {lo mid hi : Nat} {l₁ l₂ : List XNode}
    (h₁ : RevIds lo mid l₁) (h₂ : RevIds mid hi l₂)
    (hlm : lo ≤ mid) (hmh : mid ≤ hi) : RevIds lo hi (l₁ ++ l₂) := by
  obtain ⟨a₁, b₁, hi₁, hd₁, hn₁, hb₁⟩ := h₁
  obtain ⟨a₂, b₂, hi₂, hd₂, hn₂, hb₂⟩ := h₂
  refine ⟨a₁ ++ a₂, b₁ ++ b₂, ?_, ?_, ?_, ?_⟩
  · rw [subIdsList_append, hi₁, hi₂, List.map_append]
  · rw [subIdsList_append, hd₁, hd₂, List.map_append]
  · have hna₁ : a₁.Nodup := (List.nodup_append.mp hn₁).1
    have hnb₁ : b₁.Nodup := (List.nodup_append.mp hn₁).2.1
    have hdis₁ : ∀ x ∈ a₁, x ∉ b₁ := fun x hx => (List.nodup_append.mp hn₁).2.2 hx
    have hna₂ : a₂.Nodup := (List.nodup_append.mp hn₂).1
    have hnb₂ : b₂.Nodup := (List.nodup_append.mp hn₂).2.1
    have hdis₂ : ∀ x ∈ a₂, x ∉ b₂ := fun x hx => (List.nodup_append.mp hn₂).2.2 hx
    have hlow : ∀ x ∈ a₁ ++ b₁, ∀ y ∈ a₂ ++ b₂, x ≠ y := by
      intro x hx y hy
      have h1 := hb₁ x hx
      have h2 := hb₂ y hy
      omega
    rw [List.nodup_append]
    refine ⟨?_, ?_, ?_⟩
    · rw [List.nodup_append]
      refine ⟨hna₁, hna₂, ?_⟩
      intro x hx hy
      exact hlow x (List.mem_append_left _ hx) x (List.mem_append_left _ hy) rfl
    · rw [List.nodup_append]
      refine ⟨hnb₁, hnb₂, ?_⟩
      intro x hx hy
      exact hlow x (List.mem_append_right _ hx) x (List.mem_append_right _ hy) rfl
    · intro x hx hy
      rcases List.mem_append.mp hx with hxa | hxa <;>
        rcases List.mem_append.mp hy with hyb | hyb
      · exact hdis₁ x hxa hyb
      · have h1 := hb₁ x (List.mem_append_left _ hxa)
        have h2 := hb₂ x (List.mem_append_right _ hyb)
        omega
      · have h1 := hb₂ x (List.mem_append_left _ hxa)
        have h2 := hb₁ x (List.mem_append_right _ hyb)
        omega
      · exact hdis₂ x hxa hyb
  · intro n hn
    rcases List.mem_append.mp hn with h | h <;>
      rcases List.mem_append.mp h with h | h
    · have := hb₁ n (List.mem_append_left _ h); omega
    · have := hb₂ n (List.mem_append_left _ h); omega
    · have := hb₁ n (List.mem_append_right _ h); omega
    · have := hb₂ n (List.mem_append_right _ h); omega

/-- Widening the counter interval of revision bookkeeping. -/
theorem RevIds.mono {lo hi lo' hi' : Nat} {ns : List XNode}
    (h : RevIds lo hi ns) (hl : lo' ≤ lo) (hh : hi ≤ hi') : RevIds lo' hi' ns := by
  obtain ⟨a, b, h1, h2, h3, h4⟩ := h
  exact ⟨a, b, h1, h2, h3, fun n hn => by have := h4 n hn; omega⟩

/-- One generation step extends the comment metadata with fresh
entries whose ids are string images of duplicate-free counters drawn
between the entry and exit comment counters. -/
def MetaExt (st st' : GenState) : Prop :=
  st.comment_counter ≤ st'.comment_counter ∧
  ∃ (Δ : List CommentMetadata) (ns : List Nat),
    st'.comment_metadata = st.comment_metadata ++ Δ ∧
    Δ.map (fun m => m.id) = ns.map natToStr ∧ ns.Nodup ∧
    ∀ n ∈ ns, st.comment_counter ≤ n ∧ n < st'.comment_counter

/-- Reflexivity of metadata extension. -/
theorem MetaExt.refl (st : GenState) : MetaExt st st :=
  ⟨Nat.le_refl _, [], [], by simp, rfl, List.nodup_nil, by intro n hn; simp at hn⟩

/-- Metadata extension ignores the other state components. -/
theorem MetaExt.of_eq {st st' st'' : GenState} (h : MetaExt st st')
    (hc : st''.comment_counter = st'.comment_counter)
    (hm : st''.comment_metadata = st'.comment_metadata) : MetaExt st st'' := by
  obtain ⟨h1, Δ, ns, h2, h3, h4, h5⟩ := h
  exact ⟨by omega, Δ, ns, by rw [hm, h2], h3, h4,
    fun n hn => by have := h5 n hn; omega⟩

/-- Metadata extension on the left state's other components. -/
theorem MetaExt.of_eq_left {st st' st'' : GenState} (h : MetaExt st' st'')
    (hc : st.comment_counter = st'.comment_counter)
    (hm : st.comment_metadata = st'.comment_metadata) : MetaExt st st'' := by
  obtain ⟨h1, Δ, ns, h2, h3, h4, h5⟩ := h
  exact ⟨by omega, Δ, ns, by rw [hm, h2], h3, h4,
    fun n hn => by have := h5 n hn; omega⟩

/-- Transitivity of metadata extension. -/
theorem MetaExt.trans {st₁ st₂ st₃ : GenState}
    (h₁ : MetaExt st₁ st₂) (h₂ : MetaExt st₂ st₃) : MetaExt st₁ st₃ := by
  obtain ⟨hc₁, Δ₁, ns₁, he₁, hm₁, hn₁, hb₁⟩ := h₁
  obtain ⟨hc₂, Δ₂, ns₂, he₂, hm₂, hn₂, hb₂⟩ := h₂
  refine ⟨by omega, Δ₁ ++ Δ₂, ns₁ ++ ns₂, ?_, ?_, ?_, ?_⟩
  · rw [he₂, he₁, List.append_assoc]
  · rw [List.map_append, hm₁, hm₂, List.map_append]
  · rw [List.nodup_append]
    refine ⟨hn₁, hn₂, ?_⟩
    intro x hx hy
    have h1 := hb₁ x hx
    have h2 := hb₂ x hy
    omega
  · intro n hn
    rcases List.mem_append.mp hn with h | h
    · have := hb₁ n h; omega
    · have := hb₂ n h; omega

/-! ## Small validator-side helpers -/

/-- The fail-fast loop succeeds exactly when every element passes. -/
theorem firstSomeP_eq_none {α} {f : α → Option String} :
    ∀ {l : List α}, (∀ a ∈ l, f a = none) → firstSomeP f l = none
  | [], _ => rfl
  | a :: l, h => by
    have ha := h a (List.mem_cons_self _ _)
    simp only [firstSomeP, ha]
    exact firstSomeP_eq_none (fun x hx => h x (List.mem_cons_of_mem _ hx))

/-- `find?` returns the unique element satisfying the predicate. -/
theorem find?_unique {α} {p : α → Bool} {x : α} :
    ∀ {l : List α}, x ∈ l → p x = true → (∀ y ∈ l, p y = true → y = x) →
      l.find? p = some x
  | [], hx, _, _ => absurd hx (by simp)
  | a :: l, hx, hpx, hu => by
    by_cases hpa : p a = true
    · rw [List.find?_cons_of_pos _ hpa]
      rw [hu a (List.mem_cons_self _ _) hpa]
    · rw [List.find?_cons_of_neg _ (by simp [hpa])]
      have hxl : x ∈ l := by
        rcases List.mem_cons.mp hx with he | hm
        · subst he; exact absurd hpx hpa
        · exact hm
      exact find?_unique hxl hpx (fun y hy => hu y (List.mem_cons_of_mem _ hy))

/-- `filterMap` of an attribute over a cons, in `toList` form. -/
theorem filterMap_attr_cons (key : String) (a : XNode) (l : List XNode) :
    (a :: l).filterMap (fun r => r.attr? key) =
      (a.attr? key).toList ++ l.filterMap (fun r => r.attr? key) := by
  rcases h : a.attr? key with _ | v <;> simp [List.filterMap_cons, h]

/-- In a node list whose attribute values for a key are duplicate-free,
two nodes carrying the same value coincide. -/
theorem attr_unique {l : List XNode} {key v : String} {x : XNode}
    (hnodup : (l.filterMap (fun r => r.attr? key)).Nodup)
    (hx : x ∈ l) (hxv : x.attr? key = some v) :
    ∀ y ∈ l, y.attr? key = some v → y = x := by
  induction l with
  | nil => intro y hy; exact absurd hy (by simp)
  | cons a l ih =>
    intro y hy hyv
    rcases List.mem_cons.mp hx with hxa | hxl <;>
      rcases List.mem_cons.mp hy with hya | hyl
    · rw [hya, ← hxa]
    · subst hxa
      exfalso
      rw [filterMap_attr_cons, hxv] at hnodup
      have hvin : v ∈ l.filterMap (fun r => r.attr? key) :=
        List.mem_filterMap.mpr ⟨y, hyl, hyv⟩
      exact (List.nodup_cons.mp (by simpa using hnodup)).1 hvin
    · subst hya
      exfalso
      rw [filterMap_attr_cons, hyv] at hnodup
      have hvin : v ∈ l.filterMap (fun r => r.attr? key) :=
        List.mem_filterMap.mpr ⟨x, hxl, hxv⟩
      exact (List.nodup_cons.mp (by simpa using hnodup)).1 hvin
    · have hnd : (l.filterMap (fun r => r.attr? key)).Nodup := by
        rw [filterMap_attr_cons] at hnodup
        exact (List.nodup_append.mp hnodup).2.1
      exact ih hnd hxl y hyl hyv

/-- `rel_by_id` resolves to the unique relationship node carrying the
id. -/
theorem relById_eq {rels : XNode} {x : XNode} {rid : String}
    (hmem : x ∈ rels.findChildren "Relationship")
    (hx : x.attr? "Id" = some rid)
    (hnodup : ((rels.findChildren "Relationship").filterMap
      (fun r => r.attr? "Id")).Nodup) :
    relById rels rid = some x := by
  unfold relById
  apply find?_unique (List.mem_reverse.mpr hmem) (by simp [hx])
  intro y hy hpy
  have hyv : y.attr? "Id" = some rid := by simpa using hpy
  exact attr_unique hnodup hmem hx y (List.mem_reverse.mp hy) hyv

/-- Tag set never occurring inside emitted run/marker content. -/
def runTs : List String :=
  ["w:sectPr", "w:ins", "w:del", "w:commentRangeStart", "w:commentRangeEnd"]

/-- Tag set never occurring inside tracked-change content. -/
def tcTs : List String := ["w:sectPr", "w:commentRangeStart", "w:commentRangeEnd"]

theorem addTextRun_avoid (s : String) : tagsAvoid runTs (addTextRun s) = true := rfl

theorem spacePreserveAttrs_lookup (k : String) (hk : k ≠ "xml:space") (s : String) :
    (spacePreserveAttrs s).lookup k = none := by
  unfold spacePreserveAttrs
  split
  · have h : (k == "xml:space") = false := beq_eq_false_iff_ne.mpr hk
    simp [List.lookup, h]
  · rfl

theorem addTextRun_ridFree (s : String) : ridFree (addTextRun s) = true := by
  simp [addTextRun, ridFree, ridFreeList,
    spacePreserveAttrs_lookup "r:id" (by decide) s]

theorem addTextRun_insIds (s : String) : subIdsList "w:ins" [addTextRun s] = [] := rfl

/-- `tcTs` avoidance follows from `runTs` avoidance. -/
theorem tagsAvoid_run_tc {n : XNode} (h : tagsAvoid runTs n = true) :
    tagsAvoid tcTs n = true :=
  tagsAvoid_sub runTs tcTs (by decide) n h

/-- Everything `_emit_tracked_change` produces and changes in one
step: the state advance, the fresh revision id, and the shape limits
of the emitted node. -/
theorem emitTrackedChange_spec (change : TrackedChange) (st : GenState) :
    (emitTrackedChange change st).snd =
      { st with revision_counter := st.revision_counter + 1 } ∧
    RevIds st.revision_counter (st.revision_counter + 1)
      [(emitTrackedChange change st).fst] ∧
    tagsAvoid tcTs (emitTrackedChange change st).fst = true ∧
    ridFree (emitTrackedChange change st).fst = true := by
  obtain ⟨ct, tx, au, da, rv, ia⟩ := change
  have hrid : ∀ tg : String,
      ridFree (XNode.elem tg
        [("w:id", natToStr (st.revision_counter + 1)), ("w:author", au), ("w:date", da)]
        [XNode.elem "w:r" []
          [XNode.elem "w:t" (spacePreserveAttrs tx) [.text tx]]]) = true := by
    intro tg
    simp [ridFree, ridFreeList, spacePreserveAttrs_lookup "r:id" (by decide) tx]
  have hrid' : ∀ tg : String,
      ridFree (XNode.elem tg
        [("w:id", natToStr (st.revision_counter + 1)), ("w:author", au), ("w:date", da)]
        [XNode.elem "w:r" []
          [XNode.elem "w:delText" (spacePreserveAttrs tx) [.text tx]]]) = true := by
    intro tg
    simp [ridFree, ridFreeList, spacePreserveAttrs_lookup "r:id" (by decide) tx]
  rcases ct with _ | _
  · refine ⟨rfl, ⟨[st.revision_counter + 1], [], rfl, rfl, by simp, ?_⟩, rfl, hrid "w:ins"⟩
    intro n hn
    simp at hn
    omega
  · refine ⟨rfl, ⟨[], [st.revision_counter + 1], rfl, rfl, by simp, ?_⟩, rfl, hrid' "w:del"⟩
    intro n hn
    simp at hn
    omega

/-- The full invariant of the tracked-change cursor walk: fresh
revision ids, no stray tags, no relationship references, and no
comment-side state changes. -/
theorem tcWalk_spec (base : String) :
    ∀ (evs : List (Nat × TcKind × TrackedChange)) (cursor : Nat) (st : GenState),
      RevIds st.revision_counter (tcWalk base evs cursor st).2.2.revision_counter
        (tcWalk base evs cursor st).1 ∧
      st.revision_counter ≤ (tcWalk base evs cursor st).2.2.revision_counter ∧
      tagsAvoidList tcTs (tcWalk base evs cursor st).1 = true ∧
      ridFreeList (tcWalk base evs cursor st).1 = true ∧
      (tcWalk base evs cursor st).2.2.rng = st.rng ∧
      (tcWalk base evs cursor st).2.2.comment_counter = st.comment_counter ∧
      (tcWalk base evs cursor st).2.2.comment_metadata = st.comment_metadata
  | [], cursor, st =>
    ⟨revIds_of_nil _ rfl rfl, Nat.le_refl _, rfl, rfl, rfl, rfl, rfl⟩
  | (pos, kind, change) :: rest, cursor, st => by
    obtain ⟨he1, he2, he3, he4⟩ := emitTrackedChange_spec change st
    have hrc : (emitTrackedChange change st).snd.revision_counter
        = st.revision_counter + 1 := by rw [he1]
    have hrng : (emitTrackedChange change st).snd.rng = st.rng := by rw [he1]
    have hcc : (emitTrackedChange change st).snd.comment_counter
        = st.comment_counter := by rw [he1]
    have hmd : (emitTrackedChange change st).snd.comment_metadata
        = st.comment_metadata := by rw [he1]
    have hpre : ∀ (pre : List XNode),
        (pre = [] ∨ ∃ s, pre = [addTextRun s]) →
        tagsAvoidList tcTs pre = true ∧ ridFreeList pre = true ∧
        RevIds st.revision_counter st.revision_counter pre := by
      intro pre hp
      rcases hp with rfl | ⟨s, rfl⟩
      · exact ⟨rfl, rfl, revIds_of_nil _ rfl rfl⟩
      · refine ⟨?_, ?_, ?_⟩
        · simp [tagsAvoidList, tagsAvoid_run_tc (addTextRun_avoid s)]
        · simp [ridFreeList, addTextRun_ridFree s]
        · exact revIds_of_nil _ rfl rfl
    have hif : ∀ (c p : Nat), (if c < p then [addTextRun (strSlice base c p)] else [])
        = [] ∨ ∃ s, (if c < p then [addTextRun (strSlice base c p)] else [])
        = [addTextRun s] := by
      intro c p
      by_cases h : c < p
      · exact Or.inr ⟨strSlice base c p, by rw [if_pos h]⟩
      · exact Or.inl (by rw [if_neg h])
    rcases kind with _ | _
    · -- insertion event
      obtain ⟨ih1, ih2, ih3, ih4, ih5, ih6, ih7⟩ := tcWalk_spec base rest
        (if cursor < pos then pos else cursor) (emitTrackedChange change st).snd
      obtain ⟨hp1, hp2, hp3⟩ := hpre _ (hif cursor pos)
      rw [hrc] at ih1 ih2
      simp only [tcWalk]
      refine ⟨?_, ?_, ?_, ?_, ?_, ?_, ?_⟩
      · have hmid := RevIds.append he2 ih1 (by omega) (by omega)
        have hmid' : RevIds st.revision_counter
            (tcWalk base rest (if cursor < pos then pos else cursor)
              (emitTrackedChange change st).snd).2.2.revision_counter
            ((emitTrackedChange change st).fst ::
              (tcWalk base rest (if cursor < pos then pos else cursor)
                (emitTrackedChange change st).snd).1) := by
          simpa using hmid
        exact RevIds.append hp3 hmid' (by omega) (by omega)
      · omega
      · rw [tagsAvoidList_append, hp1]
        simp [tagsAvoidList, he3, ih3]
      · rw [ridFreeList_append, hp2]
        simp [ridFreeList, he4, ih4]
      · rw [ih5, hrng]
      · rw [ih6, hcc]
      · rw [ih7, hmd]
    · -- deletion event
      obtain ⟨ih1, ih2, ih3, ih4, ih5, ih6, ih7⟩ := tcWalk_spec base rest
        (pos + change.text.length) (emitTrackedChange change st).snd
      obtain ⟨hp1, hp2, hp3⟩ := hpre _ (hif cursor pos)
      rw [hrc] at ih1 ih2
      simp only [tcWalk]
      refine ⟨?_, ?_, ?_, ?_, ?_, ?_, ?_⟩
      · have hmid := RevIds.append he2 ih1 (by omega) (by omega)
        have hmid' : RevIds st.revision_counter
            (tcWalk base rest (pos + change.text.length)
              (emitTrackedChange change st).snd).2.2.revision_counter
            ((emitTrackedChange change st).fst ::
              (tcWalk base rest (pos + change.text.length)
                (emitTrackedChange change st).snd).1) := by
          simpa using hmid
        exact RevIds.append hp3 hmid' (by omega) (by omega)
      · omega
      · rw [tagsAvoidList_append, hp1]
        simp [tagsAvoidList, he3, ih3]
      · rw [ridFreeList_append, hp2]
        simp [ridFreeList, he4, ih4]
      · rw [ih5, hrng]
      · rw [ih6, hcc]
      · rw [ih7, hmd]

/-- The legacy sequential emission path: same invariant as the walk. -/
theorem emitChangesSeq_spec :
    ∀ (cs : List TrackedChange) (st : GenState),
      RevIds st.revision_counter (emitChangesSeq cs st).snd.revision_counter
        (emitChangesSeq cs st).fst ∧
      st.revision_counter ≤ (emitChangesSeq cs st).snd.revision_counter ∧
      tagsAvoidList tcTs (emitChangesSeq cs st).fst = true ∧
      ridFreeList (emitChangesSeq cs st).fst = true ∧
      (emitChangesSeq cs st).snd.rng = st.rng ∧
      (emitChangesSeq cs st).snd.comment_counter = st.comment_counter ∧
      (emitChangesSeq cs st).snd.comment_metadata = st.comment_metadata
  | [], st => ⟨revIds_of_nil _ rfl rfl, Nat.le_refl _, rfl, rfl, rfl, rfl, rfl⟩
  | c :: cs, st => by
    obtain ⟨he1, he2, he3, he4⟩ := emitTrackedChange_spec c st
    have hrc : (emitTrackedChange c st).snd.revision_counter
        = st.revision_counter + 1 := by rw [he1]
    have hrng : (emitTrackedChange c st).snd.rng = st.rng := by rw [he1]
    have hcc : (emitTrackedChange c st).snd.comment_counter
        = st.comment_counter := by rw [he1]
    have hmd : (emitTrackedChange c st).snd.comment_metadata
        = st.comment_metadata := by rw [he1]
    obtain ⟨ih1, ih2, ih3, ih4, ih5, ih6, ih7⟩ :=
      emitChangesSeq_spec cs (emitTrackedChange c st).snd
    rw [hrc] at ih1 ih2
    simp only [emitChangesSeq]
    refine ⟨?_, by omega, ?_, ?_, by rw [ih5, hrng], by rw [ih6, hcc],
      by rw [ih7, hmd]⟩
    · have hmid := RevIds.append he2 ih1 (by omega) (by omega)
      simpa using hmid
    · simp [tagsAvoidList, he3, ih3]
    · simp [ridFreeList, he4, ih4]

/-- `_add_paragraph_with_tracked_changes`: same invariant. -/
theorem addParagraphWithTrackedChanges_spec (p : Paragraph) (st : GenState) :
    RevIds st.revision_counter
      (addParagraphWithTrackedChanges p st).snd.revision_counter
      (addParagraphWithTrackedChanges p st).fst ∧
    st.revision_counter ≤ (addParagraphWithTrackedChanges p st).snd.revision_counter ∧
    tagsAvoidList tcTs (addParagraphWithTrackedChanges p st).fst = true ∧
    ridFreeList (addParagraphWithTrackedChanges p st).fst = true ∧
    (addParagraphWithTrackedChanges p st).snd.rng = st.rng ∧
    (addParagraphWithTrackedChanges p st).snd.comment_counter = st.comment_counter ∧
    (addParagraphWithTrackedChanges p st).snd.comment_metadata
      = st.comment_metadata := by
  unfold addParagraphWithTrackedChanges
  split
  · exact emitChangesSeq_spec p.tracked_changes st
  · obtain ⟨hw1, hw2, hw3, hw4, hw5, hw6, hw7⟩ := tcWalk_spec p.text
      (pySortBy tcSortKey (p.tracked_changes.map (tcEventFor p.text))) 0 st
    have htail : ∀ (tl : List XNode),
        (tl = [] ∨ ∃ s, tl = [addTextRun s]) →
        tagsAvoidList tcTs tl = true ∧ ridFreeList tl = true ∧
        ∀ lo : Nat, RevIds lo lo tl := by
      intro tl hp
      rcases hp with rfl | ⟨s, rfl⟩
      · exact ⟨rfl, rfl, fun lo => revIds_of_nil _ rfl rfl⟩
      · refine ⟨?_, ?_, fun lo => revIds_of_nil _ rfl rfl⟩
        · simp [tagsAvoidList, tagsAvoid_run_tc (addTextRun_avoid s)]
        · simp [ridFreeList, addTextRun_ridFree s]
    obtain ⟨ht1, ht2, ht3⟩ := htail
      (if (tcWalk p.text (pySortBy tcSortKey
          (p.tracked_changes.map (tcEventFor p.text))) 0 st).snd.fst
          < p.text.length
        then [addTextRun (strSliceFrom p.text
          (tcWalk p.text (pySortBy tcSortKey
            (p.tracked_changes.map (tcEventFor p.text))) 0 st).snd.fst)]
        else [])
      (by split
          · exact Or.inr ⟨_, rfl⟩
          · exact Or.inl rfl)
    refine ⟨?_, hw2, ?_, ?_, hw5, hw6, hw7⟩
    · exact RevIds.append hw1 (ht3 _) hw2 (Nat.le_refl _)
    · rw [tagsAvoidList_append, hw3, ht1]
      rfl
    · rw [ridFreeList_append, hw4, ht2]
      rfl

/-! ## Comment-path emitters -/

/-- Ids contributed by a list of range markers of a given tag. -/
theorem crs_markers_ids (ids : List String) :
    subIdsList "w:commentRangeStart"
      (ids.map (fun rid => XNode.elem "w:commentRangeStart" [("w:id", rid)] []))
      = ids := by
  induction ids with
  | nil => rfl
  | cons i l ih =>
    rw [List.map_cons, subIdsList_cons, ih]
    rfl

/-- Ids contributed by end markers. -/
theorem cre_markers_ids (ids : List String) :
    subIdsList "w:commentRangeEnd"
      (ids.map (fun rid => XNode.elem "w:commentRangeEnd" [("w:id", rid)] []))
      = ids := by
  induction ids with
  | nil => rfl
  | cons i l ih =>
    rw [List.map_cons, subIdsList_cons, ih]
    rfl

/-- A mapped node list all of whose images avoid the tag list. -/
theorem tagsAvoidList_map {α} (ts : List String) (f : α → XNode)
    (h : ∀ x, tagsAvoid ts (f x) = true) :
    ∀ l : List α, tagsAvoidList ts (l.map f) = true
  | [] => rfl
  | x :: l => by
    rw [List.map_cons]
    simp [tagsAvoidList, h x, tagsAvoidList_map ts f h l]

/-- A mapped node list all of whose images are `r:id`-free. -/
theorem ridFreeList_map {α} (f : α → XNode)
    (h : ∀ x, ridFree (f x) = true) :
    ∀ l : List α, ridFreeList (l.map f) = true
  | [] => rfl
  | x :: l => by
    rw [List.map_cons]
    simp [ridFreeList, h x, ridFreeList_map f h l]

/-- A mapped node list none of whose images carry tagged nodes. -/
theorem subIdsList_map_nil {α} (tag : String) (f : α → XNode)
    (h : ∀ x, subIdsList tag [f x] = []) :
    ∀ l : List α, subIdsList tag (l.map f) = []
  | [] => rfl
  | x :: l => by
    rw [List.map_cons, subIdsList_cons, h x, subIdsList_map_nil tag f h l]
    rfl

/-- Tag set avoided by comments-only content. -/
def csTs : List String := ["w:sectPr", "w:ins", "w:del"]

/-- The registration step of one comment: counter advance and fresh
metadata ids; the revision counter is untouched. -/
theorem registerComment_spec (c : Comment) (st : GenState) :
    (registerComment c st).2.2.2.revision_counter = st.revision_counter ∧
    st.comment_counter < (registerComment c st).2.2.2.comment_counter ∧
    MetaExt st (registerComment c st).2.2.2 := by
  obtain ⟨h1, h2, h3, h4, h5, h6, h7⟩ := registerReplies_spec
    (pyUpper (toHex8 st.rng)) c.resolved c.replies (st.comment_counter + 1)
    (st.rng + 1)
  have hcc : (registerComment c st).2.2.2.comment_counter =
      (registerReplies (pyUpper (toHex8 st.rng)) c.resolved c.replies
        (st.comment_counter + 1) (st.rng + 1)).2.2.1 := rfl
  have hmd : (registerComment c st).2.2.2.comment_metadata =
      st.comment_metadata ++
      ({ id := natToStr st.comment_counter, para_id := pyUpper (toHex8 st.rng),
         durable_id := pyUpper (toHex8 st.rng), author := c.author, date := c.date,
         text := c.text, resolved := c.resolved,
         parent_para_id := none } : CommentMetadata) ::
        (registerReplies (pyUpper (toHex8 st.rng)) c.resolved c.replies
          (st.comment_counter + 1) (st.rng + 1)).1 := rfl
  refine ⟨rfl, by rw [hcc, h2]; omega, ?_, ?_⟩
  · rw [hcc, h2]; omega
  refine ⟨_, st.comment_counter ::
      List.range' (st.comment_counter + 1) c.replies.length, hmd, ?_, ?_, ?_⟩
  · rw [List.map_cons, h4, List.map_cons]
  · rw [List.nodup_cons]
    refine ⟨?_, List.nodup_range' _ _⟩
    intro hin
    have := List.mem_range'_1.mp hin
    omega
  · intro n hn
    rw [hcc, h2]
    rcases List.mem_cons.mp hn with rfl | hn
    · omega
    · have := List.mem_range'_1.mp hn
      omega

/-- Common contract of every paragraph-content synthesis path: fresh
revision ids, balanced comment-range markers, no section-properties
blocks, no relationship references, registered metadata. -/
def SynthOut (st st' : GenState) (ns : List XNode) : Prop :=
  RevIds st.revision_counter st'.revision_counter ns ∧
  st.revision_counter ≤ st'.revision_counter ∧
  tagsAvoidList ["w:sectPr"] ns = true ∧
  ridFreeList ns = true ∧
  (subIdsList "w:commentRangeStart" ns).Perm (subIdsList "w:commentRangeEnd" ns) ∧
  MetaExt st st'

/-- Concatenation of synthesis outputs. -/
theorem synthOut_append {st₁ st₂ st₃ : GenState} {ns₁ ns₂ : List XNode}
    (h₁ : SynthOut st₁ st₂ ns₁) (h₂ : SynthOut st₂ st₃ ns₂) :
    SynthOut st₁ st₃ (ns₁ ++ ns₂) := by
  obtain ⟨a1, a2, a3, a4, a5, a6⟩ := h₁
  obtain ⟨b1, b2, b3, b4, b5, b6⟩ := h₂
  refine ⟨RevIds.append a1 b1 a2 b2, by omega, ?_, ?_, ?_, a6.trans b6⟩
  · rw [tagsAvoidList_append, a3, b3]
    rfl
  · rw [ridFreeList_append, a4, b4]
    rfl
  · rw [subIdsList_append, subIdsList_append]
    exact a5.append b5

/-- The empty synthesis output. -/
theorem synthOut_nil (st : GenState) : SynthOut st st [] :=
  ⟨revIds_of_nil _ rfl rfl, Nat.le_refl _, rfl, rfl, List.Perm.refl _,
   MetaExt.refl st⟩

/-- All per-tag facts of a plain run chunk (empty, or a single `w:r`
element wrapping a `w:t` with `r:id`-free attributes). -/
theorem runChunk_facts (ns : List XNode)
    (h : ns = [] ∨ ∃ a s, (List.lookup "r:id" a) = (none : Option String) ∧
      ns = [XNode.elem "w:r" [] [XNode.elem "w:t" a [.text s]]]) :
    subIdsList "w:ins" ns = [] ∧ subIdsList "w:del" ns = [] ∧
    subIdsList "w:commentRangeStart" ns = [] ∧
    subIdsList "w:commentRangeEnd" ns = [] ∧
    tagsAvoidList ["w:sectPr"] ns = true ∧ ridFreeList ns = true := by
  rcases h with rfl | ⟨a, s, ha, rfl⟩
  · exact ⟨rfl, rfl, rfl, rfl, rfl, rfl⟩
  · refine ⟨rfl, rfl, rfl, rfl, rfl, ?_⟩
    simp [ridFreeList, ridFree, ha]

/-- All per-tag facts of a marker chunk. -/
theorem startMarkers_facts (cid : String) (rids : List String) :
    subIdsList "w:commentRangeStart"
      (XNode.elem "w:commentRangeStart" [("w:id", cid)] [] ::
        rids.map (fun rid => XNode.elem "w:commentRangeStart" [("w:id", rid)] []))
      = cid :: rids ∧
    subIdsList "w:commentRangeEnd"
      (XNode.elem "w:commentRangeStart" [("w:id", cid)] [] ::
        rids.map (fun rid => XNode.elem "w:commentRangeStart" [("w:id", rid)] []))
      = [] ∧
    subIdsList "w:ins"
      (XNode.elem "w:commentRangeStart" [("w:id", cid)] [] ::
        rids.map (fun rid => XNode.elem "w:commentRangeStart" [("w:id", rid)] []))
      = [] ∧
    subIdsList "w:del"
      (XNode.elem "w:commentRangeStart" [("w:id", cid)] [] ::
        rids.map (fun rid => XNode.elem "w:commentRangeStart" [("w:id", rid)] []))
      = [] ∧
    tagsAvoidList ["w:sectPr"]
      (XNode.elem "w:commentRangeStart" [("w:id", cid)] [] ::
        rids.map (fun rid => XNode.elem "w:commentRangeStart" [("w:id", rid)] []))
      = true ∧
    ridFreeList
      (XNode.elem "w:commentRangeStart" [("w:id", cid)] [] ::
        rids.map (fun rid => XNode.elem "w:commentRangeStart" [("w:id", rid)] []))
      = true := by
  refine ⟨?_, ?_, ?_, ?_, ?_, ?_⟩
  · rw [subIdsList_cons, crs_markers_ids]
    rfl
  · rw [subIdsList_cons, subIdsList_map_nil "w:commentRangeEnd"
      (fun rid => XNode.elem "w:commentRangeStart" [("w:id", rid)] [])
      (fun x => rfl)]
    rfl
  · rw [subIdsList_cons, subIdsList_map_nil "w:ins"
      (fun rid => XNode.elem "w:commentRangeStart" [("w:id", rid)] [])
      (fun x => rfl)]
    rfl
  · rw [subIdsList_cons, subIdsList_map_nil "w:del"
      (fun rid => XNode.elem "w:commentRangeStart" [("w:id", rid)] [])
      (fun x => rfl)]
    rfl
  · simp only [tagsAvoidList]
    rw [tagsAvoidList_map ["w:sectPr"]
      (fun rid => XNode.elem "w:commentRangeStart" [("w:id", rid)] [])
      (fun x => rfl)]
    rfl
  · simp only [ridFreeList]
    rw [ridFreeList_map
      (fun rid => XNode.elem "w:commentRangeStart" [("w:id", rid)] [])
      (fun x => rfl)]
    rfl

/-- All per-tag facts of an end-marker chunk. -/
theorem endMarkers_facts (cid : String) (rids : List String) :
    subIdsList "w:commentRangeEnd"
      (XNode.elem "w:commentRangeEnd" [("w:id", cid)] [] ::
        rids.map (fun rid => XNode.elem "w:commentRangeEnd" [("w:id", rid)] []))
      = cid :: rids ∧
    subIdsList "w:commentRangeStart"
      (XNode.elem "w:commentRangeEnd" [("w:id", cid)] [] ::
        rids.map (fun rid => XNode.elem "w:commentRangeEnd" [("w:id", rid)] []))
      = [] ∧
    subIdsList "w:ins"
      (XNode.elem "w:commentRangeEnd" [("w:id", cid)] [] ::
        rids.map (fun rid => XNode.elem "w:commentRangeEnd" [("w:id", rid)] []))
      = [] ∧
    subIdsList "w:del"
      (XNode.elem "w:commentRangeEnd" [("w:id", cid)] [] ::
        rids.map (fun rid => XNode.elem "w:commentRangeEnd" [("w:id", rid)] []))
      = [] ∧
    tagsAvoidList ["w:sectPr"]
      (XNode.elem "w:commentRangeEnd" [("w:id", cid)] [] ::
        rids.map (fun rid => XNode.elem "w:commentRangeEnd" [("w:id", rid)] []))
      = true ∧
    ridFreeList
      (XNode.elem "w:commentRangeEnd" [("w:id", cid)] [] ::
        rids.map (fun rid => XNode.elem "w:commentRangeEnd" [("w:id", rid)] []))
      = true := by
  refine ⟨?_, ?_, ?_, ?_, ?_, ?_⟩
  · rw [subIdsList_cons, cre_markers_ids]
    rfl
  · rw [subIdsList_cons, subIdsList_map_nil "w:commentRangeStart"
      (fun rid => XNode.elem "w:commentRangeEnd" [("w:id", rid)] [])
      (fun x => rfl)]
    rfl
  · rw [subIdsList_cons, subIdsList_map_nil "w:ins"
      (fun rid => XNode.elem "w:commentRangeEnd" [("w:id", rid)] [])
      (fun x => rfl)]
    rfl
  · rw [subIdsList_cons, subIdsList_map_nil "w:del"
      (fun rid => XNode.elem "w:commentRangeEnd" [("w:id", rid)] [])
      (fun x => rfl)]
    rfl
  · simp only [tagsAvoidList]
    rw [tagsAvoidList_map ["w:sectPr"]
      (fun rid => XNode.elem "w:commentRangeEnd" [("w:id", rid)] [])
      (fun x => rfl)]
    rfl
  · simp only [ridFreeList]
    rw [ridFreeList_map
      (fun rid => XNode.elem "w:commentRangeEnd" [("w:id", rid)] [])
      (fun x => rfl)]
    rfl

/-- All per-tag facts of a reference-run chunk. -/
theorem refRuns_facts (cid : String) (rids : List String) :
    subIdsList "w:ins" (commentReferenceRun cid :: rids.map commentReferenceRun)
      = [] ∧
    subIdsList "w:del" (commentReferenceRun cid :: rids.map commentReferenceRun)
      = [] ∧
    subIdsList "w:commentRangeStart"
      (commentReferenceRun cid :: rids.map commentReferenceRun) = [] ∧
    subIdsList "w:commentRangeEnd"
      (commentReferenceRun cid :: rids.map commentReferenceRun) = [] ∧
    tagsAvoidList ["w:sectPr"]
      (commentReferenceRun cid :: rids.map commentReferenceRun) = true ∧
    ridFreeList (commentReferenceRun cid :: rids.map commentReferenceRun)
      = true := by
  refine ⟨?_, ?_, ?_, ?_, ?_, ?_⟩
  · rw [subIdsList_cons, subIdsList_map_nil "w:ins" commentReferenceRun
      (fun x => rfl)]
    rfl
  · rw [subIdsList_cons, subIdsList_map_nil "w:del" commentReferenceRun
      (fun x => rfl)]
    rfl
  · rw [subIdsList_cons, subIdsList_map_nil "w:commentRangeStart"
      commentReferenceRun (fun x => rfl)]
    rfl
  · rw [subIdsList_cons, subIdsList_map_nil "w:commentRangeEnd"
      commentReferenceRun (fun x => rfl)]
    rfl
  · simp only [tagsAvoidList]
    rw [tagsAvoidList_map ["w:sectPr"] commentReferenceRun (fun x => rfl)]
    rfl
  · simp only [ridFreeList]
    rw [ridFreeList_map commentReferenceRun (fun x => rfl)]
    rfl

/-- A quiet-content synthesis step: no tracked-change ids among the
nodes, any comment metadata jump in the state. -/
theorem SynthOut.of_parts {st st' : GenState} {ns : List XNode}
    (hrc : st'.revision_counter = st.revision_counter)
    (hme : MetaExt st st')
    (hins : subIdsList "w:ins" ns = []) (hdel : subIdsList "w:del" ns = [])
    (hperm : (subIdsList "w:commentRangeStart" ns).Perm
      (subIdsList "w:commentRangeEnd" ns))
    (hav : tagsAvoidList ["w:sectPr"] ns = true)
    (hrf : ridFreeList ns = true) :
    SynthOut st st' ns := by
  refine ⟨?_, by omega, hav, hrf, hperm, hme⟩
  rw [hrc]
  exact revIds_of_nil _ hins hdel

/-- One comment's emitted segment satisfies the common contract (its
start and end marker id lists are literally equal). -/
theorem commentSegment_spec (full : String) (c : Comment) (st : GenState) :
    SynthOut st (commentSegment full c st).snd (commentSegment full c st).fst := by
  obtain ⟨hr1, hr2, hr3⟩ := registerComment_spec c st
  obtain ⟨s1, s2, s3, s4, s5, s6⟩ :=
    startMarkers_facts (registerComment c st).1 (registerComment c st).2.1
  obtain ⟨e1, e2, e3, e4, e5, e6⟩ :=
    endMarkers_facts (registerComment c st).1 (registerComment c st).2.1
  obtain ⟨r1, r2, r3, r4, r5, r6⟩ :=
    refRuns_facts (registerComment c st).1 (registerComment c st).2.1
  simp only [commentSegment]
  generalize commentSpan full c.anchor_text = span
  obtain ⟨bt, aft⟩ := span
  obtain ⟨b1, b2, b3, b4, b5, b6⟩ := runChunk_facts
    (if bt ≠ "" then [XNode.elem "w:r" []
      [XNode.elem "w:t" [("xml:space", "preserve")] [.text bt]]] else [])
    (by split
        · exact Or.inr ⟨[("xml:space", "preserve")], bt, rfl, rfl⟩
        · exact Or.inl rfl)
  obtain ⟨f1, f2, f3, f4, f5, f6⟩ := runChunk_facts
    (if aft ≠ "" then [XNode.elem "w:r" [] [XNode.elem "w:t" [] [.text aft]]] else [])
    (by split
        · exact Or.inr ⟨[], aft, rfl, rfl⟩
        · exact Or.inl rfl)
  obtain ⟨a1, a2, a3, a4, a5, a6⟩ := runChunk_facts
    [XNode.elem "w:r" [] [XNode.elem "w:t" [] [.text c.anchor_text]]]
    (Or.inr ⟨[], c.anchor_text, rfl, rfl⟩)
  apply SynthOut.of_parts hr1 hr3
  · rw [subIdsList_append, subIdsList_append, subIdsList_append, subIdsList_append,
      subIdsList_append, b1, s3, a1, e3, r1, f1]
    rfl
  · rw [subIdsList_append, subIdsList_append, subIdsList_append, subIdsList_append,
      subIdsList_append, b2, s4, a2, e4, r2, f2]
    rfl
  · rw [subIdsList_append, subIdsList_append, subIdsList_append, subIdsList_append,
      subIdsList_append, b3, s1, a3, e2, r3, f3]
    rw [subIdsList_append, subIdsList_append, subIdsList_append, subIdsList_append,
      subIdsList_append, b4, s2, a4, e1, r4, f4]
    simp
  · rw [tagsAvoidList_append, tagsAvoidList_append, tagsAvoidList_append,
      tagsAvoidList_append, tagsAvoidList_append, b5, s5, a5, e5, r5, f5]
    rfl
  · rw [ridFreeList_append, ridFreeList_append, ridFreeList_append,
      ridFreeList_append, ridFreeList_append, b6, s6, a6, e6, r6, f6]
    rfl

/-- The comment loop satisfies the common contract. -/
theorem commentSegments_spec (full : String) :
    ∀ (cs : List Comment) (st : GenState),
      SynthOut st (commentSegments full cs st).snd (commentSegments full cs st).fst
  | [], st => synthOut_nil st
  | c :: cs, st => by
    have h1 := commentSegment_spec full c st
    have h2 := commentSegments_spec full cs (commentSegment full c st).snd
    simp only [commentSegments]
    exact synthOut_append h1 h2

/-- `_add_paragraph_with_comments` satisfies the common contract. -/
theorem addParagraphWithComments_spec (p : Paragraph) (st : GenState) :
    SynthOut st (addParagraphWithComments p st).snd
      (addParagraphWithComments p st).fst :=
  commentSegments_spec p.text p.comments st

/-! ## The combined comments-and-tracked-changes path -/

/-- Start-marker ids an event contributes in the combined walk. -/
def evStartIds : MixedEvent → List String
  | .commentStart _ info => info.comment_id :: info.reply_ids
  | _ => []

/-- End-marker ids an event contributes in the combined walk. -/
def evEndIds : MixedEvent → List String
  | .commentEnd _ info => info.comment_id :: info.reply_ids
  | _ => []

/-- Tracked-change events carry no start-marker ids. -/
theorem evStartIds_mixedTcEvent (base : String) (x : TrackedChange) :
    evStartIds (mixedTcEvent base x) = [] := by
  unfold mixedTcEvent
  split
  · split <;> rfl
  · split
    · split <;> rfl
    · rfl

/-- Tracked-change events carry no end-marker ids. -/
theorem evEndIds_mixedTcEvent (base : String) (x : TrackedChange) :
    evEndIds (mixedTcEvent base x) = [] := by
  unfold mixedTcEvent
  split
  · split <;> rfl
  · split
    · split <;> rfl
    · rfl

/-- The comment-event builder: balanced start/end ids, registered
metadata, untouched revision counter. -/
theorem buildCommentEvents_spec (base : String) :
    ∀ (cs : List Comment) (st : GenState),
      ((buildCommentEvents base cs st).fst.flatMap evStartIds)
        = ((buildCommentEvents base cs st).fst.flatMap evEndIds) ∧
      MetaExt st (buildCommentEvents base cs st).snd ∧
      (buildCommentEvents base cs st).snd.revision_counter = st.revision_counter
  | [], st => ⟨rfl, MetaExt.refl st, rfl⟩
  | c :: cs, st => by
    obtain ⟨hr1, hr2, hr3⟩ := registerComment_spec c st
    obtain ⟨ih1, ih2, ih3⟩ :=
      buildCommentEvents_spec base cs (registerComment c st).2.2.2
    simp only [buildCommentEvents]
    refine ⟨?_, hr3.trans ih2, by rw [ih3, hr1]⟩
    rw [List.flatMap_cons, List.flatMap_cons, List.flatMap_cons, List.flatMap_cons,
      ih1]
    rfl

/-- Quiet facts for the run emitted before an event. -/
theorem preChunk_facts (base : String) (cursor pos : Nat) :
    subIdsList "w:ins"
      (if cursor < pos then [addTextRun (strSlice base cursor pos)] else []) = [] ∧
    subIdsList "w:del"
      (if cursor < pos then [addTextRun (strSlice base cursor pos)] else []) = [] ∧
    subIdsList "w:commentRangeStart"
      (if cursor < pos then [addTextRun (strSlice base cursor pos)] else []) = [] ∧
    subIdsList "w:commentRangeEnd"
      (if cursor < pos then [addTextRun (strSlice base cursor pos)] else []) = [] ∧
    tagsAvoidList ["w:sectPr"]
      (if cursor < pos then [addTextRun (strSlice base cursor pos)] else []) = true ∧
    ridFreeList
      (if cursor < pos then [addTextRun (strSlice base cursor pos)] else [])
      = true := by
  split
  · refine ⟨rfl, rfl, rfl, rfl, ?_, ?_⟩
    · simp [tagsAvoidList,
        tagsAvoid_sub runTs ["w:sectPr"] (by decide) _ (addTextRun_avoid _)]
    · simp [ridFreeList, addTextRun_ridFree _]
  · exact ⟨rfl, rfl, rfl, rfl, rfl, rfl⟩

/-- A single avoided node contributes no tagged ids. -/
theorem subIdsList_singleton_nil_of_avoid {ts : List String} {tag : String}
    {n : XNode} (hmem : tag ∈ ts) (h : tagsAvoid ts n = true) :
    subIdsList tag [n] = [] := by
  have h' : tagsAvoidList ts [n] = true := by simp [tagsAvoidList, h]
  simp [subIdsList, subTaggedList_eq_nil_of_avoid ts tag hmem [n] h']

/-- The full invariant of the combined cursor walk: fresh revision
ids, start/end marker ids exactly as the events dictate, no stray
tags, no relationship references, untouched comment state. -/
theorem mixedWalk_spec (base : String) :
    ∀ (evs : List MixedEvent) (cursor : Nat) (st : GenState),
      RevIds st.revision_counter (mixedWalk base evs cursor st).2.2.revision_counter
        (mixedWalk base evs cursor st).1 ∧
      st.revision_counter ≤ (mixedWalk base evs cursor st).2.2.revision_counter ∧
      tagsAvoidList ["w:sectPr"] (mixedWalk base evs cursor st).1 = true ∧
      ridFreeList (mixedWalk base evs cursor st).1 = true ∧
      subIdsList "w:commentRangeStart" (mixedWalk base evs cursor st).1
        = evs.flatMap evStartIds ∧
      subIdsList "w:commentRangeEnd" (mixedWalk base evs cursor st).1
        = evs.flatMap evEndIds ∧
      (mixedWalk base evs cursor st).2.2.rng = st.rng ∧
      (mixedWalk base evs cursor st).2.2.comment_counter = st.comment_counter ∧
      (mixedWalk base evs cursor st).2.2.comment_metadata = st.comment_metadata
  | [], cursor, st =>
    ⟨revIds_of_nil _ rfl rfl, Nat.le_refl _, rfl, rfl, rfl, rfl, rfl, rfl, rfl⟩
  | (MixedEvent.commentStart pos info) :: rest, cursor, st => by
    obtain ⟨ih1, ih2, ih3, ih4, ih5, ih6, ih7, ih8, ih9⟩ := mixedWalk_spec base rest
      (if cursor < pos then pos else cursor) st
    obtain ⟨s1, s2, s3, s4, s5, s6⟩ :=
      startMarkers_facts info.comment_id info.reply_ids
    obtain ⟨hp1, hp2, hp3, hp4, hp5, hp6⟩ := preChunk_facts base cursor pos
    simp only [mixedWalk]
    refine ⟨?_, ih2, ?_, ?_, ?_, ?_, ih7, ih8, ih9⟩
    · refine RevIds.append (revIds_of_nil _ ?_ ?_) ih1 (Nat.le_refl _) ih2
      · rw [subIdsList_append, hp1, s3]
        rfl
      · rw [subIdsList_append, hp2, s4]
        rfl
    · rw [tagsAvoidList_append, tagsAvoidList_append, hp5, s5, ih3]
      rfl
    · rw [ridFreeList_append, ridFreeList_append, hp6, s6, ih4]
      rfl
    · rw [subIdsList_append, subIdsList_append, hp3, s1, ih5, List.flatMap_cons]
      rfl
    · rw [subIdsList_append, subIdsList_append, hp4, s2, ih6, List.flatMap_cons]
      rfl
  | (MixedEvent.commentEnd pos info) :: rest, cursor, st => by
    obtain ⟨ih1, ih2, ih3, ih4, ih5, ih6, ih7, ih8, ih9⟩ := mixedWalk_spec base rest
      (if cursor < pos then pos else cursor) st
    obtain ⟨e1, e2, e3, e4, e5, e6⟩ :=
      endMarkers_facts info.comment_id info.reply_ids
    obtain ⟨r1, r2, r3, r4, r5, r6⟩ :=
      refRuns_facts info.comment_id info.reply_ids
    obtain ⟨hp1, hp2, hp3, hp4, hp5, hp6⟩ := preChunk_facts base cursor pos
    simp only [mixedWalk]
    refine ⟨?_, ih2, ?_, ?_, ?_, ?_, ih7, ih8, ih9⟩
    · refine RevIds.append (revIds_of_nil _ ?_ ?_) ih1 (Nat.le_refl _) ih2
      · rw [subIdsList_append, subIdsList_append, hp1, e3, r1]
        rfl
      · rw [subIdsList_append, subIdsList_append, hp2, e4, r2]
        rfl
    · rw [tagsAvoidList_append, tagsAvoidList_append, tagsAvoidList_append,
        hp5, e5, r5, ih3]
      rfl
    · rw [ridFreeList_append, ridFreeList_append, ridFreeList_append,
        hp6, e6, r6, ih4]
      rfl
    · rw [subIdsList_append, subIdsList_append, subIdsList_append,
        hp3, e2, r3, ih5, List.flatMap_cons]
      rfl
    · rw [subIdsList_append, subIdsList_append, subIdsList_append,
        hp4, e1, r4, ih6, List.flatMap_cons]
      simp [evEndIds]
  | (MixedEvent.del pos change) :: rest, cursor, st => by
    obtain ⟨he1, he2, he3, he4⟩ := emitTrackedChange_spec change st
    have hrc : (emitTrackedChange change st).snd.revision_counter
        = st.revision_counter + 1 := by rw [he1]
    have hrng : (emitTrackedChange change st).snd.rng = st.rng := by rw [he1]
    have hcc : (emitTrackedChange change st).snd.comment_counter
        = st.comment_counter := by rw [he1]
    have hmd : (emitTrackedChange change st).snd.comment_metadata
        = st.comment_metadata := by rw [he1]
    obtain ⟨ih1, ih2, ih3, ih4, ih5, ih6, ih7, ih8, ih9⟩ := mixedWalk_spec base rest
      (pos + change.text.length) (emitTrackedChange change st).snd
    rw [hrc] at ih1 ih2
    obtain ⟨hp1, hp2, hp3, hp4, hp5, hp6⟩ := preChunk_facts base cursor pos
    simp only [mixedWalk]
    refine ⟨?_, by omega, ?_, ?_, ?_, ?_, by rw [ih7, hrng], by rw [ih8, hcc],
      by rw [ih9, hmd]⟩
    · have hmid := RevIds.append he2 ih1 (by omega) (by omega)
      have hmid' : RevIds st.revision_counter
          (mixedWalk base rest (pos + change.text.length)
            (emitTrackedChange change st).snd).2.2.revision_counter
          ((emitTrackedChange change st).fst ::
            (mixedWalk base rest (pos + change.text.length)
              (emitTrackedChange change st).snd).1) := by
        simpa using hmid
      exact RevIds.append (revIds_of_nil _ hp1 hp2) hmid' (Nat.le_refl _) (by omega)
    · rw [tagsAvoidList_append, hp5]
      simp [tagsAvoidList, tagsAvoid_sub tcTs ["w:sectPr"] (by decide) _ he3, ih3]
    · rw [ridFreeList_append, hp6]
      simp [ridFreeList, he4, ih4]
    · rw [subIdsList_append, hp3, subIdsList_cons,
        @subIdsList_singleton_nil_of_avoid tcTs _ _ (by decide) he3, ih5,
        List.flatMap_cons]
      rfl
    · rw [subIdsList_append, hp4, subIdsList_cons,
        @subIdsList_singleton_nil_of_avoid tcTs _ _ (by decide) he3, ih6,
        List.flatMap_cons]
      rfl
  | (MixedEvent.ins pos change) :: rest, cursor, st => by
    obtain ⟨he1, he2, he3, he4⟩ := emitTrackedChange_spec change st
    have hrc : (emitTrackedChange change st).snd.revision_counter
        = st.revision_counter + 1 := by rw [he1]
    have hrng : (emitTrackedChange change st).snd.rng = st.rng := by rw [he1]
    have hcc : (emitTrackedChange change st).snd.comment_counter
        = st.comment_counter := by rw [he1]
    have hmd : (emitTrackedChange change st).snd.comment_metadata
        = st.comment_metadata := by rw [he1]
    obtain ⟨ih1, ih2, ih3, ih4, ih5, ih6, ih7, ih8, ih9⟩ := mixedWalk_spec base rest
      (if cursor < pos then pos else cursor) (emitTrackedChange change st).snd
    rw [hrc] at ih1 ih2
    obtain ⟨hp1, hp2, hp3, hp4, hp5, hp6⟩ := preChunk_facts base cursor pos
    simp only [mixedWalk]
    refine ⟨?_, by omega, ?_, ?_, ?_, ?_, by rw [ih7, hrng], by rw [ih8, hcc],
      by rw [ih9, hmd]⟩
    · have hmid := RevIds.append he2 ih1 (by omega) (by omega)
      have hmid' : RevIds st.revision_counter
          (mixedWalk base rest (if cursor < pos then pos else cursor)
            (emitTrackedChange change st).snd).2.2.revision_counter
          ((emitTrackedChange change st).fst ::
            (mixedWalk base rest (if cursor < pos then pos else cursor)
              (emitTrackedChange change st).snd).1) := by
        simpa using hmid
      exact RevIds.append (revIds_of_nil _ hp1 hp2) hmid' (Nat.le_refl _) (by omega)
    · rw [tagsAvoidList_append, hp5]
      simp [tagsAvoidList, tagsAvoid_sub tcTs ["w:sectPr"] (by decide) _ he3, ih3]
    · rw [ridFreeList_append, hp6]
      simp [ridFreeList, he4, ih4]
    · rw [subIdsList_append, hp3, subIdsList_cons,
        @subIdsList_singleton_nil_of_avoid tcTs _ _ (by decide) he3, ih5,
        List.flatMap_cons]
      rfl
    · rw [subIdsList_append, hp4, subIdsList_cons,
        @subIdsList_singleton_nil_of_avoid tcTs _ _ (by decide) he3, ih6,
        List.flatMap_cons]
      rfl

/-- `flatMap` distributes over append. -/
theorem flatMap_append' {α β : Type} (f : α → List β) :
    ∀ l₁ l₂ : List α, (l₁ ++ l₂).flatMap f = l₁.flatMap f ++ l₂.flatMap f
  | [], _ => rfl
  | x :: l, l₂ => by
    rw [List.cons_append, List.flatMap_cons, List.flatMap_cons,
      flatMap_append' f l l₂, List.append_assoc]

/-- A mapped event list with id-free images contributes no ids. -/
theorem flatMap_map_nil {α β γ : Type} (f : α → β) (g : β → List γ)
    (h : ∀ x, g (f x) = []) : ∀ l : List α, (l.map f).flatMap g = []
  | [] => rfl
  | x :: l => by
    rw [List.map_cons, List.flatMap_cons, h x, flatMap_map_nil f g h l]
    rfl

/-- `_add_paragraph_with_comments_and_tracked_changes` meets the
common contract: the sorted event walk emits one start and one end
marker set per comment, so the two id multisets are permutations. -/
theorem addParagraphWithCommentsAndTrackedChanges_spec (p : Paragraph)
    (st : GenState) :
    SynthOut st (addParagraphWithCommentsAndTrackedChanges p st).snd
      (addParagraphWithCommentsAndTrackedChanges p st).fst := by
  obtain ⟨hb1, hb2, hb3⟩ := buildCommentEvents_spec p.text p.comments st
  obtain ⟨hw1, hw2, hw3, hw4, hw5, hw6, hw7, hw8, hw9⟩ := mixedWalk_spec p.text
    (mixedAllEvents p st).fst 0 (mixedAllEvents p st).snd
  have hsnd : (mixedAllEvents p st).snd
      = (buildCommentEvents p.text p.comments st).snd := rfl
  rw [hsnd, hb3] at hw1 hw2
  obtain ⟨t1, t2, t3, t4, t5, t6⟩ := runChunk_facts
    (if (mixedWalk p.text (mixedAllEvents p st).fst 0
          (mixedAllEvents p st).snd).snd.fst < p.text.length
      then [addTextRun (strSliceFrom p.text
        (mixedWalk p.text (mixedAllEvents p st).fst 0
          (mixedAllEvents p st).snd).snd.fst)]
      else [])
    (by split
        · exact Or.inr ⟨spacePreserveAttrs _, _,
            spacePreserveAttrs_lookup "r:id" (by decide) _, rfl⟩
        · exact Or.inl rfl)
  have hperm : ((mixedAllEvents p st).fst).Perm
      (p.tracked_changes.map (mixedTcEvent p.text) ++
        (buildCommentEvents p.text p.comments st).fst) :=
    pySortBy_perm mixedSortKey _
  have hflat : ∀ (g : MixedEvent → List String),
      (∀ x, g (mixedTcEvent p.text x) = []) →
      ((p.tracked_changes.map (mixedTcEvent p.text) ++
        (buildCommentEvents p.text p.comments st).fst).flatMap g)
      = (buildCommentEvents p.text p.comments st).fst.flatMap g := by
    intro g hg
    rw [flatMap_append', flatMap_map_nil _ _ hg]
    rfl
  have hcrs : ((mixedAllEvents p st).fst.flatMap evStartIds).Perm
      ((mixedAllEvents p st).fst.flatMap evEndIds) := by
    have h1 := List.Perm.flatMap_right evStartIds hperm
    have h2 := List.Perm.flatMap_right evEndIds hperm
    rw [hflat evStartIds (fun x => evStartIds_mixedTcEvent p.text x)] at h1
    rw [hflat evEndIds (fun x => evEndIds_mixedTcEvent p.text x)] at h2
    rw [hb1] at h1
    exact h1.trans h2.symm
  unfold addParagraphWithCommentsAndTrackedChanges
  refine ⟨?_, hw2, ?_, ?_, ?_, ?_⟩
  · exact RevIds.append hw1
      (revIds_of_nil _ t1 t2) hw2 (Nat.le_refl _)
  · rw [tagsAvoidList_append, hw3, t5]
    rfl
  · rw [ridFreeList_append, hw4, t6]
    rfl
  · rw [subIdsList_append, subIdsList_append, hw5, hw6, t3, t4,
      List.append_nil, List.append_nil]
    exact hcrs
  · exact MetaExt.of_eq (hb2.of_eq rfl rfl) hw8 hw9

/-- Quiet facts of the paragraph-properties element. -/
theorem paragraphPPr_facts (p : Paragraph) :
    subIdsList "w:ins" (paragraphPPr p) = [] ∧
    subIdsList "w:del" (paragraphPPr p) = [] ∧
    subIdsList "w:commentRangeStart" (paragraphPPr p) = [] ∧
    subIdsList "w:commentRangeEnd" (paragraphPPr p) = [] ∧
    tagsAvoidList ["w:sectPr"] (paragraphPPr p) = true ∧
    ridFreeList (paragraphPPr p) = true := by
  unfold paragraphPPr
  split
  · exact ⟨rfl, rfl, rfl, rfl, rfl, rfl⟩
  · split
    · split
      · exact ⟨rfl, rfl, rfl, rfl, rfl, rfl⟩
      · exact ⟨rfl, rfl, rfl, rfl, rfl, rfl⟩
    · exact ⟨rfl, rfl, rfl, rfl, rfl, rfl⟩

/-- The content dispatch of `_add_paragraph` meets the common
contract on every path. -/
theorem paragraphContent_spec (p : Paragraph) (st : GenState) :
    SynthOut st (paragraphContent p st).snd (paragraphContent p st).fst := by
  unfold paragraphContent
  split
  · exact addParagraphWithCommentsAndTrackedChanges_spec p st
  · split
    · exact addParagraphWithComments_spec p st
    · split
      · obtain ⟨h1, h2, h3, h4, h5, h6, h7⟩ :=
          addParagraphWithTrackedChanges_spec p st
        refine ⟨h1, h2, tagsAvoidList_sub tcTs ["w:sectPr"] (by decide) _ h3, h4,
          ?_, MetaExt.of_eq (MetaExt.refl st) h6 h7⟩
        rw [show subIdsList "w:commentRangeStart"
            (addParagraphWithTrackedChanges p st).fst = [] from by
          simp [subIdsList, subTaggedList_eq_nil_of_avoid tcTs
            "w:commentRangeStart" (by decide) _ h3]]
        rw [show subIdsList "w:commentRangeEnd"
            (addParagraphWithTrackedChanges p st).fst = [] from by
          simp [subIdsList, subTaggedList_eq_nil_of_avoid tcTs
            "w:commentRangeEnd" (by decide) _ h3]]
      · exact ⟨revIds_of_nil _ rfl rfl, Nat.le_refl _, rfl, rfl,
          List.Perm.refl _, MetaExt.refl st⟩

/-- Stripping the `w:p` wrapper preserves the tagged-id collections. -/
theorem wrap_para_ids (tag : String) (hne : ("w:p" == tag) = false)
    (a : List (String × String)) (cs : List XNode) :
    subIdsList tag [XNode.elem "w:p" a cs] = subIdsList tag cs := by
  simp [subIdsList, subTaggedList, subTagged, hne]

/-- `_add_paragraph` meets the common contract as a single node. -/
theorem addParagraph_spec (p : Paragraph) (st : GenState) :
    SynthOut st (addParagraph p st).snd [(addParagraph p st).fst] := by
  obtain ⟨c1, c2, c3, c4, c5, c6⟩ :=
    paragraphContent_spec p { st with rng := (generateHexId st.rng).snd }
  obtain ⟨pp1, pp2, pp3, pp4, pp5, pp6⟩ := paragraphPPr_facts p
  have hnode : (addParagraph p st).fst = XNode.elem "w:p"
      [("w14:paraId", (generateHexId st.rng).fst), ("w14:textId", "77777777")]
      (paragraphPPr p ++
        (paragraphContent p { st with rng := (generateHexId st.rng).snd }).fst)
      := rfl
  have hsnd : (addParagraph p st).snd =
      (paragraphContent p { st with rng := (generateHexId st.rng).snd }).snd := rfl
  rw [hnode, hsnd]
  refine ⟨?_, c2, ?_, ?_, ?_, MetaExt.of_eq_left c6 rfl rfl⟩
  · obtain ⟨a, b, e1, e2, e3, e4⟩ := c1
    refine ⟨a, b, ?_, ?_, e3, e4⟩
    · rw [wrap_para_ids _ (by decide), subIdsList_append, pp1, e1]
      rfl
    · rw [wrap_para_ids _ (by decide), subIdsList_append, pp2, e2]
      rfl
  · simp only [tagsAvoidList, tagsAvoid]
    rw [tagsAvoidList_append, pp5, c3]
    rfl
  · simp only [ridFreeList, ridFree]
    rw [ridFreeList_append, pp6, c4]
    rfl
  · rw [wrap_para_ids _ (by decide), wrap_para_ids _ (by decide),
      subIdsList_append, subIdsList_append, pp3, pp4]
    simpa using c5


/-- A node list avoids a tag list when each member does. -/
theorem tagsAvoidList_of_forall {ts : List String} :
    ∀ {ns : List XNode}, (∀ n ∈ ns, tagsAvoid ts n = true) →
      tagsAvoidList ts ns = true
  | [], _ => rfl
  | c :: cs, h => by
    simp only [tagsAvoidList]
    rw [h c (List.mem_cons_self _ _),
      tagsAvoidList_of_forall (fun n hn => h n (List.mem_cons_of_mem _ hn))]
    rfl

/-- Membership in a node list's `r:id` collection. -/
theorem mem_subRidsList {x : String} :
    ∀ {ns : List XNode}, x ∈ subRidsList ns ↔ ∃ n ∈ ns, x ∈ subRids n
  | [] => by simp [subRidsList]
  | c :: cs => by
    simp only [subRidsList, List.mem_append, @mem_subRidsList x cs]
    constructor
    · rintro (h | ⟨n, hn, hx⟩)
      · exact ⟨c, List.mem_cons_self _ _, h⟩
      · exact ⟨n, List.mem_cons_of_mem _ hn, hx⟩
    · rintro ⟨n, hn, hx⟩
      rcases List.mem_cons.mp hn with rfl | hn
      · exact Or.inl hx
      · exact Or.inr ⟨n, hn, hx⟩

/-- Shape of every header/footer reference node: a childless element
tagged `w:headerReference`/`w:footerReference` whose `r:id` is the
recorded relationship id of some reference-map entry of the matching
kind. -/
theorem sectPrRefNodes_shape (refs : List HFRef) (si : Nat) :
    ∀ n ∈ sectPrRefNodes refs si,
      ∃ tg vv rid, (tg = "w:headerReference" ∧
          (∃ r ∈ refs, rid = r.rid ∧ r.kind = "header") ∨
        tg = "w:footerReference" ∧
          (∃ r ∈ refs, rid = r.rid ∧ r.kind = "footer")) ∧
        rid ≠ "" ∧ n = XNode.elem tg [("w:type", vv), ("r:id", rid)] [] := by
  intro n hn
  simp only [sectPrRefNodes, List.mem_flatMap] at hn
  obtain ⟨kr, hkr, hn⟩ := hn
  obtain ⟨vv, hvv, hf⟩ := List.mem_filterMap.mp hn
  rcases hlook : refLookup refs si kr.1 vv.1 with _ | rid
  · rw [hlook] at hf; exact absurd hf (by simp)
  · rw [hlook] at hf
    have hf' : (if rid ≠ "" then
        some (XNode.elem ("w:" ++ kr.2) [("w:type", vv.2), ("r:id", rid)] [])
      else none) = some n := hf
    by_cases hrid : rid ≠ ""
    · rw [if_pos hrid] at hf'
      have hne : n = XNode.elem ("w:" ++ kr.2) [("w:type", vv.2), ("r:id", rid)] [] :=
        (Option.some.inj hf').symm
      have hr : ∃ r ∈ refs, rid = r.rid ∧ r.kind = kr.1 := by
        unfold refLookup at hlook
        rcases hfind : refs.find? (fun r =>
            r.section_index == si && r.kind == kr.1 && r.variant == vv.1)
          with _ | r
        · rw [hfind] at hlook; simp at hlook
        · rw [hfind] at hlook
          have hrr : r.rid = rid := by simpa using hlook
          have hcond := List.find?_some hfind
          simp only [Bool.and_eq_true, beq_iff_eq] at hcond
          exact ⟨r, List.mem_of_find?_eq_some hfind, hrr.symm, hcond.1.2⟩
      rcases List.mem_cons.mp hkr with h | h
      · refine ⟨"w:" ++ kr.2, vv.2, rid, Or.inl ⟨by rw [h]; rfl, ?_⟩, hrid, hne⟩
        rw [h] at hr
        exact hr
      · rcases List.mem_cons.mp h with h2 | h2
        · refine ⟨"w:" ++ kr.2, vv.2, rid, Or.inr ⟨by rw [h2]; rfl, ?_⟩, hrid, hne⟩
          rw [h2] at hr
          exact hr
        · exact absurd h2 (by simp)
    · rw [if_neg hrid] at hf'; exact absurd hf' (by simp)

/-- The children of a section-properties block: no tracked-change or
comment-marker or nested section-properties tags, and every `r:id`
they carry is a recorded relationship id. -/
theorem sectPrChildren_facts (layout : List SectionSpec) (refs : List HFRef)
    (sect : SectionSpec) (b : Bool) :
    tagsAvoidList
      ["w:sectPr", "w:ins", "w:del", "w:commentRangeStart", "w:commentRangeEnd"]
      (sectPrNode layout refs sect b).childrenOf = true ∧
    (∀ x ∈ subRidsList (sectPrNode layout refs sect b).childrenOf,
      ∃ r ∈ refs, x = r.rid) := by
  have hmem : ∀ c ∈ (sectPrNode layout refs sect b).childrenOf,
      (∃ tg a, (tg = "w:type" ∨ tg = "w:titlePg" ∨ tg = "w:pgNumType" ∨
          tg = "w:pgSz" ∨ tg = "w:pgMar" ∨ tg = "w:cols" ∨ tg = "w:docGrid") ∧
        List.lookup "r:id" a = (none : Option String) ∧
        c = XNode.elem tg a []) ∨
      (∃ tg vv rid, (tg = "w:headerReference" ∨ tg = "w:footerReference") ∧
        (∃ r ∈ refs, rid = r.rid) ∧
        c = XNode.elem tg [("w:type", vv), ("r:id", rid)] []) := by
    intro c hc
    have hc' : c ∈
        (if b then [] else [XNode.elem "w:type" [("w:val", sect.break_type)] []]) ++
        sectPrRefNodes refs (layout.findIdx (fun s => s == sect)) ++
        (if hasFirstRef refs (layout.findIdx (fun s => s == sect)) then
          [XNode.elem "w:titlePg" [] []] else []) ++
        pgNumTypeNodes sect ++
        [pgSzNode sect, pgMarNode, colsNode, docGridNode] := hc
    rcases List.mem_append.mp hc' with h3 | h4
    · rcases List.mem_append.mp h3 with h5 | h6
      · rcases List.mem_append.mp h5 with h7 | h8
        · rcases List.mem_append.mp h7 with h9 | h10
          · rcases b with _ | _
            · exact Or.inl ⟨"w:type", [("w:val", sect.break_type)],
                by simp, rfl, List.mem_singleton.mp (by simpa using h9)⟩
            · exact absurd h9 (by simp)
          · obtain ⟨tg, vv, rid, hcase, hrid, hne⟩ :=
              sectPrRefNodes_shape refs _ c h10
            rcases hcase with ⟨htg, r, hr, hrr, _⟩ | ⟨htg, r, hr, hrr, _⟩
            · exact Or.inr ⟨tg, vv, rid, Or.inl htg, ⟨r, hr, hrr⟩, hne⟩
            · exact Or.inr ⟨tg, vv, rid, Or.inr htg, ⟨r, hr, hrr⟩, hne⟩
        · by_cases hb : hasFirstRef refs (layout.findIdx (fun s => s == sect)) = true
          · rw [if_pos hb] at h8
            exact Or.inl ⟨"w:titlePg", [], by simp, rfl, List.mem_singleton.mp h8⟩
          · rw [if_neg hb] at h8
            exact absurd h8 (by simp)
      · unfold pgNumTypeNodes at h6
        split at h6
        · refine Or.inl ⟨"w:pgNumType", _, by simp, ?_, List.mem_singleton.mp h6⟩
          split
          · rfl
          · split <;> rfl
        · exact absurd h6 (by simp)
    · have h4' : c = pgSzNode sect ∨ c = pgMarNode ∨ c = colsNode ∨ c = docGridNode := by
        simpa using h4
      rcases h4' with h | h | h | h
      · unfold pgSzNode at h
        rcases ho : sect.orientation with _ | _ <;> rw [ho] at h
        · exact Or.inl ⟨"w:pgSz", [("w:w", "11906"), ("w:h", "16838")],
            by simp, rfl, h⟩
        · exact Or.inl ⟨"w:pgSz",
            [("w:w", "16838"), ("w:h", "11906"), ("w:orient", "landscape")],
            by simp, rfl, h⟩
      · exact Or.inl ⟨"w:pgMar",
          [("w:top", "1440"), ("w:right", "1440"), ("w:bottom", "1440"),
           ("w:left", "1440"), ("w:header", "708"), ("w:footer", "708"),
           ("w:gutter", "0")], by simp, rfl, h⟩
      · exact Or.inl ⟨"w:cols", [("w:space", "708")], by simp, rfl, h⟩
      · exact Or.inl ⟨"w:docGrid", [("w:linePitch", "360")], by simp, rfl, h⟩
  constructor
  · apply tagsAvoidList_of_forall
    intro n hn
    rcases hmem n hn with ⟨tg, a, htg, _, rfl⟩ | ⟨tg, vv, rid, htg, _, rfl⟩
    · rcases htg with rfl | rfl | rfl | rfl | rfl | rfl | rfl <;> rfl
    · rcases htg with rfl | rfl <;> rfl
  · intro x hx
    obtain ⟨n, hn, hxn⟩ := mem_subRidsList.mp hx
    rcases hmem n hn with ⟨tg, a, htg, ha, rfl⟩ | ⟨tg, vv, rid, htg, hrr, rfl⟩
    · exfalso
      have hsub : subRids (XNode.elem tg a []) = [] := by
        simp [subRids, subRidsList, ha]
      rw [hsub] at hxn
      simp at hxn
    · have hsub : subRids (XNode.elem tg [("w:type", vv), ("r:id", rid)] []) = [rid] := rfl
      rw [hsub] at hxn
      obtain ⟨r, hr, hrid⟩ := hrr
      have : x = rid := by simpa using hxn
      exact ⟨r, hr, by rw [this, hrid]⟩

/-- A section-properties block: no tracked-change or comment-marker
ids in its subtree, it is its own only `w:sectPr`-tagged node, and its
`r:id`s are recorded relationship ids. -/
theorem sectPrNode_facts (layout : List SectionSpec) (refs : List HFRef)
    (sect : SectionSpec) (b : Bool) :
    subTagged "w:ins" (sectPrNode layout refs sect b) = [] ∧
    subTagged "w:del" (sectPrNode layout refs sect b) = [] ∧
    subTagged "w:commentRangeStart" (sectPrNode layout refs sect b) = [] ∧
    subTagged "w:commentRangeEnd" (sectPrNode layout refs sect b) = [] ∧
    subTagged "w:sectPr" (sectPrNode layout refs sect b)
      = [sectPrNode layout refs sect b] ∧
    (∀ x ∈ subRids (sectPrNode layout refs sect b), ∃ r ∈ refs, x = r.rid) := by
  obtain ⟨hav, hrid⟩ := sectPrChildren_facts layout refs sect b
  have hform : sectPrNode layout refs sect b =
      XNode.elem "w:sectPr" [] ((sectPrNode layout refs sect b).childrenOf) := rfl
  have hquiet : ∀ tag : String, tag ∈
      (["w:sectPr", "w:ins", "w:del", "w:commentRangeStart", "w:commentRangeEnd"] :
        List String) → ("w:sectPr" == tag) = false →
      subTagged tag (sectPrNode layout refs sect b) = [] := by
    intro tag htag hne
    rw [hform]
    simp only [subTagged, hne, if_false]
    rw [subTaggedList_eq_nil_of_avoid _ tag htag _ hav]
    rfl
  refine ⟨hquiet _ (by decide) (by decide), hquiet _ (by decide) (by decide),
    hquiet _ (by decide) (by decide), hquiet _ (by decide) (by decide), ?_, ?_⟩
  · rw [hform]
    simp only [subTagged]
    rw [subTaggedList_eq_nil_of_avoid _ "w:sectPr" (by decide) _ hav]
    rw [show (("w:sectPr" : String) == "w:sectPr") = true from rfl]
    simp
  · intro x hx
    rw [hform] at hx
    simp only [subRids] at hx
    exact hrid x (by simpa using hx)

/-- Inserting the block into the first `w:pPr` splits the tagged-node
collection around the insertion point (for tags other than `w:pPr`). -/
theorem attachIntoFirstPPr_subTagged (tag : String) (hp : ("w:pPr" == tag) = false)
    (sp : XNode) :
    ∀ cs : List XNode, ∃ A B, subTaggedList tag cs = A ++ B ∧
      (subTaggedList tag (attachIntoFirstPPr cs sp) = A ++ B ∨
       subTaggedList tag (attachIntoFirstPPr cs sp) = A ++ (subTagged tag sp ++ B))
  | [] => ⟨[], [], rfl, Or.inl rfl⟩
  | c :: cs => by
    simp only [attachIntoFirstPPr]
    by_cases hc : (c.tagOf == "w:pPr") = true
    · rw [if_pos hc]
      rcases c with ⟨t, a, ch⟩ | s
      · have ht : t = "w:pPr" := eq_of_beq (by simpa [XNode.tagOf] using hc)
        subst ht
        refine ⟨subTaggedList tag ch, subTaggedList tag cs, ?_, Or.inr ?_⟩
        · simp only [subTaggedList, subTagged, hp, if_false]
          rfl
        · simp only [subTaggedList, subTagged, XNode.tagOf, XNode.attrsOf,
            XNode.childrenOf, hp, if_false, subTaggedList_append]
          simp [List.append_assoc, subTaggedList]
      · exact absurd hc (by simp [XNode.tagOf])
    · rw [if_neg hc]
      obtain ⟨A, B, h1, h2⟩ := attachIntoFirstPPr_subTagged tag hp sp cs
      refine ⟨subTagged tag c ++ A, B, ?_, ?_⟩
      · simp only [subTaggedList]
        rw [h1, List.append_assoc]
      · rcases h2 with h2 | h2
        · refine Or.inl ?_
          simp only [subTaggedList]
          rw [h2, List.append_assoc]
        · refine Or.inr ?_
          simp only [subTaggedList]
          rw [h2, List.append_assoc]

/-- Same splitting for the `r:id` collection. -/
theorem attachIntoFirstPPr_subRids (sp : XNode) :
    ∀ cs : List XNode, ∃ A B, subRidsList cs = A ++ B ∧
      (subRidsList (attachIntoFirstPPr cs sp) = A ++ B ∨
       subRidsList (attachIntoFirstPPr cs sp) = A ++ (subRids sp ++ B))
  | [] => ⟨[], [], rfl, Or.inl rfl⟩
  | c :: cs => by
    simp only [attachIntoFirstPPr]
    by_cases hc : (c.tagOf == "w:pPr") = true
    · rw [if_pos hc]
      rcases c with ⟨t, a, ch⟩ | s
      · have ht : t = "w:pPr" := eq_of_beq (by simpa [XNode.tagOf] using hc)
        subst ht
        refine ⟨(List.lookup "r:id" a).toList ++ subRidsList ch, subRidsList cs,
          ?_, Or.inr ?_⟩
        · simp only [subRidsList, subRids]
        · simp only [subRidsList, subRids, XNode.tagOf, XNode.attrsOf,
            XNode.childrenOf, subRidsList_append]
          simp [List.append_assoc, subRidsList]
      · exact absurd hc (by simp [XNode.tagOf])
    · rw [if_neg hc]
      obtain ⟨A, B, h1, h2⟩ := attachIntoFirstPPr_subRids sp cs
      refine ⟨subRids c ++ A, B, ?_, ?_⟩
      · simp only [subRidsList]
        rw [h1, List.append_assoc]
      · rcases h2 with h2 | h2
        · refine Or.inl ?_
          simp only [subRidsList]
          rw [h2, List.append_assoc]
        · refine Or.inr ?_
          simp only [subRidsList]
          rw [h2, List.append_assoc]

/-- Attaching splits the paragraph's tagged-node collection. -/
theorem attach_subTagged_split (tag : String) (hp : ("w:pPr" == tag) = false)
    (hw : ("w:p" == tag) = false) (a : List (String × String)) (cs : List XNode)
    (sp : XNode) :
    ∃ A B, subTaggedList tag [XNode.elem "w:p" a cs] = A ++ B ∧
      (subTaggedList tag [attachSectPrToPara (XNode.elem "w:p" a cs) sp] = A ++ B ∨
       subTaggedList tag [attachSectPrToPara (XNode.elem "w:p" a cs) sp]
         = A ++ (subTagged tag sp ++ B)) := by
  have hwrap : ∀ cs' : List XNode,
      subTaggedList tag [XNode.elem "w:p" a cs'] = subTaggedList tag cs' := by
    intro cs'
    simp [subTaggedList, subTagged, hw]
  simp only [attachSectPrToPara]
  split
  · obtain ⟨A, B, h1, h2⟩ := attachIntoFirstPPr_subTagged tag hp sp cs
    refine ⟨A, B, by rw [hwrap, h1], ?_⟩
    rw [hwrap]
    exact h2
  · refine ⟨subTaggedList tag cs, [], by rw [hwrap]; simp, Or.inr ?_⟩
    rw [hwrap, subTaggedList_append]
    simp [subTaggedList, subTagged, hp]

/-- Attaching splits the paragraph's `r:id` collection. -/
theorem attach_subRids_split (a : List (String × String)) (cs : List XNode)
    (sp : XNode) :
    ∃ A B, subRidsList [XNode.elem "w:p" a cs] = A ++ B ∧
      (subRidsList [attachSectPrToPara (XNode.elem "w:p" a cs) sp] = A ++ B ∨
       subRidsList [attachSectPrToPara (XNode.elem "w:p" a cs) sp]
         = A ++ (subRids sp ++ B)) := by
  have hwrap : ∀ cs' : List XNode,
      subRidsList [XNode.elem "w:p" a cs'] =
        (List.lookup "r:id" a).toList ++ subRidsList cs' := by
    intro cs'
    simp [subRidsList, subRids]
  simp only [attachSectPrToPara]
  split
  · obtain ⟨A, B, h1, h2⟩ := attachIntoFirstPPr_subRids sp cs
    refine ⟨(List.lookup "r:id" a).toList ++ A, B, ?_, ?_⟩
    · rw [hwrap, h1, List.append_assoc]
    · rcases h2 with h2 | h2
      · exact Or.inl (by rw [hwrap, h2, List.append_assoc])
      · exact Or.inr (by rw [hwrap, h2, List.append_assoc])
  · refine ⟨(List.lookup "r:id" a).toList ++ subRidsList cs, [], ?_, Or.inr ?_⟩
    · rw [hwrap]
      simp
    · rw [hwrap, subRidsList_append]
      simp [subRidsList, subRids]

/-- Transfer of revision-id bookkeeping along id-list equalities. -/
theorem RevIds.congr {lo hi : Nat} {l l' : List XNode} (h : RevIds lo hi l)
    (hins : subIdsList "w:ins" l' = subIdsList "w:ins" l)
    (hdel : subIdsList "w:del" l' = subIdsList "w:del" l) : RevIds lo hi l' := by
  obtain ⟨a, b, e1, e2, e3, e4⟩ := h
  exact ⟨a, b, by rw [hins, e1], by rw [hdel, e2], e3, e4⟩

/-- Contract of the body paragraph walk: the common synthesis contract
plus the section-properties characterization (every `w:sectPr` node is
an emitted block, every `r:id` a recorded relationship id). -/
def BodyOut (layout : List SectionSpec) (refs : List HFRef)
    (st st' : GenState) (ns : List XNode) : Prop :=
  RevIds st.revision_counter st'.revision_counter ns ∧
  st.revision_counter ≤ st'.revision_counter ∧
  (subIdsList "w:commentRangeStart" ns).Perm (subIdsList "w:commentRangeEnd" ns) ∧
  MetaExt st st' ∧
  (∀ x ∈ subRidsList ns, ∃ r ∈ refs, x = r.rid) ∧
  (∀ sp ∈ subTaggedList "w:sectPr" ns, ∃ s2 b, sp = sectPrNode layout refs s2 b)

/-- The empty body walk. -/
theorem bodyOut_nil (layout : List SectionSpec) (refs : List HFRef)
    (st : GenState) : BodyOut layout refs st st [] :=
  ⟨revIds_of_nil _ rfl rfl, Nat.le_refl _, List.Perm.refl _, MetaExt.refl st,
   by intro x hx; simp [subRidsList] at hx,
   by intro sp hsp; simp [subTaggedList] at hsp⟩

/-- Concatenation of body outputs. -/
theorem bodyOut_append {layout : List SectionSpec} {refs : List HFRef}
    {st₁ st₂ st₃ : GenState} {l₁ l₂ : List XNode}
    (h₁ : BodyOut layout refs st₁ st₂ l₁) (h₂ : BodyOut layout refs st₂ st₃ l₂) :
    BodyOut layout refs st₁ st₃ (l₁ ++ l₂) := by
  obtain ⟨a1, a2, a3, a4, a5, a6⟩ := h₁
  obtain ⟨b1, b2, b3, b4, b5, b6⟩ := h₂
  refine ⟨RevIds.append a1 b1 a2 b2, by omega, ?_, a4.trans b4, ?_, ?_⟩
  · rw [subIdsList_append, subIdsList_append]
    exact a3.append b3
  · intro x hx
    rw [subRidsList_append] at hx
    rcases List.mem_append.mp hx with h | h
    · exact a5 x h
    · exact b5 x h
  · intro sp hsp
    rw [subTaggedList_append] at hsp
    rcases List.mem_append.mp hsp with h | h
    · exact a6 sp h
    · exact b6 sp h

/-- Synthesis outputs are body outputs (no section-properties blocks,
no relationship references). -/
theorem BodyOut_of_SynthOut (layout : List SectionSpec) (refs : List HFRef)
    {st st' : GenState} {ns : List XNode} (h : SynthOut st st' ns) :
    BodyOut layout refs st st' ns := by
  obtain ⟨h1, h2, h3, h4, h5, h6⟩ := h
  refine ⟨h1, h2, h5, h6, ?_, ?_⟩
  · intro x hx
    rw [subRidsList_eq_nil_of_ridFree ns h4] at hx
    simp at hx
  · intro sp hsp
    rw [subTaggedList_eq_nil_of_avoid ["w:sectPr"] "w:sectPr" (by decide) ns h3]
      at hsp
    simp at hsp

/-- An attached boundary paragraph is a body output. -/
theorem BodyOut_attached (p : Paragraph) (st : GenState)
    (layout : List SectionSpec) (refs : List HFRef) (sect : SectionSpec) :
    BodyOut layout refs st (addParagraph p st).snd
      [attachSectPrToPara (addParagraph p st).fst
        (sectPrNode layout refs sect false)] := by
  obtain ⟨h1, h2, h3, h4, h5, h6⟩ := addParagraph_spec p st
  obtain ⟨q1, q2, q3, q4, q5, q6⟩ := sectPrNode_facts layout refs sect false
  have hnode : (addParagraph p st).fst = XNode.elem "w:p"
      [("w14:paraId", (generateHexId st.rng).fst), ("w14:textId", "77777777")]
      (paragraphPPr p ++
        (paragraphContent p { st with rng := (generateHexId st.rng).snd }).fst)
      := rfl
  rw [hnode] at h1 h3 h4 h5 ⊢
  have hideq : ∀ tag : String, ("w:pPr" == tag) = false → ("w:p" == tag) = false →
      subTagged tag (sectPrNode layout refs sect false) = [] →
      subIdsList tag [attachSectPrToPara (XNode.elem "w:p"
          [("w14:paraId", (generateHexId st.rng).fst), ("w14:textId", "77777777")]
          (paragraphPPr p ++
            (paragraphContent p
              { st with rng := (generateHexId st.rng).snd }).fst))
        (sectPrNode layout refs sect false)] =
      subIdsList tag [XNode.elem "w:p"
          [("w14:paraId", (generateHexId st.rng).fst), ("w14:textId", "77777777")]
          (paragraphPPr p ++
            (paragraphContent p
              { st with rng := (generateHexId st.rng).snd }).fst)] := by
    intro tag hp hw hsp
    obtain ⟨A, B, e1, e2⟩ := attach_subTagged_split tag hp hw _ _
      (sectPrNode layout refs sect false)
    rcases e2 with e2 | e2
    · simp only [subIdsList]
      rw [e1, e2]
    · simp only [subIdsList]
      rw [e1, e2, hsp]
      simp
  refine ⟨?_, h2, ?_, h6, ?_, ?_⟩
  · exact h1.congr (hideq "w:ins" (by decide) (by decide) q1)
      (hideq "w:del" (by decide) (by decide) q2)
  · rw [hideq "w:commentRangeStart" (by decide) (by decide) q3,
      hideq "w:commentRangeEnd" (by decide) (by decide) q4]
    exact h5
  · intro x hx
    obtain ⟨A, B, e1, e2⟩ := attach_subRids_split _ _
      (sectPrNode layout refs sect false)
    have hnil : subRidsList [XNode.elem "w:p"
        [("w14:paraId", (generateHexId st.rng).fst), ("w14:textId", "77777777")]
        (paragraphPPr p ++
          (paragraphContent p
            { st with rng := (generateHexId st.rng).snd }).fst)] = [] :=
      subRidsList_eq_nil_of_ridFree _ h4
    rw [hnil] at e1
    obtain ⟨hA, hB⟩ := List.append_eq_nil.mp e1.symm
    rcases e2 with e2 | e2
    · rw [e2, hA, hB] at hx
      simp at hx
    · rw [e2, hA, hB] at hx
      simp only [List.nil_append, List.append_nil] at hx
      exact q6 x hx
  · intro sp hsp
    obtain ⟨A, B, e1, e2⟩ := attach_subTagged_split "w:sectPr" (by decide)
      (by decide) _ _ (sectPrNode layout refs sect false)
    have hnil : subTaggedList "w:sectPr" [XNode.elem "w:p"
        [("w14:paraId", (generateHexId st.rng).fst), ("w14:textId", "77777777")]
        (paragraphPPr p ++
          (paragraphContent p
            { st with rng := (generateHexId st.rng).snd }).fst)] = [] :=
      subTaggedList_eq_nil_of_avoid ["w:sectPr"] "w:sectPr" (by decide) _ h3
    rw [hnil] at e1
    obtain ⟨hA, hB⟩ := List.append_eq_nil.mp e1.symm
    rcases e2 with e2 | e2
    · rw [e2, hA, hB] at hsp
      simp at hsp
    · rw [e2, hA, hB] at hsp
      simp only [List.nil_append, List.append_nil] at hsp
      rw [q5] at hsp
      have : sp = sectPrNode layout refs sect false := by simpa using hsp
      exact ⟨sect, false, this⟩

/-- The body paragraph walk is a body output. -/
theorem buildBodyParas_out (boundary : List (Nat × SectionSpec))
    (layout : List SectionSpec) (refs : List HFRef) :
    ∀ (ps : List Paragraph) (i : Nat) (st : GenState),
      BodyOut layout refs st (buildBodyParas boundary layout refs i ps st).snd
        (buildBodyParas boundary layout refs i ps st).fst
  | [], _, st => bodyOut_nil layout refs st
  | p :: ps, i, st => by
    have ih := buildBodyParas_out boundary layout refs ps (i + 1)
      (addParagraph p st).snd
    have hone : BodyOut layout refs st (addParagraph p st).snd
        [match boundary.lookup i with
          | some sect => attachSectPrToPara (addParagraph p st).fst
              (sectPrNode layout refs sect false)
          | none => (addParagraph p st).fst] := by
      rcases hb : boundary.lookup i with _ | sect
      · exact BodyOut_of_SynthOut layout refs (addParagraph_spec p st)
      · exact BodyOut_attached p st layout refs sect
    simp only [buildBodyParas]
    have := bodyOut_append hone ih
    simpa using this

/-- The assembled document body (paragraph walk plus the body-level
block) is a body output wrapped in `w:body`. -/
theorem createDocument_body_out (spec : DocumentSpec) (layout : List SectionSpec)
    (refs : List HFRef) (st : GenState) :
    BodyOut layout refs st (createDocument spec layout refs st).snd
      [XNode.elem "w:body" []
        ((buildBodyParas (boundaryMap layout spec.paragraphs.length) layout refs 0
            spec.paragraphs st).fst ++
         [sectPrNode layout refs
           (layout.getD (layout.length - 1) { start_paragraph := 0 }) true])] := by
  obtain ⟨q1, q2, q3, q4, q5, q6⟩ := sectPrNode_facts layout refs
    (layout.getD (layout.length - 1) { start_paragraph := 0 }) true
  have hwalk := buildBodyParas_out (boundaryMap layout spec.paragraphs.length)
    layout refs spec.paragraphs 0 st
  have hsect : BodyOut layout refs
      (buildBodyParas (boundaryMap layout spec.paragraphs.length) layout refs 0
        spec.paragraphs st).snd
      (buildBodyParas (boundaryMap layout spec.paragraphs.length) layout refs 0
        spec.paragraphs st).snd
      [sectPrNode layout refs
        (layout.getD (layout.length - 1) { start_paragraph := 0 }) true] := by
    refine ⟨revIds_of_nil _ ?_ ?_, Nat.le_refl _, ?_, MetaExt.refl _, ?_, ?_⟩
    · simp only [subIdsList, subTaggedList, List.append_nil, q1,
        List.filterMap_nil]
    · simp only [subIdsList, subTaggedList, List.append_nil, q2,
        List.filterMap_nil]
    · rw [show subIdsList "w:commentRangeStart" [sectPrNode layout refs
          (layout.getD (layout.length - 1) { start_paragraph := 0 }) true] = []
        from by simp only [subIdsList, subTaggedList, List.append_nil, q3, List.filterMap_nil]]
      rw [show subIdsList "w:commentRangeEnd" [sectPrNode layout refs
          (layout.getD (layout.length - 1) { start_paragraph := 0 }) true] = []
        from by simp only [subIdsList, subTaggedList, List.append_nil, q4, List.filterMap_nil]]
    · intro x hx
      simp only [subRidsList] at hx
      rw [List.append_nil] at hx
      exact q6 x hx
    · intro sp hsp
      simp only [subTaggedList] at hsp
      rw [List.append_nil, q5] at hsp
      have : sp = sectPrNode layout refs
          (layout.getD (layout.length - 1) { start_paragraph := 0 }) true := by
        simpa using hsp
      exact ⟨_, true, this⟩
  have hfull := bodyOut_append hwalk hsect
  obtain ⟨h1, h2, h3, h4, h5, h6⟩ := hfull
  have hsnd : (createDocument spec layout refs st).snd =
      (buildBodyParas (boundaryMap layout spec.paragraphs.length) layout refs 0
        spec.paragraphs st).snd := rfl
  rw [hsnd]
  have hwrapIds : ∀ tag : String, ("w:body" == tag) = false →
      subIdsList tag [XNode.elem "w:body" []
        ((buildBodyParas (boundaryMap layout spec.paragraphs.length) layout refs 0
            spec.paragraphs st).fst ++
         [sectPrNode layout refs
           (layout.getD (layout.length - 1) { start_paragraph := 0 }) true])] =
      subIdsList tag
        ((buildBodyParas (boundaryMap layout spec.paragraphs.length) layout refs 0
            spec.paragraphs st).fst ++
         [sectPrNode layout refs
           (layout.getD (layout.length - 1) { start_paragraph := 0 }) true]) := by
    intro tag h
    simp [subIdsList, subTaggedList, subTagged, h]
  refine ⟨?_, h2, ?_, h4, ?_, ?_⟩
  · exact h1.congr (hwrapIds "w:ins" (by decide)) (hwrapIds "w:del" (by decide))
  · rw [hwrapIds "w:commentRangeStart" (by decide),
      hwrapIds "w:commentRangeEnd" (by decide)]
    exact h3
  · intro x hx
    simp only [subRidsList, subRids] at hx
    rw [List.append_nil] at hx
    exact h5 x (by simpa using hx)
  · intro sp hsp
    simp only [subTaggedList, subTagged] at hsp
    rw [List.append_nil] at hsp
    have hsp' : sp ∈ subTaggedList "w:sectPr"
        ((buildBodyParas (boundaryMap layout spec.paragraphs.length) layout refs 0
            spec.paragraphs st).fst ++
         [sectPrNode layout refs
           (layout.getD (layout.length - 1) { start_paragraph := 0 }) true]) := by
      simpa using hsp
    exact h6 sp hsp'


/-- Every quadruple produced by the manifest scan is a header or a
footer quadruple. -/
theorem sectionQuads_kinds (layout : List SectionSpec) :
    ∀ q ∈ sectionQuads layout, q.2.1 = "header" ∨ q.2.1 = "footer" := by
  intro q hq
  simp only [sectionQuads, List.mem_flatMap, List.mem_cons, List.mem_filterMap,
    List.not_mem_nil, or_false] at hq
  obtain ⟨p, hp, kv, hkv, vt, hvt, hf⟩ := hq
  rcases h2 : vt.2 with _ | t
  · rw [h2] at hf; exact absurd hf (by simp)
  · rw [h2] at hf
    have hq' : q = (p.1, kv.1, vt.1, t) := by
      have := hf; simp at this; exact this.symm
    rw [hq']
    rcases hkv with h | h <;> rw [h]
    · exact Or.inl rfl
    · exact Or.inr rfl

/-- Shape of every manifest entry: a header or footer entry whose
target is the kind followed by a number and `.xml`, whose path prefixes
the target with `word/`, and whose relationship and content types are
the tabled ones for its kind. -/
theorem buildManifest_shape :
    ∀ (qs : List (Nat × String × String × String)) (n : Nat),
      (∀ q ∈ qs, q.2.1 = "header" ∨ q.2.1 = "footer") →
      ∀ e ∈ buildManifest qs n,
        (e.kind = "header" ∨ e.kind = "footer") ∧
        e.relationship_type = relationshipTypeFor e.kind ∧
        e.content_type = contentTypeFor e.kind ∧
        (∃ k, e.target = e.kind ++ natToStr k ++ ".xml") ∧
        e.path = "word/" ++ e.target
  | [], _, _ => by intro e he; exact absurd he (by simp [buildManifest])
  | (si, k, v, t) :: rest, n, hk => by
    intro e he
    rw [buildManifest] at he
    rcases List.mem_cons.mp he with he | he
    · subst he
      exact ⟨hk (si, k, v, t) (List.mem_cons_self _ _), rfl, rfl,
        ⟨n + 1, rfl⟩, rfl⟩
    · exact buildManifest_shape rest (n + 1)
        (fun q hq => hk q (List.mem_cons_of_mem _ hq)) e he

/-- Every relationship node of the manifest walk is `Relationship`
tagged. -/
theorem manifestRels_nodes_tag :
    ∀ (m : List ManifestEntry) (n : Nat),
      ∀ x ∈ (manifestRels m n).1, x.tagOf = "Relationship"
  | [], _ => by intro x hx; exact absurd hx (by simp [manifestRels])
  | e :: rest, n => by
    intro x hx
    rw [manifestRels] at hx
    rcases List.mem_cons.mp hx with hx | hx
    · rw [hx]; rfl
    · exact manifestRels_nodes_tag rest (n + 1) x hx

/-- The ids assigned during the manifest walk are the consecutive
`rId`-numbered ids starting at the inherited counter. -/
theorem manifestRels_ids :
    ∀ (m : List ManifestEntry) (n : Nat),
      (manifestRels m n).1.filterMap (fun r => r.attr? "Id") =
        (List.range' n m.length).map (fun k => "rId" ++ natToStr k)
  | [], _ => rfl
  | e :: rest, n => by
    rw [manifestRels]
    rw [filterMap_attr_cons]
    rw [manifestRels_ids rest (n + 1)]
    rfl

/-- The final counter of the manifest walk. -/
theorem manifestRels_counter :
    ∀ (m : List ManifestEntry) (n : Nat),
      (manifestRels m n).2.2 = n + m.length
  | [], n => by simp [manifestRels]
  | e :: rest, n => by
    rw [manifestRels]
    show (manifestRels rest (n + 1)).2.2 = n + (rest.length + 1)
    rw [manifestRels_counter rest (n + 1)]
    omega

/-- Every reference recorded by the manifest walk pairs with a manifest
entry whose relationship node (carrying the reference's id) is
emitted. -/
theorem manifestRels_refs_spec :
    ∀ (m : List ManifestEntry) (n : Nat),
      ∀ r ∈ (manifestRels m n).2.1,
        ∃ e ∈ m, r.kind = e.kind ∧
          relNode r.rid e.relationship_type e.target ∈ (manifestRels m n).1
  | [], _ => by intro r hr; exact absurd hr (by simp [manifestRels])
  | e :: rest, n => by
    intro r hr
    rw [manifestRels] at hr ⊢
    rcases List.mem_cons.mp hr with hr | hr
    · refine ⟨e, List.mem_cons_self _ _, by rw [hr], ?_⟩
      rw [hr]
      exact List.mem_cons_self _ _
    · obtain ⟨e', he', hk, hmem⟩ := manifestRels_refs_spec rest (n + 1) r hr
      exact ⟨e', List.mem_cons_of_mem _ he', hk, List.mem_cons_of_mem _ hmem⟩

/-- The children of the relationships part, as the four emission
segments of `_create_document_rels`. -/
theorem createDocumentRels_children (hc hn : Bool) (m : List ManifestEntry) :
    ((createDocumentRels hc hn m).fst).childrenOf =
      (if hc then
        [relNode ("rId" ++ natToStr 1)
          "http://schemas.openxmlformats.org/officeDocument/2006/relationships/comments"
          "comments.xml",
         relNode ("rId" ++ natToStr 2)
          "http://schemas.microsoft.com/office/2011/relationships/commentsExtended"
          "commentsExtended.xml",
         relNode ("rId" ++ natToStr 3)
          "http://schemas.microsoft.com/office/2016/09/relationships/commentsIds"
          "commentsIds.xml"]
       else []) ++
      (if hn then
        [relNode ("rId" ++ natToStr (if hc then 4 else 1))
          "http://schemas.openxmlformats.org/officeDocument/2006/relationships/numbering"
          "numbering.xml",
         relNode ("rId" ++ natToStr ((if hc then 4 else 1) + 1))
          "http://schemas.openxmlformats.org/officeDocument/2006/relationships/styles"
          "styles.xml"]
       else []) ++
      (manifestRels m (if hn then (if hc then 4 else 1) + 2 else
        (if hc then 4 else 1))).1 ++
      [relNode ("rId" ++ natToStr ((manifestRels m
          (if hn then (if hc then 4 else 1) + 2 else (if hc then 4 else 1))).2.2))
        "http://schemas.openxmlformats.org/officeDocument/2006/relationships/settings"
        "settings.xml",
       relNode ("rId" ++ natToStr ((manifestRels m
          (if hn then (if hc then 4 else 1) + 2 else (if hc then 4 else 1))).2.2 + 1))
        "http://schemas.openxmlformats.org/officeDocument/2006/relationships/webSettings"
        "webSettings.xml",
       relNode ("rId" ++ natToStr ((manifestRels m
          (if hn then (if hc then 4 else 1) + 2 else (if hc then 4 else 1))).2.2 + 2))
        "http://schemas.openxmlformats.org/officeDocument/2006/relationships/footnotes"
        "footnotes.xml",
       relNode ("rId" ++ natToStr ((manifestRels m
          (if hn then (if hc then 4 else 1) + 2 else (if hc then 4 else 1))).2.2 + 3))
        "http://schemas.openxmlformats.org/officeDocument/2006/relationships/endnotes"
        "endnotes.xml",
       relNode ("rId" ++ natToStr ((manifestRels m
          (if hn then (if hc then 4 else 1) + 2 else (if hc then 4 else 1))).2.2 + 4))
        "http://schemas.openxmlformats.org/officeDocument/2006/relationships/fontTable"
        "fontTable.xml",
       relNode ("rId" ++ natToStr ((manifestRels m
          (if hn then (if hc then 4 else 1) + 2 else (if hc then 4 else 1))).2.2 + 5))
        "http://schemas.openxmlformats.org/officeDocument/2006/relationships/theme"
        "theme/theme1.xml"] := by
  cases hc <;> cases hn <;> rfl

/-- The document relationships part's `Relationship` children are all
its children. -/
theorem createDocumentRels_findChildren (hc hn : Bool) (m : List ManifestEntry) :
    ((createDocumentRels hc hn m).fst).findChildren "Relationship" =
      ((createDocumentRels hc hn m).fst).childrenOf := by
  apply List.filter_eq_self.mpr
  intro a ha
  rw [createDocumentRels_children] at ha
  rcases List.mem_append.mp ha with ha | ha
  · rcases List.mem_append.mp ha with ha | ha
    · rcases List.mem_append.mp ha with ha | ha
      · cases hc
        · exact absurd ha (by simp)
        · simp only [if_true, List.mem_cons, List.not_mem_nil, or_false] at ha
          rcases ha with ha | ha | ha <;> (rw [ha]; rfl)
      · cases hn
        · exact absurd ha (by simp)
        · simp only [if_true, List.mem_cons, List.not_mem_nil, or_false] at ha
          rcases ha with ha | ha <;> (rw [ha]; rfl)
    · rw [show a.tagOf = "Relationship" from manifestRels_nodes_tag m _ a ha]
      rfl
  · simp only [List.mem_cons, List.not_mem_nil, or_false] at ha
    rcases ha with ha | ha | ha | ha | ha | ha <;> (rw [ha]; rfl)

/-- Gluing adjacent ranges. -/
theorem range'_glue (s a b : Nat) :
    List.range' s a ++ List.range' (s + a) b = List.range' s (a + b) := by
  have h := List.range'_append s a b 1
  simp only [Nat.one_mul] at h
  rw [Nat.add_comm b a] at h
  exact h

/-- Gluing adjacent ranges, with the junction point named. -/
theorem range'_glue' (s a m b : Nat) (hm : m = s + a) :
    List.range' s a ++ List.range' m b = List.range' s (a + b) := by
  subst hm
  exact range'_glue s a b

/-- Injectivity of relationship-id naming. -/
theorem ridStr_inj : Function.Injective (fun k : Nat => "rId" ++ natToStr k) := by
  intro a b h
  have hd : ("rId" ++ natToStr a).data = ("rId" ++ natToStr b).data :=
    congrArg String.data h
  have hd2 : ("rId" : String).data ++ (natToStr a).data =
      ("rId" : String).data ++ (natToStr b).data := by
    simpa using hd
  exact natToStr_inj (String.ext (List.append_cancel_left hd2))

/-- The id collection of the relationships part is a consecutive
`rId` enumeration from 1. -/
theorem createDocumentRels_ids (hc hn : Bool) (m : List ManifestEntry) :
    (((createDocumentRels hc hn m).fst).childrenOf).filterMap
        (fun r => r.attr? "Id") =
      (List.range' 1 ((if hc then 3 else 0) + (if hn then 2 else 0) +
          m.length + 6)).map (fun k => "rId" ++ natToStr k) := by
  rw [createDocumentRels_children]
  rw [List.filterMap_append, List.filterMap_append, List.filterMap_append,
    manifestRels_ids, manifestRels_counter]
  cases hc <;> cases hn <;>
    simp only [Bool.false_eq_true, eq_self_iff_true, if_true, if_false,
      List.filterMap_nil, List.nil_append, List.append_nil]
  · rw [show (0:Nat) + 0 + m.length + 6 = m.length + 6 from by omega,
      ← range'_glue' 1 m.length (1 + m.length) 6 (by omega),
      List.map_append]
    rfl
  · rw [show (0:Nat) + 2 + m.length + 6 = 2 + (m.length + 6) from by omega,
      ← range'_glue' 1 2 3 (m.length + 6) (by omega),
      ← range'_glue' 3 m.length (3 + m.length) 6 (by omega),
      List.map_append, List.map_append, ← List.append_assoc]
    rfl
  · rw [show (3:Nat) + 0 + m.length + 6 = 3 + (m.length + 6) from by omega,
      ← range'_glue' 1 3 4 (m.length + 6) (by omega),
      ← range'_glue' 4 m.length (4 + m.length) 6 (by omega),
      List.map_append, List.map_append, ← List.append_assoc]
    rfl
  · rw [show (3:Nat) + 2 + m.length + 6 = 3 + (2 + (m.length + 6)) from by omega,
      ← range'_glue' 1 3 4 (2 + (m.length + 6)) (by omega),
      ← range'_glue' 4 2 6 (m.length + 6) (by omega),
      ← range'_glue' 6 m.length (6 + m.length) 6 (by omega),
      List.map_append, List.map_append, List.map_append,
      ← List.append_assoc, ← List.append_assoc]
    rfl

/-- The relationship part's ids are duplicate-free. -/
theorem createDocumentRels_ids_nodup (hc hn : Bool) (m : List ManifestEntry) :
    ((((createDocumentRels hc hn m).fst).findChildren "Relationship").filterMap
      (fun r => r.attr? "Id")).Nodup := by
  rw [createDocumentRels_findChildren, createDocumentRels_ids]
  exact (List.nodup_range' _ _).map ridStr_inj

/-- The recorded references of the relationships part are exactly the
manifest-walk references. -/
theorem createDocumentRels_snd (hc hn : Bool) (m : List ManifestEntry) :
    (createDocumentRels hc hn m).snd =
      (manifestRels m (if hn then (if hc then 4 else 1) + 2 else
        (if hc then 4 else 1))).2.1 := by
  cases hc <;> cases hn <;> rfl

/-- Each recorded header/footer reference resolves through `rel_by_id`
to its emitted relationship node. -/
theorem relById_resolves (hc hn : Bool) (m : List ManifestEntry) :
    ∀ r ∈ (createDocumentRels hc hn m).snd,
      ∃ e ∈ m, r.kind = e.kind ∧
        relById (createDocumentRels hc hn m).fst r.rid =
          some (relNode r.rid e.relationship_type e.target) := by
  intro r hr
  rw [createDocumentRels_snd] at hr
  obtain ⟨e, he, hk, hmem⟩ := manifestRels_refs_spec m _ r hr
  refine ⟨e, he, hk, ?_⟩
  apply relById_eq
  · rw [createDocumentRels_findChildren, createDocumentRels_children]
    exact List.mem_append.mpr (Or.inl (List.mem_append.mpr (Or.inr hmem)))
  · rfl
  · exact createDocumentRels_ids_nodup hc hn m

/-- Each recorded reference id is among the defined relationship ids. -/
theorem refs_rid_defined (hc hn : Bool) (m : List ManifestEntry) :
    ∀ r ∈ (createDocumentRels hc hn m).snd,
      r.rid ∈ ((((createDocumentRels hc hn m).fst).findChildren
        "Relationship").filterMap (fun x => x.attr? "Id")) := by
  intro r hr
  rw [createDocumentRels_snd] at hr
  obtain ⟨e, _, _, hmem⟩ := manifestRels_refs_spec m _ r hr
  rw [createDocumentRels_findChildren, createDocumentRels_children]
  refine List.mem_filterMap.mpr ⟨relNode r.rid e.relationship_type e.target, ?_, rfl⟩
  exact List.mem_append.mpr (Or.inl (List.mem_append.mpr (Or.inr hmem)))


/-- The name list of a generated container: the twelve fixed parts, the
section parts, and the optional comment and numbering groups. -/
theorem partNames_generate (spec : DocumentSpec) (now : String) (g : Nat) :
    partNames (generate spec now g).fst =
      ["[Content_Types].xml", "_rels/.rels", "word/_rels/document.xml.rels",
       "word/document.xml", "word/settings.xml", "word/webSettings.xml",
       "word/footnotes.xml", "word/endnotes.xml", "word/fontTable.xml",
       "word/theme/theme1.xml", "docProps/core.xml", "docProps/app.xml"] ++
      (buildSectionPartManifest (normalizeSections spec.sections
        spec.paragraphs.length)).map (fun p => p.path) ++
      (if spec.paragraphs.any (fun p => !p.comments.isEmpty) then
        ["word/comments.xml", "word/commentsExtended.xml", "word/commentsIds.xml"]
       else []) ++
      (if (spec.paragraphs.any (fun p => p.numbering.isSome) ||
           spec.paragraphs.any (fun p => pyTruthyOptNat p.heading_level)) then
        ["word/numbering.xml", "word/styles.xml"]
       else []) := by
  cases hcm : spec.paragraphs.any (fun p => !p.comments.isEmpty) <;>
    cases hnm : (spec.paragraphs.any (fun p => p.numbering.isSome) ||
      spec.paragraphs.any (fun p => pyTruthyOptNat p.heading_level)) <;>
    simp [generate, partNames, hcm, hnm, List.map_append, List.map_map]

/-- A section part's path never collides with a `word/`-prefixed name
that starts with neither `h` nor `f`. -/
theorem sectionPart_path_ne (e : ManifestEntry)
    (hk : e.kind = "header" ∨ e.kind = "footer")
    (ht : ∃ k, e.target = e.kind ++ natToStr k ++ ".xml")
    (hp : e.path = "word/" ++ e.target) (s : String)
    (hs : s.data.head? ≠ some 'h' ∧ s.data.head? ≠ some 'f') :
    (e.path == "word/" ++ s) = false := by
  apply beq_eq_false_iff_ne.mpr
  intro heq
  rw [hp] at heq
  have hts : e.target = s := by
    have hd := congrArg String.data heq
    simp only [String.data_append] at hd
    exact String.ext (List.append_cancel_left hd)
  obtain ⟨k, hek⟩ := ht
  rw [hts] at hek
  rcases hk with hk | hk <;> rw [hk] at hek
  · exact hs.1 (by rw [hek]; rfl)
  · exact hs.2 (by rw [hek]; rfl)

/-- The ids of the comments part are the stored metadata ids. -/
theorem createComments_ids : ∀ (md : List CommentMetadata),
    (((createComments md).findChildren "w:comment").filterMap
      (fun c => c.attr? "w:id")) = md.map (fun m => m.id) := by
  have key : ∀ md : List CommentMetadata,
      ((md.map (fun m =>
        XNode.elem "w:comment"
          [("w:id", m.id), ("w:author", m.author), ("w:initials", initialsOf m.author)]
          [.elem "w:p" [("w14:paraId", m.para_id), ("w14:textId", "77777777")]
            [.elem "w:pPr" [] [.elem "w:pStyle" [("w:val", "CommentText")] []],
             .elem "w:r" []
               [.elem "w:rPr" [] [.elem "w:rStyle" [("w:val", "CommentReference")] []],
                .elem "w:annotationRef" [] []],
             .elem "w:r" [] [.elem "w:t" [] [.text m.text]]]])).filter
        (fun c => c.tagOf == "w:comment")).filterMap
        (fun c => c.attr? "w:id") = md.map (fun m => m.id) := by
    intro md
    induction md with
    | nil => rfl
    | cons m rest ih =>
      rw [List.map_cons, List.filter_cons_of_pos rfl,
        filterMap_attr_cons, List.map_cons, ih]
      rfl
  intro md
  exact key md

/-- Lists without duplicates pass the duplicate filter. -/
theorem dup_filter_nil {l : List String} (h : l.Nodup) :
    l.filter (fun x => l.count x > 1) = [] := by
  rw [List.filter_eq_nil]
  intro x hx
  have hc := List.nodup_iff_count_le_one.mp h x
  simp only [gt_iff_lt, decide_eq_true_eq]
  omega

/-- The tag filter over the descendants of an element computes the
tagged-subtree collection of its children. -/
theorem descendants_filter_tag (t : String) (a : List (String × String))
    (cs : List XNode) (tag : String) (htag : tag ≠ "") :
    ((XNode.elem t a cs).descendants).filter (fun n => n.tagOf == tag) =
      subTaggedList tag cs := by
  show (descendantsList cs).filter (fun n => n.tagOf == tag) = subTaggedList tag cs
  exact subTaggedList_eq_filter tag htag cs

/-- The self-and-descendants `r:id` collection of an element whose own
attributes carry no `r:id` computes the children's collection. -/
theorem self_descendants_rids (t : String) (a : List (String × String))
    (cs : List XNode) (h : List.lookup "r:id" a = none) :
    ((XNode.elem t a cs) :: (XNode.elem t a cs).descendants).filterMap
      (fun e => e.attr? "r:id") = subRidsList cs := by
  rw [subRids_eq_filterMap]
  show (List.lookup "r:id" a).toList ++ subRidsList cs = subRidsList cs
  rw [h]
  rfl


/-- Generated containers carry the three required files. -/
theorem validateZipStructure_generate (spec : DocumentSpec) (now : String)
    (g : Nat) : validateZipStructure (generate spec now g).fst = none := by
  unfold validateZipStructure
  rw [partNames_generate]
  rfl

/-- Every part of a generated container parses, provided the raw
core-properties interpolations are markup-free. -/
theorem generate_parts_parse (spec : DocumentSpec) (now : String) (g : Nat)
    (ht : xmlCleanStr spec.title = true) (ha : xmlCleanStr spec.author = true)
    (hnow : xmlCleanStr now = true) :
    ∀ p ∈ (generate spec now g).fst, partParses p.content = true := by
  intro p hp
  simp only [generate] at hp
  rcases List.mem_append.mp hp with h1 | h1
  · rcases List.mem_append.mp h1 with h2 | h2
    · rcases List.mem_append.mp h2 with h3 | h3
      · simp only [List.mem_cons, List.not_mem_nil, or_false] at h3
        rcases h3 with h|h|h|h|h|h|h|h|h|h|h|h <;> rw [h] <;>
          first
          | rfl
          | (show partParses (.rawCore spec.title spec.author now) = true
             simp [partParses, ht, ha, hnow])
      · obtain ⟨e, _, he⟩ := List.mem_map.mp h3
        rw [← he]
        rfl
    · cases hcm : spec.paragraphs.any (fun q => !q.comments.isEmpty) <;>
        rw [hcm] at h2
      · exact absurd h2 (by simp)
      · simp only [Bool.false_eq_true, eq_self_iff_true, if_true, if_false,
          List.mem_cons, List.not_mem_nil, or_false] at h2
        rcases h2 with h|h|h <;> rw [h] <;> rfl
  · cases hnm : (spec.paragraphs.any (fun q => q.numbering.isSome) ||
        spec.paragraphs.any (fun q => pyTruthyOptNat q.heading_level)) <;>
      rw [hnm] at h1
    · exact absurd h1 (by simp)
    · simp only [Bool.false_eq_true, eq_self_iff_true, if_true, if_false,
        List.mem_cons, List.not_mem_nil, or_false] at h1
      rcases h1 with h|h <;> rw [h] <;> rfl

/-- Generated parts are all well-formed XML, provided the raw
core-properties interpolations are markup-free. -/
theorem validateXmlWellformedness_generate (spec : DocumentSpec) (now : String)
    (g : Nat) (ht : xmlCleanStr spec.title = true)
    (ha : xmlCleanStr spec.author = true) (hnow : xmlCleanStr now = true) :
    validateXmlWellformedness (generate spec now g).fst = none := by
  unfold validateXmlWellformedness
  have hfind : (((generate spec now g).fst).filter
      (fun p => strEndsWith p.name ".xml" || strEndsWith p.name ".rels")).find?
      (fun p => !partParses p.content) = none := by
    rw [List.find?_eq_none]
    intro x hx
    have hparse := generate_parts_parse spec now g ht ha hnow x
      (List.mem_of_mem_filter hx)
    simp [hparse]
  rw [hfind]
  rfl

/-- The body node list wrapped by `_create_document`. -/
def docBodyList (spec : DocumentSpec) (layout : List SectionSpec)
    (refs : List HFRef) (st : GenState) : List XNode :=
  [XNode.elem "w:body" []
    ((buildBodyParas (boundaryMap layout spec.paragraphs.length) layout refs 0
        spec.paragraphs st).fst ++
     [sectPrNode layout refs
       (layout.getD (layout.length - 1) { start_paragraph := 0 }) true])]

/-- The document body walk satisfies the body contract. -/
theorem createDocument_out (spec : DocumentSpec) (layout : List SectionSpec)
    (refs : List HFRef) (st : GenState) :
    BodyOut layout refs st (createDocument spec layout refs st).snd
      (docBodyList spec layout refs st) :=
  createDocument_body_out spec layout refs st

/-- The validator's per-tag id collection over the document element
computes the body's tagged-subtree id collection. -/
theorem doc_tag_ids (spec : DocumentSpec) (layout : List SectionSpec)
    (refs : List HFRef) (st : GenState) (tag : String) (htag : tag ≠ "") :
    (((createDocument spec layout refs st).fst).descendants.filter
        (fun n => n.tagOf == tag)).filterMap (fun e => e.attr? "w:id") =
      subIdsList tag (docBodyList spec layout refs st) := by
  rw [createDocument_fst, descendants_filter_tag _ _ _ tag htag]
  rfl

/-- The validator's section-properties collection over the document
element computes the body's tagged-subtree collection. -/
theorem sectPrsOf_createDocument (spec : DocumentSpec) (layout : List SectionSpec)
    (refs : List HFRef) (st : GenState) :
    sectPrsOf (createDocument spec layout refs st).fst =
      subTaggedList "w:sectPr" (docBodyList spec layout refs st) := by
  unfold sectPrsOf
  rw [createDocument_fst]
  exact descendants_filter_tag _ _ _ "w:sectPr" (by decide)

/-- The validator's referenced-relationship collection over the
document element computes the body's `r:id` collection. -/
theorem doc_rids (spec : DocumentSpec) (layout : List SectionSpec)
    (refs : List HFRef) (st : GenState) :
    (((createDocument spec layout refs st).fst) ::
        ((createDocument spec layout refs st).fst).descendants).filterMap
      (fun e => e.attr? "r:id") = subRidsList (docBodyList spec layout refs st) := by
  rw [createDocument_fst]
  exact self_descendants_rids _ _ _ rfl

/-- Tracked-change ids of a generated document are duplicate-free. -/
theorem validateTrackedChangeIdUniqueness_generate (spec : DocumentSpec)
    (now : String) (g : Nat) :
    validateTrackedChangeIdUniqueness (generate spec now g).fst = none := by
  unfold validateTrackedChangeIdUniqueness
  rw [generate_document_part]
  dsimp only
  have hins := doc_tag_ids spec
    (normalizeSections spec.sections spec.paragraphs.length)
    (createDocumentRels (spec.paragraphs.any (fun p => !p.comments.isEmpty))
      (spec.paragraphs.any (fun p => p.numbering.isSome) ||
       spec.paragraphs.any (fun p => pyTruthyOptNat p.heading_level))
      (buildSectionPartManifest
        (normalizeSections spec.sections spec.paragraphs.length))).snd
    { rng := initGeneratorRandomState spec g } "w:ins" (by decide)
  have hdel := doc_tag_ids spec
    (normalizeSections spec.sections spec.paragraphs.length)
    (createDocumentRels (spec.paragraphs.any (fun p => !p.comments.isEmpty))
      (spec.paragraphs.any (fun p => p.numbering.isSome) ||
       spec.paragraphs.any (fun p => pyTruthyOptNat p.heading_level))
      (buildSectionPartManifest
        (normalizeSections spec.sections spec.paragraphs.length))).snd
    { rng := initGeneratorRandomState spec g } "w:del" (by decide)
  obtain ⟨hrev, _, _, _, _, _⟩ := createDocument_out spec
    (normalizeSections spec.sections spec.paragraphs.length)
    (createDocumentRels (spec.paragraphs.any (fun p => !p.comments.isEmpty))
      (spec.paragraphs.any (fun p => p.numbering.isSome) ||
       spec.paragraphs.any (fun p => pyTruthyOptNat p.heading_level))
      (buildSectionPartManifest
        (normalizeSections spec.sections spec.paragraphs.length))).snd
    { rng := initGeneratorRandomState spec g }
  obtain ⟨a, b, hia, hib, hnd, _⟩ := hrev
  simp only [List.flatMap_cons, List.flatMap_nil, List.append_nil]
  rw [show ("w:" ++ "ins" : String) = "w:ins" from rfl,
    show ("w:" ++ "del" : String) = "w:del" from rfl, hins, hdel, hia, hib,
    ← List.map_append]
  rw [dup_filter_nil (hnd.map natToStr_inj)]
  simp

/-- Permutation-equal id lists pass the set-equality test. -/
theorem setEqv_of_perm {a b : List String} (h : a.Perm b) : setEqv a b = true := by
  unfold setEqv
  rw [Bool.and_eq_true]
  constructor <;> rw [List.all_eq_true] <;> intro x hx
  · exact List.elem_eq_true_of_mem (h.mem_iff.mp hx)
  · exact List.elem_eq_true_of_mem (h.mem_iff.mpr hx)

/-- Comment range starts and ends of a generated document anchor the
same id set. -/
theorem validateCommentAnchorIntegrity_generate (spec : DocumentSpec)
    (now : String) (g : Nat) :
    validateCommentAnchorIntegrity (generate spec now g).fst = none := by
  unfold validateCommentAnchorIntegrity
  rw [generate_document_part]
  dsimp only
  rw [if_neg]
  intro hcond
  obtain ⟨hrev, _, hperm, _, _, _⟩ := createDocument_out spec
    (normalizeSections spec.sections spec.paragraphs.length)
    (createDocumentRels (spec.paragraphs.any (fun p => !p.comments.isEmpty))
      (spec.paragraphs.any (fun p => p.numbering.isSome) ||
       spec.paragraphs.any (fun p => pyTruthyOptNat p.heading_level))
      (buildSectionPartManifest
        (normalizeSections spec.sections spec.paragraphs.length))).snd
    { rng := initGeneratorRandomState spec g }
  apply hcond.2
  unfold startRangeIds endRangeIds
  rw [doc_tag_ids _ _ _ _ "w:commentRangeStart" (by decide),
    doc_tag_ids _ _ _ _ "w:commentRangeEnd" (by decide)]
  exact setEqv_of_perm hperm

/-- The `word/_rels/document.xml.rels` part of a generated container is
the tree built by `_create_document_rels`. -/
theorem generate_rels_part (spec : DocumentSpec) (now : String) (g : Nat) :
    partsByName (generate spec now g).fst "word/_rels/document.xml.rels" =
      some (.tree (createDocumentRels
        (spec.paragraphs.any (fun p => !p.comments.isEmpty))
        (spec.paragraphs.any (fun p => p.numbering.isSome) ||
         spec.paragraphs.any (fun p => pyTruthyOptNat p.heading_level))
        (buildSectionPartManifest
          (normalizeSections spec.sections spec.paragraphs.length))).fst) := rfl

/-- Every relationship referenced from a generated document is
defined. -/
theorem validateRelationshipCompleteness_generate (spec : DocumentSpec)
    (now : String) (g : Nat) :
    validateRelationshipCompleteness (generate spec now g).fst = none := by
  unfold validateRelationshipCompleteness
  rw [generate_rels_part, generate_document_part]
  dsimp only [treeOf]
  rw [if_pos]
  rw [doc_rids, List.all_eq_true]
  intro x hx
  obtain ⟨_, _, _, _, hrids, _⟩ := createDocument_out spec
    (normalizeSections spec.sections spec.paragraphs.length)
    (createDocumentRels (spec.paragraphs.any (fun p => !p.comments.isEmpty))
      (spec.paragraphs.any (fun p => p.numbering.isSome) ||
       spec.paragraphs.any (fun p => pyTruthyOptNat p.heading_level))
      (buildSectionPartManifest
        (normalizeSections spec.sections spec.paragraphs.length))).snd
    { rng := initGeneratorRandomState spec g }
  obtain ⟨r, hr, hxr⟩ := hrids x hx
  have hdef := refs_rid_defined
    (spec.paragraphs.any (fun p => !p.comments.isEmpty))
    (spec.paragraphs.any (fun p => p.numbering.isSome) ||
     spec.paragraphs.any (fun p => pyTruthyOptNat p.heading_level))
    (buildSectionPartManifest
      (normalizeSections spec.sections spec.paragraphs.length)) r hr
  rw [hxr]
  exact List.elem_eq_true_of_mem hdef

/-- Shape facts for the section part manifest. -/
theorem buildSectionPartManifest_shape (layout : List SectionSpec) :
    ∀ e ∈ buildSectionPartManifest layout,
      (e.kind = "header" ∨ e.kind = "footer") ∧
      e.relationship_type = relationshipTypeFor e.kind ∧
      e.content_type = contentTypeFor e.kind ∧
      (∃ k, e.target = e.kind ++ natToStr k ++ ".xml") ∧
      e.path = "word/" ++ e.target :=
  buildManifest_shape (sectionQuads layout) 0 (sectionQuads_kinds layout)

/-- No section part of the container matches a `word/`-prefixed name
that starts with neither `h` nor `f`. -/
theorem find?_section_parts_none (layout : List SectionSpec) (s : String)
    (hs : s.data.head? ≠ some 'h' ∧ s.data.head? ≠ some 'f') :
    ((buildSectionPartManifest layout).map (fun p =>
      (⟨p.path, .tree (createHeaderFooterPart p.kind p.text)⟩ : GeneratedPart))).find?
      (fun p => p.name == "word/" ++ s) = none := by
  rw [List.find?_eq_none]
  intro x hx hcontra
  obtain ⟨e, he, hxe⟩ := List.mem_map.mp hx
  obtain ⟨hk, _, _, ht, hp⟩ := buildSectionPartManifest_shape layout e he
  rw [← hxe] at hcontra
  rw [show ((⟨e.path, PartContent.tree (createHeaderFooterPart e.kind e.text)⟩ :
      GeneratedPart)).name = e.path from rfl] at hcontra
  rw [sectionPart_path_ne e hk ht hp s hs] at hcontra
  exact Bool.noConfusion hcontra

/-- The comments part of a generated container, when comments exist. -/
theorem generate_comments_part (spec : DocumentSpec) (now : String) (g : Nat)
    (hcm : spec.paragraphs.any (fun p => !p.comments.isEmpty) = true) :
    partsByName (generate spec now g).fst "word/comments.xml" =
      some (.tree (createComments
        ((createDocument spec (normalizeSections spec.sections spec.paragraphs.length)
          (createDocumentRels true
            (spec.paragraphs.any (fun p => p.numbering.isSome) ||
             spec.paragraphs.any (fun p => pyTruthyOptNat p.heading_level))
            (buildSectionPartManifest
              (normalizeSections spec.sections spec.paragraphs.length))).snd
          { rng := initGeneratorRandomState spec g }).snd.comment_metadata))) := by
  unfold partsByName
  simp only [generate, hcm, eq_self_iff_true, if_true]
  rw [List.find?_append, List.find?_append, List.find?_append]
  rw [show ("word/comments.xml" : String) = "word/" ++ "comments.xml" from rfl]
  rw [find?_section_parts_none _ "comments.xml" ⟨by decide, by decide⟩]
  rfl

/-- No comments part is written when no paragraph carries comments. -/
theorem generate_comments_none (spec : DocumentSpec) (now : String) (g : Nat)
    (hcm : spec.paragraphs.any (fun p => !p.comments.isEmpty) = false) :
    partsByName (generate spec now g).fst "word/comments.xml" = none := by
  unfold partsByName
  simp only [generate, hcm, Bool.false_eq_true, if_false]
  rw [List.find?_append, List.find?_append, List.find?_append]
  rw [show ("word/comments.xml" : String) = "word/" ++ "comments.xml" from rfl]
  rw [find?_section_parts_none _ "comments.xml" ⟨by decide, by decide⟩]
  cases hnm : (spec.paragraphs.any (fun p => p.numbering.isSome) ||
      spec.paragraphs.any (fun p => pyTruthyOptNat p.heading_level)) <;> rfl

/-- Comment ids of a generated container are duplicate-free. -/
theorem validateCommentIdUniqueness_generate (spec : DocumentSpec) (now : String)
    (g : Nat) : validateCommentIdUniqueness (generate spec now g).fst = none := by
  unfold validateCommentIdUniqueness
  cases hcm : spec.paragraphs.any (fun p => !p.comments.isEmpty)
  · rw [generate_comments_none spec now g hcm]
  · rw [generate_comments_part spec now g hcm]
    dsimp only [treeOf]
    obtain ⟨_, _, _, hmeta, _, _⟩ := createDocument_out spec
      (normalizeSections spec.sections spec.paragraphs.length)
      (createDocumentRels true
        (spec.paragraphs.any (fun p => p.numbering.isSome) ||
         spec.paragraphs.any (fun p => pyTruthyOptNat p.heading_level))
        (buildSectionPartManifest
          (normalizeSections spec.sections spec.paragraphs.length))).snd
      { rng := initGeneratorRandomState spec g }
    obtain ⟨_, Δ, ns, hmd, hids, hnd, _⟩ := hmeta
    rw [createComments_ids, hmd]
    rw [show ({ rng := initGeneratorRandomState spec g } :
      GenState).comment_metadata = [] from rfl, List.nil_append, hids]
    rw [dup_filter_nil (hnd.map natToStr_inj)]
    simp

/-- The extension of a name ending in `.xml`. -/
theorem extOf_append_xml (s : String) : extOf (s ++ ".xml") = "xml" := by
  unfold extOf
  have hd : (s ++ ".xml").data = s.data ++ ['.', 'x', 'm', 'l'] := by
    rw [String.data_append]
  rw [hd, List.reverse_append]
  rw [show ((['.', 'x', 'm', 'l'] : List Char).reverse ++ s.data.reverse) =
    'l' :: 'm' :: 'x' :: '.' :: s.data.reverse from rfl]
  rw [List.takeWhile_cons_of_pos (by decide),
    List.takeWhile_cons_of_pos (by decide),
    List.takeWhile_cons_of_pos (by decide),
    List.takeWhile_cons_of_neg (by decide)]
  rfl

/-- The default-extension list of the content-types part. -/
theorem createContentTypes_defaults (hc hn : Bool) (m : List ManifestEntry) :
    ((createContentTypes hc hn m).findChildren "Default").filterMap
      (fun d => d.attr? "Extension") = ["rels", "xml"] := by
  have hmap : (m.map (fun p =>
      overrideNode ("/word/" ++ afterFirstSlash p.path) p.content_type)).filter
      (fun c => c.tagOf == "Default") = [] := by
    rw [List.filter_eq_nil]
    intro a ha hcontra
    obtain ⟨e, _, hae⟩ := List.mem_map.mp ha
    rw [← hae] at hcontra
    simp [overrideNode, XNode.tagOf] at hcontra
  unfold createContentTypes XNode.findChildren
  dsimp only [XNode.childrenOf]
  rw [List.filter_append, List.filter_append, List.filter_append,
    List.filter_append, hmap]
  cases hc <;> cases hn <;> rfl

/-- Every name of a generated container has a covered extension. -/
theorem generate_names_ext (spec : DocumentSpec) (now : String) (g : Nat) :
    ∀ name ∈ partNames (generate spec now g).fst,
      (["rels", "xml"] : List String).contains (extOf name) = true := by
  intro name hname
  rw [partNames_generate] at hname
  rcases List.mem_append.mp hname with h1 | h1
  · rcases List.mem_append.mp h1 with h2 | h2
    · rcases List.mem_append.mp h2 with h3 | h3
      · simp only [List.mem_cons, List.not_mem_nil, or_false] at h3
        rcases h3 with h|h|h|h|h|h|h|h|h|h|h|h <;> rw [h] <;> decide
      · obtain ⟨e, he, hne⟩ := List.mem_map.mp h3
        obtain ⟨_, _, _, ⟨k, ht⟩, hp⟩ := buildSectionPartManifest_shape _ e he
        rw [← hne, hp, ht, ← String.append_assoc]
        rw [extOf_append_xml]
        decide
    · cases hcc : spec.paragraphs.any (fun p => !p.comments.isEmpty) <;>
        rw [hcc] at h2
      · exact absurd h2 (by simp)
      · simp only [eq_self_iff_true, if_true, List.mem_cons, List.not_mem_nil,
          or_false] at h2
        rcases h2 with h|h|h <;> rw [h] <;> decide
  · cases hnn : (spec.paragraphs.any (fun p => p.numbering.isSome) ||
        spec.paragraphs.any (fun p => pyTruthyOptNat p.heading_level)) <;>
      rw [hnn] at h1
    · exact absurd h1 (by simp)
    · simp only [eq_self_iff_true, if_true, List.mem_cons, List.not_mem_nil,
        or_false] at h1
      rcases h1 with h|h <;> rw [h] <;> decide

/-- Every part of a generated container has a covered content type. -/
theorem validateContentTypeCoverage_generate (spec : DocumentSpec) (now : String)
    (g : Nat) : validateContentTypeCoverage (generate spec now g).fst = none := by
  unfold validateContentTypeCoverage
  rw [show (partsByName (generate spec now g).fst "[Content_Types].xml").bind treeOf
      = some (createContentTypes (spec.paragraphs.any (fun p => !p.comments.isEmpty))
          (spec.paragraphs.any (fun p => p.numbering.isSome) ||
           spec.paragraphs.any (fun p => pyTruthyOptNat p.heading_level))
          (buildSectionPartManifest
            (normalizeSections spec.sections spec.paragraphs.length))) from rfl]
  dsimp only
  apply firstSomeP_eq_none
  intro name hname
  rw [createContentTypes_defaults]
  rw [if_pos]
  exact generate_names_ext spec now g name hname

/-- Names prefixed by a header/footer kind survive `lstrip("./")`. -/
theorem lstripDotSlash_kind (kind rest : String)
    (hk : kind = "header" ∨ kind = "footer") :
    lstripDotSlash (kind ++ rest) = kind ++ rest := by
  unfold lstripDotSlash
  rcases hk with h | h <;> subst h
  · rw [show (("header" ++ rest : String)).data =
      'h' :: (['e', 'a', 'd', 'e', 'r'] ++ rest.data) from rfl,
      List.dropWhile_cons_of_neg (by decide)]
    rfl
  · rw [show (("footer" ++ rest : String)).data =
      'f' :: (['o', 'o', 't', 'e', 'r'] ++ rest.data) from rfl,
      List.dropWhile_cons_of_neg (by decide)]
    rfl

/-- Names prefixed by a header/footer kind are nonempty. -/
theorem kind_append_ne_empty (kind rest : String)
    (hk : kind = "header" ∨ kind = "footer") : kind ++ rest ≠ "" := by
  rcases hk with h | h <;> subst h <;> intro hcontra
  · exact List.noConfusion
      (show ('h' :: (['e', 'a', 'd', 'e', 'r'] ++ rest.data) : List Char) = [] from
        congrArg String.data hcontra)
  · exact List.noConfusion
      (show ('f' :: (['o', 'o', 't', 'e', 'r'] ++ rest.data) : List Char) = [] from
        congrArg String.data hcontra)

/-- Shape of the header/footer reference children of a
section-properties block. -/
theorem sectPrNode_findChildren_shape (layout : List SectionSpec)
    (refs : List HFRef) (sect : SectionSpec) (b : Bool) (tg kind : String)
    (htk : tg = "w:headerReference" ∧ kind = "header" ∨
           tg = "w:footerReference" ∧ kind = "footer") :
    ∀ c ∈ (sectPrNode layout refs sect b).findChildren tg,
      ∃ vv rid, (∃ r ∈ refs, rid = r.rid ∧ r.kind = kind) ∧ rid ≠ "" ∧
        c = XNode.elem tg [("w:type", vv), ("r:id", rid)] [] := by
  intro c hc
  obtain ⟨hcm, htag⟩ := List.mem_filter.mp hc
  have htg : c.tagOf = tg := eq_of_beq htag
  have hbad : ∀ t' : String, c.tagOf = t' → (t' == tg) = false → False := by
    intro t' ht' hne
    rw [htg] at ht'
    subst ht'
    simp at hne
  have hch : (sectPrNode layout refs sect b).childrenOf =
      (if b then ([] : List XNode)
       else [XNode.elem "w:type" [("w:val", sect.break_type)] []]) ++
      sectPrRefNodes refs (layout.findIdx (fun s => s == sect)) ++
      (if hasFirstRef refs (layout.findIdx (fun s => s == sect)) then
        [XNode.elem "w:titlePg" [] []] else []) ++
      pgNumTypeNodes sect ++
      [pgSzNode sect, pgMarNode, colsNode, docGridNode] := by
    cases b <;> rfl
  rw [hch] at hcm
  rcases List.mem_append.mp hcm with h1 | h1
  · rcases List.mem_append.mp h1 with h2 | h2
    · rcases List.mem_append.mp h2 with h3 | h3
      · rcases List.mem_append.mp h3 with h4 | h4
        · cases b
          · have hctype : c = XNode.elem "w:type" [("w:val", sect.break_type)] [] := by
              simpa using h4
            exact (hbad "w:type" (by rw [hctype]; rfl)
              (by rcases htk with ⟨h, _⟩ | ⟨h, _⟩ <;> subst h <;> decide)).elim
          · simp at h4
        · obtain ⟨tg', vv, rid, hdisj, hne, hce⟩ := sectPrRefNodes_shape refs _ c h4
          have htg' : tg' = tg := by
            rw [hce] at htg
            exact htg
          rcases hdisj with ⟨hh, r, hr, hrid, hkind⟩ | ⟨hh, r, hr, hrid, hkind⟩ <;>
            rcases htk with ⟨htg2, hkd⟩ | ⟨htg2, hkd⟩
          · exact ⟨vv, rid, ⟨r, hr, hrid, by rw [hkind, hkd]⟩, hne,
              by rw [hce, htg']⟩
          · exfalso
            rw [hh, htg2] at htg'
            exact absurd htg' (by decide)
          · exfalso
            rw [hh, htg2] at htg'
            exact absurd htg' (by decide)
          · exact ⟨vv, rid, ⟨r, hr, hrid, by rw [hkind, hkd]⟩, hne,
              by rw [hce, htg']⟩
      · cases hfr : hasFirstRef refs (layout.findIdx (fun s => s == sect))
        · simp [hfr] at h3
        · have hctp : c = XNode.elem "w:titlePg" [] [] := by
            simp [hfr] at h3
            exact h3
          exact (hbad "w:titlePg" (by rw [hctp]; rfl)
            (by rcases htk with ⟨h, _⟩ | ⟨h, _⟩ <;> subst h <;> decide)).elim
    · have hpg : ∃ aa, c = XNode.elem "w:pgNumType" aa [] := by
        unfold pgNumTypeNodes at h2
        cases hcond : (sect.restart_page_numbering || sect.page_number_start.isSome)
        · simp [hcond] at h2
        · rw [hcond] at h2
          simp only [eq_self_iff_true, if_true, List.mem_cons, List.not_mem_nil,
            or_false] at h2
          exact ⟨_, h2⟩
      obtain ⟨aa, hca⟩ := hpg
      exact (hbad "w:pgNumType" (by rw [hca]; rfl)
        (by rcases htk with ⟨h, _⟩ | ⟨h, _⟩ <;> subst h <;> decide)).elim
  · simp only [List.mem_cons, List.not_mem_nil, or_false] at h1
    rcases h1 with h | h | h | h
    · have hsz : c.tagOf = "w:pgSz" := by
        rw [h]
        unfold pgSzNode
        split <;> rfl
      exact (hbad "w:pgSz" hsz
        (by rcases htk with ⟨h2, _⟩ | ⟨h2, _⟩ <;> subst h2 <;> decide)).elim
    · exact (hbad "w:pgMar" (by rw [h]; rfl)
        (by rcases htk with ⟨h2, _⟩ | ⟨h2, _⟩ <;> subst h2 <;> decide)).elim
    · exact (hbad "w:cols" (by rw [h]; rfl)
        (by rcases htk with ⟨h2, _⟩ | ⟨h2, _⟩ <;> subst h2 <;> decide)).elim
    · exact (hbad "w:docGrid" (by rw [h]; rfl)
        (by rcases htk with ⟨h2, _⟩ | ⟨h2, _⟩ <;> subst h2 <;> decide)).elim

/-- A reference child of a generated section-properties block passes
the per-reference integrity check. -/
theorem checkHFRef_none_generate (spec : DocumentSpec) (now : String) (g : Nat)
    (tagName kind : String) (hkd : kind = "header" ∨ kind = "footer")
    (tg vv : String) (r : HFRef)
    (hr : r ∈ (createDocumentRels
      (spec.paragraphs.any (fun p => !p.comments.isEmpty))
      (spec.paragraphs.any (fun p => p.numbering.isSome) ||
       spec.paragraphs.any (fun p => pyTruthyOptNat p.heading_level))
      (buildSectionPartManifest
        (normalizeSections spec.sections spec.paragraphs.length))).snd)
    (hkind : r.kind = kind) (hne : r.rid ≠ "") :
    checkHFRef (createDocumentRels
        (spec.paragraphs.any (fun p => !p.comments.isEmpty))
        (spec.paragraphs.any (fun p => p.numbering.isSome) ||
         spec.paragraphs.any (fun p => pyTruthyOptNat p.heading_level))
        (buildSectionPartManifest
          (normalizeSections spec.sections spec.paragraphs.length))).fst
      (partNames (generate spec now g).fst) tagName kind
      (XNode.elem tg [("w:type", vv), ("r:id", r.rid)] []) = none := by
  obtain ⟨e, he, hek, hres⟩ := relById_resolves _ _ _ r hr
  obtain ⟨hk2, hrel, _, ⟨k, ht⟩, hp⟩ := buildSectionPartManifest_shape _ e he
  have hekk : e.kind = kind := by rw [← hek, hkind]
  unfold checkHFRef
  rw [show (XNode.elem tg [("w:type", vv), ("r:id", r.rid)] []).attr? "r:id" =
    some r.rid from rfl]
  dsimp only
  rw [if_neg hne, hres]
  dsimp only
  rw [show (relNode r.rid e.relationship_type e.target).attr? "Type" =
    some e.relationship_type from rfl]
  rw [hrel, hekk]
  have hends : (!strEndsWith (relationshipTypeFor kind) ("/" ++ kind)) = false := by
    rcases hkd with h | h <;> subst h <;> decide
  rw [if_neg (by rw [Option.getD_some, hends]; exact Bool.false_ne_true)]
  rw [show (relNode r.rid (relationshipTypeFor kind) e.target).attr? "Target" =
    some e.target from rfl]
  dsimp only
  have htne : e.target ≠ "" := by
    rw [ht, hekk, String.append_assoc]
    exact kind_append_ne_empty kind _ hkd
  rw [if_neg htne]
  have hlst : lstripDotSlash e.target = e.target := by
    rw [ht, hekk, String.append_assoc]
    exact lstripDotSlash_kind kind _ hkd
  rw [hlst, ← hp]
  have hmemname : e.path ∈ partNames (generate spec now g).fst := by
    rw [partNames_generate]
    exact List.mem_append.mpr (Or.inl (List.mem_append.mpr (Or.inl
      (List.mem_append.mpr (Or.inr (List.mem_map.mpr ⟨e, he, rfl⟩))))))
  rw [if_pos (List.elem_eq_true_of_mem hmemname)]

/-- Every header/footer reference of a generated document resolves to a
matching relationship and an existing section part. -/
theorem validateSectionHeaderFooterIntegrity_generate (spec : DocumentSpec)
    (now : String) (g : Nat) :
    validateSectionHeaderFooterIntegrity (generate spec now g).fst = none := by
  unfold validateSectionHeaderFooterIntegrity
  rw [generate_document_part, generate_rels_part]
  dsimp only [treeOf, Option.bind]
  apply firstSomeP_eq_none
  intro sp hsp
  rw [sectPrsOf_createDocument] at hsp
  obtain ⟨_, _, _, _, _, hsect⟩ := createDocument_out spec
    (normalizeSections spec.sections spec.paragraphs.length)
    (createDocumentRels (spec.paragraphs.any (fun p => !p.comments.isEmpty))
      (spec.paragraphs.any (fun p => p.numbering.isSome) ||
       spec.paragraphs.any (fun p => pyTruthyOptNat p.heading_level))
      (buildSectionPartManifest
        (normalizeSections spec.sections spec.paragraphs.length))).snd
    { rng := initGeneratorRandomState spec g }
  obtain ⟨s2, b2, hspe⟩ := hsect sp hsp
  subst hspe
  apply firstSomeP_eq_none
  intro te hte
  simp only [List.mem_cons, List.not_mem_nil, or_false] at hte
  rcases hte with hte | hte <;> subst hte
  · apply firstSomeP_eq_none
    intro rf hrf
    rw [show ("w:" ++ (("headerReference", "header") :
      String × String).1 : String) = "w:headerReference" from rfl] at hrf
    obtain ⟨vv, rid, ⟨r, hr, hrid, hkind⟩, hne, hrfe⟩ :=
      sectPrNode_findChildren_shape _ _ _ _ _ "header" (Or.inl ⟨rfl, rfl⟩) rf hrf
    subst hrfe
    subst hrid
    exact checkHFRef_none_generate spec now g _ "header" (Or.inl rfl) _ vv r hr
      hkind hne
  · apply firstSomeP_eq_none
    intro rf hrf
    rw [show ("w:" ++ (("footerReference", "footer") :
      String × String).1 : String) = "w:footerReference" from rfl] at hrf
    obtain ⟨vv, rid, ⟨r, hr, hrid, hkind⟩, hne, hrfe⟩ :=
      sectPrNode_findChildren_shape _ _ _ _ _ "footer" (Or.inr ⟨rfl, rfl⟩) rf hrf
    subst hrfe
    subst hrid
    exact checkHFRef_none_generate spec now g _ "footer" (Or.inr rfl) _ vv r hr
      hkind hne

/-- C10 (amended): for every document spec whose title and author, and
the wall-clock timestamp, are clean for raw XML interpolation — every
character a valid XML data character other than a raw `&` or `<`, and
no `]]>` sequence — the container written by `generate` passes all
eight structural checks of `DocumentValidator.validate`.  (The original
claim quantifies over every spec; it fails on fields carrying raw
markup, such as a bare `&`, see the counterexample.) -/
theorem C10_validate_generate_amended (spec : DocumentSpec) (now : String)
    (g : Nat) (ht : xmlCleanStr spec.title = true)
    (ha : xmlCleanStr spec.author = true) (hnow : xmlCleanStr now = true) :
    validate (generate spec now g).fst = none := by
  unfold validate
  rw [validateZipStructure_generate,
    validateXmlWellformedness_generate spec now g ht ha hnow,
    validateSectionHeaderFooterIntegrity_generate,
    validateCommentIdUniqueness_generate,
    validateTrackedChangeIdUniqueness_generate,
    validateCommentAnchorIntegrity_generate,
    validateRelationshipCompleteness_generate,
    validateContentTypeCoverage_generate]

/-- C10 (counterexample): a title containing a raw `&` is interpolated
unescaped into `docProps/core.xml`, and validation fails with an XML
syntax error, refuting the original universally-quantified claim. -/
theorem C10_counterexample :
    validate (generate { title := "A & B" } "2024-05-05T00:00:00Z" 0).fst =
      some "XML syntax error in docProps/core.xml" := by decide

/-- Witness for the amended C10 theorem at a concrete clean spec. -/
theorem C10_amended_witness :
    xmlCleanStr ({ title := "Doc" : DocumentSpec }).title = true ∧
    validate (generate { title := "Doc" } "2024-05-05T00:00:00Z" 0).fst = none :=
  ⟨by decide, C10_validate_generate_amended { title := "Doc" }
    "2024-05-05T00:00:00Z" 0 (by decide) (by decide) (by decide)⟩

end Docxfix
